import Mathlib

/-!
# Ghost-audit harvest analysis: a shallow embedding

Definitions follow `scripts/find-window-start.mjs`, `scripts/ghost-audit.mjs`
and `scripts/merge-ghost-reports.mjs`.

Conventions of the embedding:

* JavaScript `BigInt` values and integral `Number` values are `Int`; a `BigInt`
  that the source serialises with `.toString()` and later reads back with
  `BigInt(...)` is represented by its value.
* `a / b` on `BigInt` truncates toward zero: `Int.tdiv`.
* An address is represented by its 160-bit value, so the case normalisation
  `lower` is the identity on the representation.
* A JavaScript object used as a string-keyed dictionary is an association list
  in insertion order; a `Map` likewise.
* A `while`/`for` loop is a function with a fuel argument; `none` means that the
  fuel ran out before the loop condition became false.
* Remote reads (`getTimestamp`) are total functions of the block number.
-/

namespace GhostAudit

/-! ## `scripts/find-window-start.mjs` -/

/-- Observable behaviour of one execution of `run` in `find-window-start.mjs`:
the blocks whose timestamp was requested (in call order), the block written to
standard output (if any) and the process exit code. -/
structure WindowRun where
  lookups : List Int
  stdout : Option Int
  exitCode : Nat
deriving DecidableEq, Repr

/-- The loop `while (lo + 1 < hi) { mid = floor((lo + hi) / 2); ... }` of
`find-window-start.mjs`, lines 48-53.  `seen` accumulates the blocks passed to
`getTimestamp`.  The result is the final `hi` with the lookups made. -/
def searchLoop (getTimestamp : Int → Int) (targetTs : Int) :
    Nat → Int → Int → List Int → Option (Int × List Int)
  | 0, lo, hi, seen => if lo + 1 < hi then none else some (hi, seen)
  | fuel + 1, lo, hi, seen =>
    if lo + 1 < hi then
      let mid := (lo + hi) / 2
      let midTs := getTimestamp mid
      if midTs ≥ targetTs then searchLoop getTimestamp targetTs fuel lo mid (seen ++ [mid])
      else searchLoop getTimestamp targetTs fuel mid hi (seen ++ [mid])
    else some (hi, seen)

/-- The function `run` of `find-window-start.mjs`, lines 31-56. -/
def run (getTimestamp : Int → Int)
    (REALIZED_BLOCK WINDOW_SECONDS SEARCH_BACKSTOP_BLOCKS : Int) (fuel : Nat) :
    Option WindowRun :=
  let realizedTs := getTimestamp REALIZED_BLOCK
  let targetTs := realizedTs - WINDOW_SECONDS
  let lo := max 0 (REALIZED_BLOCK - SEARCH_BACKSTOP_BLOCKS)
  let hi := REALIZED_BLOCK
  let loTs := getTimestamp lo
  if loTs > targetTs then
    some { lookups := [REALIZED_BLOCK, lo], stdout := none, exitCode := 1 }
  else
    match searchLoop getTimestamp targetTs fuel lo hi [] with
    | none => none
    | some (b, seen) =>
      some { lookups := [REALIZED_BLOCK, lo] ++ seen, stdout := some b, exitCode := 0 }

/-! ## `scripts/ghost-audit.mjs`: `buildBlockList` -/

/-- The loop `for (let b = start; b <= end; b += step) blocks.push(b)` of
`buildBlockList`, line 394. -/
def buildBlockListLoop (stop step : Int) : Nat → Int → List Int → Option (List Int)
  | 0, b, blocks => if b ≤ stop then none else some blocks
  | fuel + 1, b, blocks =>
    if b ≤ stop then buildBlockListLoop stop step fuel (b + step) (blocks ++ [b])
    else some blocks

/-- The function `buildBlockList(start, end, step)` of `ghost-audit.mjs`, lines 392-397. -/
def buildBlockList (start stop step : Int) (fuel : Nat) : Option (List Int) :=
  match buildBlockListLoop stop step fuel start [] with
  | none => none
  | some blocks =>
    if blocks.getLast? ≠ some stop then some (blocks ++ [stop]) else some blocks

/-! ## `scripts/ghost-audit.mjs`: receipts, logs and harvest rows -/

/-- An account or token address, represented by its 160-bit value. -/
abbrev Address := Nat

/-- The helper `lower(address)` (`address.toLowerCase()`): two spellings of one
address differ only in letter case, so on values it is the identity. -/
def lower (address : Address) : Address := address

/-- The constant `ZERO_ADDRESS`. -/
def ZERO_ADDRESS : Address := 0

/-- The constant `CONFIG.strategy`. -/
def CONFIG_strategy : Address := 0x47bA57B0522bdd422B81f7a2e075B2fE1Db3f99B

/-- A JavaScript value found in `receipt.status`: a string, or anything else. -/
inductive Status where
  | str (s : String)
  | other
deriving DecidableEq, Repr

/-- The function `parseReceiptStatus(status)`, lines 399-406. -/
def parseReceiptStatus : Status → String
  | .str s =>
    if s = "success" ∨ s = "reverted" then s
    else if s = "0x1" then "success"
    else if s = "0x0" then "reverted"
    else "reverted"
  | .other => "reverted"

/-- What `decodeEventLog` can recognise in a log's topics and data: the event
signatures of `strategyAbi` and `erc20Abi` are pairwise distinct, so a log
matches at most one of them. -/
inductive DecodedEvent where
  | ChargedFees (callFees beefyFees strategistFees : Int)
  | StratHarvest (harvester : Address) (wantHarvested tvl : Int)
  | Transfer (sender recipient : Address) (value : Int)
  | unknown
deriving DecidableEq, Repr

/-- One entry of `receipt.logs`: the emitting contract and the decoded content. -/
structure Log where
  address : Address
  event : DecodedEvent
deriving DecidableEq, Repr

/-- The receipt object handed to `buildHarvestRowFromReceipt`. -/
structure Receipt where
  status : Status
  blockNumber : Int
  gasUsed : Int
  effectiveGasPrice : Int
  logs : Option (List Log)
deriving DecidableEq, Repr

/-- The `wantPricing` argument; every property may be missing. -/
structure WantPricing where
  wantToken : Option Address
  wantPool : Option Address
  wantPoolSource : Option String
  priceWei : Option Int
  method : Option String
deriving DecidableEq, Repr

/-- A JavaScript object used as a dictionary from lower-cased token address to
`BigInt`, in insertion order. -/
abbrev Dict := List (Address × Int)

/-- Property read `obj[k]`; `none` is `undefined`. -/
def dictGet : Dict → Address → Option Int
  | [], _ => none
  | (k', v') :: rest, k => if k' = k then some v' else dictGet rest k

/-- Property write `obj[k] = v`: an existing key keeps its position. -/
def dictSet : Dict → Address → Int → Dict
  | [], k, v => [(k, v)]
  | (k', v') :: rest, k, v =>
    if k' = k then (k, v) :: rest else (k', v') :: dictSet rest k v

/-- The local `chargedFees`. -/
structure ChargedFees where
  callFees : Int
  beefyFees : Int
  strategistFees : Int
deriving DecidableEq, Repr

/-- The local `stratHarvest`. -/
structure StratHarvest where
  wantHarvested : Int
  tvl : Int
  harvester : Address
deriving DecidableEq, Repr

/-- The mutable locals of `buildHarvestRowFromReceipt`, lines 428-439. -/
structure ScanState where
  chargedFees : ChargedFees
  stratHarvest : StratHarvest
  rewardTransfersIn : Dict
  rewardTransfersOut : Dict
  nativeOutTransfers : Int
  nativeInTransfers : Int
  attributedNativeInByReward : Dict
  currentAttributionTokenLower : Option Address
  soldRewardByTokenLower : Dict
deriving DecidableEq, Repr

/-- Initial values of the locals, lines 428-439. -/
def initialScanState : ScanState :=
  { chargedFees := { callFees := 0, beefyFees := 0, strategistFees := 0 }
    stratHarvest := { wantHarvested := 0, tvl := 0, harvester := ZERO_ADDRESS }
    rewardTransfersIn := []
    rewardTransfersOut := []
    nativeOutTransfers := 0
    nativeInTransfers := 0
    attributedNativeInByReward := []
    currentAttributionTokenLower := none
    soldRewardByTokenLower := [] }

/-- First half of the loop body, lines 442-468: a log emitted by the strategy is
decoded against `strategyAbi`; events other than `ChargedFees` and
`StratHarvest` make `decodeEventLog` throw, which is caught and ignored. -/
def scanStrategyEvent (st : ScanState) (log : Log) : ScanState :=
  if lower log.address = lower CONFIG_strategy then
    match log.event with
    | .ChargedFees callFees beefyFees strategistFees =>
      { st with chargedFees :=
          { callFees := callFees, beefyFees := beefyFees, strategistFees := strategistFees } }
    | .StratHarvest harvester wantHarvested tvl =>
      { st with stratHarvest :=
          { harvester := harvester, wantHarvested := wantHarvested, tvl := tvl } }
    | _ => st
  else st

/-- Lines 483-488: a native-token transfer from the strategy. -/
def addNativeOut (nativeTokenLower tokenLower sender : Address) (value : Int)
    (st : ScanState) : ScanState :=
  if tokenLower = nativeTokenLower ∧ lower sender = lower CONFIG_strategy then
    { st with nativeOutTransfers := st.nativeOutTransfers + value }
  else st

/-- Lines 490-500: a native-token transfer to the strategy, credited to the current
attribution target when there is one. -/
def addNativeIn (nativeTokenLower tokenLower recipient : Address) (value : Int)
    (st : ScanState) : ScanState :=
  if tokenLower = nativeTokenLower ∧ lower recipient = lower CONFIG_strategy then
    let s := { st with nativeInTransfers := st.nativeInTransfers + value }
    match s.currentAttributionTokenLower with
    | some cur =>
      { s with attributedNativeInByReward :=
          (dictSet s.attributedNativeInByReward cur
            ((dictGet s.attributedNativeInByReward cur).getD 0 + value)) }
    | none => s
  else st

/-- Lines 502-508: a reward-token transfer to the strategy. -/
def addRewardIn (rewardTokenSet : List Address) (tokenLower recipient : Address)
    (value : Int) (st : ScanState) : ScanState :=
  if tokenLower ∈ rewardTokenSet ∧ lower recipient = lower CONFIG_strategy then
    { st with rewardTransfersIn :=
        (dictSet st.rewardTransfersIn tokenLower
          ((dictGet st.rewardTransfersIn tokenLower).getD 0 + value)) }
  else st

/-- Lines 510-521: a reward-token transfer from the strategy; a non-zero one moves the
attribution marker. -/
def addRewardOut (rewardTokenSet : List Address) (tokenLower sender : Address)
    (value : Int) (st : ScanState) : ScanState :=
  if tokenLower ∈ rewardTokenSet ∧ lower sender = lower CONFIG_strategy then
    let s :=
      { st with
        rewardTransfersOut :=
          (dictSet st.rewardTransfersOut tokenLower
            ((dictGet st.rewardTransfersOut tokenLower).getD 0 + value))
        soldRewardByTokenLower :=
          (dictSet st.soldRewardByTokenLower tokenLower
            ((dictGet st.soldRewardByTokenLower tokenLower).getD 0 + value)) }
    if value > 0 then { s with currentAttributionTokenLower := some tokenLower } else s
  else st

/-- Second half of the loop body, lines 470-524: the log is decoded against
`erc20Abi`; anything but a `Transfer` throws and is ignored.  The four `if`
statements run one after the other. -/
def scanTransfer (rewardTokenSet : List Address) (nativeTokenLower : Address)
    (st : ScanState) (log : Log) : ScanState :=
  let tokenLower := lower log.address
  match log.event with
  | .Transfer sender recipient value =>
    let st1 := addNativeOut nativeTokenLower tokenLower sender value st
    let st2 := addNativeIn nativeTokenLower tokenLower recipient value st1
    let st3 := addRewardIn rewardTokenSet tokenLower recipient value st2
    addRewardOut rewardTokenSet tokenLower sender value st3
  | _ => st

/-- One iteration of `for (const log of receipt.logs ?? [])`, lines 441-525. -/
def scanLog (rewardTokenSet : List Address) (nativeTokenLower : Address)
    (st : ScanState) (log : Log) : ScanState :=
  scanTransfer rewardTokenSet nativeTokenLower (scanStrategyEvent st log) log

/-- The whole loop over the logs, in emitted order. -/
def scanLogs (rewardTokenSet : List Address) (nativeTokenLower : Address)
    (logs : List Log) : ScanState :=
  logs.foldl (scanLog rewardTokenSet nativeTokenLower) initialScanState

/-- The `chargedFees` property of a successful row. -/
structure RowChargedFees where
  callFees : Int
  beefyFees : Int
  strategistFees : Int
  totalFeePaid : Int
deriving DecidableEq, Repr

/-- The `estimated.wantPricing` property of a successful row. -/
structure RowWantPricing where
  wantToken : Address
  wantPool : Address
  wantPoolSource : Option String
  priceWei : Int
  method : Option String
deriving DecidableEq, Repr

/-- The `estimated` property of a successful row. -/
structure Estimated where
  grossNativeOutWei : Int
  netNativeAfterGasWei : Int
  keeperCallFeeMinusGasWei : Int
  wantPricing : RowWantPricing
  grossProfitWantWei : Int
  grossProfitEthWei : Int
  netProfitWantWei : Int
  netProfitEthWei : Int
  nativeInWei : Int
  nativeOutWei : Int
deriving DecidableEq, Repr

/-- The `swapAttribution` property of a successful row. -/
structure SwapAttribution where
  nativeInByReward : Dict
  rewardSoldByToken : Dict
deriving DecidableEq, Repr

/-- The object returned at lines 548-603 (`ok: true`). -/
structure SuccessRow where
  block : Int
  simulatedBlock : Int
  txHash : String
  gasUsed : Int
  gasPrice : Int
  gasCostWei : Int
  l2GasCostWei : Int
  l1FeeWei : Int
  chargedFees : RowChargedFees
  estimated : Estimated
  stratHarvest : StratHarvest
  rewardTransfersIn : Dict
  rewardTransfersOut : Dict
  swapAttribution : SwapAttribution
deriving DecidableEq, Repr

/-- A harvest row.  A failed row (`ok: false`) has `block` and `error`, and may
have `simulatedBlock` and `txHash`; a successful row (`ok: true`) has all the
properties of `SuccessRow`. -/
inductive HarvestRow where
  | failure (block : Int) (simulatedBlock : Option Int) (txHash : Option String)
      (error : String)
  | success (row : SuccessRow)
deriving DecidableEq, Repr

/-- The property `row.ok`. -/
def HarvestRow.ok : HarvestRow → Bool
  | .failure _ _ _ _ => false
  | .success _ => true

/-- The property `row.block`. -/
def HarvestRow.block : HarvestRow → Int
  | .failure block _ _ _ => block
  | .success row => row.block

/-- The property `row.simulatedBlock`, when present. -/
def HarvestRow.simulatedBlock : HarvestRow → Option Int
  | .failure _ simulatedBlock _ _ => simulatedBlock
  | .success row => some row.simulatedBlock

/-- The property `row.txHash`, when present. -/
def HarvestRow.txHash : HarvestRow → Option String
  | .failure _ _ txHash _ => txHash
  | .success row => some row.txHash

/-- The property `row.error`, when present. -/
def HarvestRow.error : HarvestRow → Option String
  | .failure _ _ _ error => some error
  | .success _ => none

/-- The properties that only a successful row carries (gas, fees, transfers,
attribution, profit), when present. -/
def HarvestRow.success? : HarvestRow → Option SuccessRow
  | .failure _ _ _ _ => none
  | .success row => some row

/-- The function `buildHarvestRowFromReceipt`, lines 408-604.
`Number(receipt.blockNumber)` is the block number itself. -/
def buildHarvestRowFromReceipt (targetBlock : Int) (txHash : String) (receipt : Receipt)
    (rewardTokenSet : List Address) (nativeTokenLower : Address)
    (wantPricing : Option WantPricing) (l1FeeWei : Option Int) : HarvestRow :=
  let receiptStatus := parseReceiptStatus receipt.status
  if receiptStatus ≠ "success" then
    .failure targetBlock (some receipt.blockNumber) (some txHash)
      ("reverted: status=" ++ receiptStatus)
  else
    let st := scanLogs rewardTokenSet nativeTokenLower (receipt.logs.getD [])
    let chargedFees := st.chargedFees
    let stratHarvest := st.stratHarvest
    let grossNativeOut := st.nativeOutTransfers
    let totalFeePaid := chargedFees.callFees + chargedFees.beefyFees + chargedFees.strategistFees
    let l2GasCostWei := receipt.gasUsed * receipt.effectiveGasPrice
    let l1FeeWeiFinal := l1FeeWei.getD 0
    let totalGasCostWei := l2GasCostWei + l1FeeWeiFinal
    let netNativeAfterGas := grossNativeOut - totalGasCostWei
    let wantHarvested := stratHarvest.wantHarvested
    let wantPriceWeiFinal := (wantPricing.bind (·.priceWei)).getD 0
    let grossProfitEthWei :=
      if wantPriceWeiFinal > 0 then Int.tdiv (wantHarvested * wantPriceWeiFinal) (10 ^ 18)
      else 0
    let netProfitEthWei := grossProfitEthWei - totalGasCostWei
    let netProfitWantWei :=
      if wantPriceWeiFinal > 0 then
        wantHarvested - Int.tdiv (totalGasCostWei * 10 ^ 18) wantPriceWeiFinal
      else wantHarvested
    .success
      { block := targetBlock
        simulatedBlock := receipt.blockNumber
        txHash := txHash
        gasUsed := receipt.gasUsed
        gasPrice := receipt.effectiveGasPrice
        gasCostWei := totalGasCostWei
        l2GasCostWei := l2GasCostWei
        l1FeeWei := l1FeeWeiFinal
        chargedFees :=
          { callFees := chargedFees.callFees
            beefyFees := chargedFees.beefyFees
            strategistFees := chargedFees.strategistFees
            totalFeePaid := totalFeePaid }
        estimated :=
          { grossNativeOutWei := grossNativeOut
            netNativeAfterGasWei := netNativeAfterGas
            keeperCallFeeMinusGasWei := chargedFees.callFees - totalGasCostWei
            wantPricing :=
              { wantToken := (wantPricing.bind (·.wantToken)).getD ZERO_ADDRESS
                wantPool := (wantPricing.bind (·.wantPool)).getD ZERO_ADDRESS
                wantPoolSource := wantPricing.bind (·.wantPoolSource)
                priceWei := wantPriceWeiFinal
                method := wantPricing.bind (·.method) }
            grossProfitWantWei := wantHarvested
            grossProfitEthWei := grossProfitEthWei
            netProfitWantWei := netProfitWantWei
            netProfitEthWei := netProfitEthWei
            nativeInWei := st.nativeInTransfers
            nativeOutWei := st.nativeOutTransfers }
        stratHarvest :=
          { harvester := stratHarvest.harvester
            wantHarvested := stratHarvest.wantHarvested
            tvl := stratHarvest.tvl }
        rewardTransfersIn := st.rewardTransfersIn
        rewardTransfersOut := st.rewardTransfersOut
        swapAttribution :=
          { nativeInByReward := st.attributedNativeInByReward
            rewardSoldByToken := st.soldRewardByTokenLower } }

/-! ## Ranking (`ghost-audit.mjs`, lines 904-928) and merging (`merge-ghost-reports.mjs`) -/

/-- The method `Array.prototype.sort(compareFn)`.  ECMAScript requires the sort
to be stable: `a` is placed before `b` when `compareFn(a, b) < 0`, and elements
that compare equal keep their relative order.  For a comparator that induces a
total preorder this determines the result, which stable insertion computes. -/
def arraySort {α : Type} (compareFn : α → α → Int) (xs : List α) : List α :=
  xs.insertionSort (fun a b => compareFn a b ≤ 0)

/-- The comparator body `a > b ? -1 : a < b ? 1 : 0` applied to two net profits
(`ghost-audit.mjs` lines 920-926, `merge-ghost-reports.mjs` lines 61-67). -/
def compareNetProfit (a b : Int) : Int :=
  if a > b then -1 else if a < b then 1 else 0

/-- An element of `scored` in `ghost-audit.mjs`, lines 909-918. -/
structure Scored where
  block : Int
  grossNativeOutWei : Int
  netNativeAfterGasWei : Int
  netProfitEthWei : Int
  netProfitWantWei : Int
  gasCostWei : Int
  keeperCallFeeMinusGasWei : Int
  row : SuccessRow
deriving DecidableEq, Repr

/-- The mapping function of `successful.map(...)`, lines 909-918. -/
def toScored (r : SuccessRow) : Scored :=
  { block := r.block
    grossNativeOutWei := r.estimated.grossNativeOutWei
    netNativeAfterGasWei := r.estimated.netNativeAfterGasWei
    netProfitEthWei := r.estimated.netProfitEthWei
    netProfitWantWei := r.estimated.netProfitWantWei
    gasCostWei := r.gasCostWei
    keeperCallFeeMinusGasWei := r.estimated.keeperCallFeeMinusGasWei
    row := r }

/-- The rows kept by `results.filter((r) => r.ok)`, line 904. -/
def successfulRows (results : List HarvestRow) : List SuccessRow :=
  results.filterMap HarvestRow.success?

/-- Lines 904-926 of `ghost-audit.mjs`: filter, fail when nothing succeeded,
score and sort.  The result is the sorted `scored` array. -/
def rankResults (results : List HarvestRow) : Except String (List Scored) :=
  let successful := successfulRows results
  if successful.length = 0 then .error "No successful harvest simulations in window."
  else
    .ok (arraySort (fun a b => compareNetProfit a.netProfitEthWei b.netProfitEthWei)
      (successful.map toScored))

/-- The report object read by `readReport` in `merge-ghost-reports.mjs`, as far
as `run` reads it: `report.rows` and `report.realized`. -/
structure Report where
  rows : Option (List HarvestRow)
  realized : Option HarvestRow
deriving DecidableEq, Repr

/-- The `Map` `rowsByBlock`, in insertion order of its keys. -/
abbrev RowMap := List (Int × SuccessRow)

/-- The method `Map.prototype.set`: an existing key keeps its position and gets
the new value, a new key is appended. -/
def mapSet : RowMap → Int → SuccessRow → RowMap
  | [], k, v => [(k, v)]
  | (k', v') :: rest, k, v =>
    if k' = k then (k, v) :: rest else (k', v') :: mapSet rest k v

/-- The method `Map.prototype.get`. -/
def mapGet : RowMap → Int → Option SuccessRow
  | [], _ => none
  | (k', v') :: rest, k => if k' = k then some v' else mapGet rest k

/-- Body of the inner loop, lines 35-38: a row that is not `ok` is skipped. -/
def addRow (rowsByBlock : RowMap) (row : HarvestRow) : RowMap :=
  match row with
  | .failure _ _ _ _ => rowsByBlock
  | .success r => mapSet rowsByBlock r.block r

/-- The two nested loops of lines 33-39 over the loaded reports. -/
def collectRowsByBlock (loaded : List Report) : RowMap :=
  loaded.foldl (fun m report => (report.rows.getD []).foldl addRow m) []

/-- Line 41: `[...rowsByBlock.values()].sort((a, b) => a.block - b.block)`. -/
def mergedRows (loaded : List Report) : List SuccessRow :=
  arraySort (fun a b => a.block - b.block) ((collectRowsByBlock loaded).map (·.2))

/-- An element of `scored` in `merge-ghost-reports.mjs`, lines 46-59. -/
structure MergedScored where
  block : Int
  netProfitEthWei : Int
  netProfitWantWei : Int
  grossProfitEthWei : Int
  grossProfitWantWei : Int
  netNativeAfterGasWei : Int
  grossNativeOutWei : Int
  gasCostWei : Int
  l2GasCostWei : Int
  l1FeeWei : Int
  keeperCallFeeMinusGasWei : Int
  row : SuccessRow
deriving DecidableEq, Repr

/-- The mapping function of `rows.map(...)`, lines 46-59. -/
def toMergedScored (row : SuccessRow) : MergedScored :=
  { block := row.block
    netProfitEthWei := row.estimated.netProfitEthWei
    netProfitWantWei := row.estimated.netProfitWantWei
    grossProfitEthWei := row.estimated.grossProfitEthWei
    grossProfitWantWei := row.estimated.grossProfitWantWei
    netNativeAfterGasWei := row.estimated.netNativeAfterGasWei
    grossNativeOutWei := row.estimated.grossNativeOutWei
    gasCostWei := row.gasCostWei
    l2GasCostWei := row.l2GasCostWei
    l1FeeWei := row.l1FeeWei
    keeperCallFeeMinusGasWei := row.estimated.keeperCallFeeMinusGasWei
    row := row }

/-- Lines 33-67 of `merge-ghost-reports.mjs`: union by block, sort by block,
fail when empty, score and sort.  The result is the sorted `scored` array. -/
def mergeRank (loaded : List Report) : Except String (List MergedScored) :=
  let rows := mergedRows loaded
  if rows.length = 0 then .error "No successful rows found while merging reports."
  else
    .ok (arraySort (fun a b => compareNetProfit a.netProfitEthWei b.netProfitEthWei)
      (rows.map toMergedScored))

/-! ## Reference notions used to state the properties -/

/-- Whether a log is a native-token `Transfer` to the strategy. -/
def isNativeInflow (nativeTokenLower : Address) (log : Log) : Bool :=
  match log.event with
  | .Transfer _ recipient _ =>
    decide (lower log.address = nativeTokenLower ∧ lower recipient = lower CONFIG_strategy)
  | _ => false

/-- Whether a log is a non-zero `Transfer` of a configured reward token from the strategy. -/
def isRewardSale (rewardTokenSet : List Address) (log : Log) : Bool :=
  match log.event with
  | .Transfer sender _ value =>
    decide (lower log.address ∈ rewardTokenSet ∧ lower sender = lower CONFIG_strategy ∧ value > 0)
  | _ => false

/-- The value carried by a `Transfer` log (0 for any other log). -/
def transferValue (log : Log) : Int :=
  match log.event with
  | .Transfer _ _ value => value
  | _ => 0

/-- The token of the most recent reward sale among the given logs, if any. -/
def lastRewardSale (rewardTokenSet : List Address) (logs : List Log) : Option Address :=
  ((logs.filter (isRewardSale rewardTokenSet)).getLast?).map (fun log => lower log.address)

/-- The sum of the values of the native inflows at those positions `i` of `logs`
whose most recent preceding reward sale (among `logs[0..i)`) is a sale of `t`. -/
def nativeInAfterSaleOf (rewardTokenSet : List Address) (nativeTokenLower : Address)
    (t : Address) (logs : List Log) : Int :=
  ((List.range logs.length).map (fun i =>
    match logs[i]? with
    | some log =>
      if isNativeInflow nativeTokenLower log = true ∧
          lastRewardSale rewardTokenSet (logs.take i) = some t then transferValue log
      else 0
    | none => 0)).sum

/-- Some native inflow of `logs` has, as its most recent preceding reward sale, a sale
of `t`. -/
def creditedTo (rewardTokenSet : List Address) (nativeTokenLower : Address) (t : Address)
    (logs : List Log) : Prop :=
  ∃ i log, logs[i]? = some log ∧ isNativeInflow nativeTokenLower log = true ∧
    lastRewardSale rewardTokenSet (logs.take i) = some t

/-- The net profit by which rows are ranked. -/
def netProfit (r : SuccessRow) : Int := r.estimated.netProfitEthWei

/-- `ranked` is `original` put in non-increasing order of net profit with rows of equal
net profit kept in their original relative order: it is a permutation of `original`, it
is non-increasing, and for every value `v` the rows of net profit `v` appear in `ranked`
in the same order as in `original`. -/
def StablyRanked (original ranked : List SuccessRow) : Prop :=
  ranked.Perm original ∧
  ranked.Pairwise (fun a b => netProfit a ≥ netProfit b) ∧
  ∀ v : Int, ranked.filter (fun r => decide (netProfit r = v))
    = original.filter (fun r => decide (netProfit r = v))

/-- `opt` is a row of `original` of maximal net profit and, among the rows attaining that
maximum, the earliest in `original`. -/
def EarliestMaximum (original : List SuccessRow) (opt : SuccessRow) : Prop :=
  opt ∈ original ∧ (∀ r ∈ original, netProfit r ≤ netProfit opt) ∧
  (original.filter (fun r => decide (netProfit r = netProfit opt))).head? = some opt

/-- The row list sorted with the ranking comparator, before scoring. -/
def rankRows (rows : List SuccessRow) : List SuccessRow :=
  arraySort (fun a b => compareNetProfit (netProfit a) (netProfit b)) rows

/-- All rows of the loaded reports, in `RUN_TAGS` order and, within a report, in the
order of its `rows` array. -/
def allRows : List Report → List HarvestRow
  | [] => []
  | report :: rest => report.rows.getD [] ++ allRows rest

/-- The last successful row for block `b` in a sequence of rows, if any. -/
def lastSuccessfulRowFor (b : Int) (rows : List HarvestRow) : Option SuccessRow :=
  ((successfulRows rows).filter (fun r => decide (r.block = b))).getLast?

/-- Line 928 of `ghost-audit.mjs`: `const optimal = scored[0]`, when ranking succeeded. -/
def ghostOptimal (results : List HarvestRow) : Option Scored :=
  match rankResults results with
  | .ok scored => scored[0]?
  | .error _ => none

/-- Line 69 of `merge-ghost-reports.mjs`: `const optimal = scored[0]`, when ranking
succeeded. -/
def mergeOptimal (loaded : List Report) : Option MergedScored :=
  match mergeRank loaded with
  | .ok scored => scored[0]?
  | .error _ => none

/-- Well-formedness of `rowsByBlock`: keys are distinct and each row sits under its block. -/
def RowMapWF (m : RowMap) : Prop :=
  (m.map Prod.fst).Nodup ∧ ∀ p ∈ m, p.2.block = p.1

/-! ## `scripts/ghost-audit.mjs`: profit arithmetic with checked division -/

/-- The `BigInt` operator `a / b`: it throws a `RangeError` when `b` is `0n`, and
otherwise truncates toward zero. -/
def bigIntDiv (a b : Int) : Except String Int :=
  if b = 0 then .error "RangeError: Division by zero" else .ok (Int.tdiv a b)

/-- Lines 538-546 of `buildHarvestRowFromReceipt`, with every division performed through
`bigIntDiv`: the result is `(grossProfitEthWei, netProfitEthWei, netProfitWantWei)`, or
the exception of a division that was given a zero divisor. -/
def estimateProfit (wantHarvested totalGasCostWei wantPriceWeiFinal : Int) :
    Except String (Int × Int × Int) :=
  let gross : Except String Int :=
    if wantPriceWeiFinal > 0 then bigIntDiv (wantHarvested * wantPriceWeiFinal) (10 ^ 18)
    else Except.ok 0
  match gross with
  | Except.error e => Except.error e
  | Except.ok grossProfitEthWei =>
    let netProfitEthWei := grossProfitEthWei - totalGasCostWei
    let quotient : Except String Int :=
      if wantPriceWeiFinal > 0 then bigIntDiv (totalGasCostWei * 10 ^ 18) wantPriceWeiFinal
      else Except.ok 0
    match quotient with
    | Except.error e => Except.error e
    | Except.ok q =>
      let netProfitWantWei := if wantPriceWeiFinal > 0 then wantHarvested - q else wantHarvested
      Except.ok (grossProfitEthWei, netProfitEthWei, netProfitWantWei)

/-! ## Reference notions for the profit figures -/

/-- Whether a log is a `StratHarvest` event emitted by the strategy. -/
def isStrategyHarvest (log : Log) : Bool :=
  match log.event with
  | .StratHarvest _ _ _ => decide (lower log.address = lower CONFIG_strategy)
  | _ => false

/-- The `wantHarvested` value of the `StratHarvest` event of the receipt: that of the last
such event emitted by the strategy, and 0 when there is none. -/
def reportedWantHarvested (logs : List Log) : Int :=
  match (logs.filter isStrategyHarvest).getLast? with
  | some log =>
    (match log.event with
      | .StratHarvest _ wantHarvested _ => wantHarvested
      | _ => 0)
  | none => 0

/-- Whether a log is a `Transfer` of a configured reward token from the strategy, of any
value. -/
def isRewardOutflow (rewardTokenSet : List Address) (log : Log) : Bool :=
  match log.event with
  | .Transfer sender _ _ =>
    decide (lower log.address ∈ rewardTokenSet ∧ lower sender = lower CONFIG_strategy)
  | _ => false

/-- The amounts carried by a log are non-negative, as values decoded from `uint256`
fields are. -/
def nonnegAmounts (log : Log) : Prop :=
  match log.event with
  | .ChargedFees callFees beefyFees strategistFees =>
    0 ≤ callFees ∧ 0 ≤ beefyFees ∧ 0 ≤ strategistFees
  | .StratHarvest _ wantHarvested tvl => 0 ≤ wantHarvested ∧ 0 ≤ tvl
  | .Transfer _ _ value => 0 ≤ value
  | .unknown => True

/-- Every value stored in a dictionary is non-negative. -/
def dictNonneg (d : Dict) : Prop := ∀ p ∈ d, 0 ≤ p.2

/-- Every amount accumulated by the scan is non-negative. -/
structure ScanNonneg (st : ScanState) : Prop where
  callFees : 0 ≤ st.chargedFees.callFees
  beefyFees : 0 ≤ st.chargedFees.beefyFees
  strategistFees : 0 ≤ st.chargedFees.strategistFees
  wantHarvested : 0 ≤ st.stratHarvest.wantHarvested
  tvl : 0 ≤ st.stratHarvest.tvl
  rewardTransfersIn : dictNonneg st.rewardTransfersIn
  rewardTransfersOut : dictNonneg st.rewardTransfersOut
  nativeOutTransfers : 0 ≤ st.nativeOutTransfers
  nativeInTransfers : 0 ≤ st.nativeInTransfers
  attributedNativeInByReward : dictNonneg st.attributedNativeInByReward
  soldRewardByTokenLower : dictNonneg st.soldRewardByTokenLower

/-! ## `scripts/ghost-audit.mjs`: `simulateBlock`, the realized replay and `run` -/

/-- How a script run ends abnormally. -/
inductive RunFailure where
  /-- A `throw new Error(message)` written in the script. -/
  | thrown (message : String)
  /-- A collaborator call made outside any `try` block rejected. -/
  | rejected (message : String)
  /-- A property was read from `undefined` or `null`. -/
  | typeError (message : String)
deriving DecidableEq, Repr

/-- The result of a step that may end abnormally. -/
inductive Outcome (α : Type) where
  | ok (value : α)
  | failed (failure : RunFailure)
deriving DecidableEq, Repr

/-- What the rest of `run` reads from the result of `collectStaticStrategyContext`. -/
structure StaticContext where
  pricingWantToken : Option Address
  pricingWantPool : Option Address
  pricingWantPoolSource : Option String
  strategyWant : Address
  native : Address
  curveRewards : List Address
  rewardsV3 : List Address
deriving DecidableEq, Repr

/-- The method `Set.prototype.add`. -/
def setAdd (s : List Address) (a : Address) : List Address :=
  if a ∈ s then s else s ++ [a]

/-- Lines 868-874: the set `rewardTokens`. -/
def rewardTokensOf (staticContext : StaticContext) : List Address :=
  (staticContext.rewardsV3.map lower).foldl setAdd
    ((staticContext.curveRewards.map lower).foldl setAdd [])

/-- The function `safeReadCurveLpPriceWei` (and `safeReadCurveLpPriceWeiOnFork`): the
first of the two reads that succeeds gives the price; `none` is a read that threw. -/
def safeReadCurveLpPriceWei (virtualPrice lpPrice : Option Int) : Option Int × Option String :=
  match virtualPrice with
  | some priceWei => (some priceWei, some "get_virtual_price()")
  | none =>
    match lpPrice with
    | some priceWei => (some priceWei, some "lp_price()")
    | none => (none, none)

/-- How the L1 data-fee computation of lines 672-712 goes. -/
inductive L1FeeRead where
  /-- `getTransaction` threw, so `tx` is `null`. -/
  | txFetchFailed
  /-- `serializeTransaction` threw. -/
  | serializeFailed
  /-- The `getL1Fee` read threw. -/
  | oracleFailed
  /-- The oracle returned a fee. -/
  | fee (l1FeeWei : Int)
deriving DecidableEq, Repr

/-- Lines 672-712: `l1FeeWei` stays `null` unless every step succeeds. -/
def l1FeeOfRead : L1FeeRead → Option Int
  | .txFetchFailed => none
  | .serializeFailed => none
  | .oracleFailed => none
  | .fee l1FeeWei => some l1FeeWei

/-- What the collaborators answer while one candidate block is simulated. -/
structure CandidateWorld where
  /-- The message with which `anvil_reset` rejects, if it does. -/
  resetError : Option String
  virtualPrice : Option Int
  lpPrice : Option Int
  /-- `sendTransaction`: the message of the error or the transaction hash. -/
  submit : Except String String
  /-- `evm_mine` followed by `getTransactionReceipt`: the message of the error or the
  receipt. -/
  receipt : Except String Receipt
  l1Fee : L1FeeRead

/-- The text of `receipt.status` inside a template string. -/
def statusText : Status → String
  | .str s => s
  | .other => "null"

/-- The `wantPricing` object built at lines 614-624 and 829-841. -/
def wantPricingOf (staticContext : StaticContext) (price : Option Int × Option String) :
    WantPricing :=
  { wantToken := some (staticContext.pricingWantToken.getD staticContext.strategyWant)
    wantPool := some (staticContext.pricingWantPool.getD staticContext.strategyWant)
    wantPoolSource := staticContext.pricingWantPoolSource
    priceWei := some (price.1.getD 0)
    method := price.2 }

/-- The function `simulateBlock`, lines 606-723. -/
def simulateBlock (world : Int → CandidateWorld) (targetBlock : Int)
    (staticContext : StaticContext) (rewardTokenSet : List Address)
    (nativeTokenLower : Address) : Outcome HarvestRow :=
  let w := world targetBlock
  match w.resetError with
  | some message => .failed (.rejected message)
  | none =>
    let wantPricing := wantPricingOf staticContext (safeReadCurveLpPriceWei w.virtualPrice w.lpPrice)
    match w.submit with
    | .error message => .ok (.failure targetBlock none none ("submit_failed: " ++ message))
    | .ok txHash =>
      match w.receipt with
      | .error message =>
        .ok (.failure targetBlock none (some txHash) ("receipt_failed: " ++ message))
      | .ok receipt =>
        if receipt.status ≠ .str "success" then
          .ok (.failure targetBlock (some receipt.blockNumber) (some txHash)
            ("reverted: status=" ++ statusText receipt.status))
        else
          let l1FeeWei := l1FeeOfRead w.l1Fee
          .ok (buildHarvestRowFromReceipt targetBlock txHash receipt rewardTokenSet
            nativeTokenLower (some wantPricing) l1FeeWei)

/-- The loop of lines 892-902: each candidate is announced on standard output, simulated,
and its row pushed.  The result is the blocks announced so far with the rows, or with the
failure that ended the loop. -/
def simulateAll (world : Int → CandidateWorld) (staticContext : StaticContext)
    (rewardTokenSet : List Address) (nativeTokenLower : Address) :
    List Int → List Int → List HarvestRow → List Int × Outcome (List HarvestRow)
  | [], announced, results => (announced, .ok results)
  | block :: rest, announced, results =>
    match simulateBlock world block staticContext rewardTokenSet nativeTokenLower with
    | .failed failure => (announced ++ [block], .failed failure)
    | .ok row =>
      simulateAll world staticContext rewardTokenSet nativeTokenLower rest
        (announced ++ [block]) (results ++ [row])

/-- The raw receipt returned by `eth_getTransactionReceipt`, as far as lines 773-791 read
it.  `l1Fee` is `none` when the property is absent, `some none` when it is present but
`BigInt` cannot parse it. -/
structure RawReceipt where
  blockNumber : Int
  gasUsed : Int
  effectiveGasPrice : Option Int
  gasPrice : Option Int
  status : Option String
  logs : Option (List Log)
  l1Fee : Option (Option Int)

/-- What the canonical chain answers during the realized replay. -/
structure RealizedWorld where
  rawReceipt : Option RawReceipt
  l1Fee : L1FeeRead
  virtualPrice : Option Int
  lpPrice : Option Int

/-- The function `buildRealizedRowFromForkTx`, lines 760-852. -/
def buildRealizedRowFromForkTx (txHash : String) (chain : RealizedWorld)
    (staticContext : StaticContext) (rewardTokenSet : List Address)
    (nativeTokenLower : Address) : Outcome HarvestRow :=
  if txHash = "" then .failed (.thrown "Missing REALIZED_TX_HASH / txHash.")
  else
    match chain.rawReceipt with
    | none => .failed (.thrown ("Receipt not found for tx " ++ txHash))
    | some rawReceipt =>
      let receiptBlock := rawReceipt.blockNumber
      let receipt : Receipt :=
        { blockNumber := rawReceipt.blockNumber
          gasUsed := rawReceipt.gasUsed
          effectiveGasPrice := (rawReceipt.effectiveGasPrice.orElse
            (fun _ => rawReceipt.gasPrice)).getD 0
          status := if rawReceipt.status = some "0x1" then .str "success" else .str "reverted"
          logs := some (rawReceipt.logs.getD []) }
      let l1FeeFromReceipt : Option Int :=
        match rawReceipt.l1Fee with
        | some (some l1Fee) => some l1Fee
        | _ => none
      let l1FeeWei : Option Int :=
        match l1FeeFromReceipt with
        | some l1Fee => some l1Fee
        | none => some ((l1FeeOfRead chain.l1Fee).getD 0)
      let wantPricing :=
        wantPricingOf staticContext (safeReadCurveLpPriceWei chain.virtualPrice chain.lpPrice)
      .ok (buildHarvestRowFromReceipt receiptBlock txHash receipt rewardTokenSet
        nativeTokenLower (some wantPricing) l1FeeWei)

/-- The integer part of the `delta` object (the `...Eth` properties are the same values
rendered as floating-point numbers and are not represented). -/
structure Delta where
  netProfitEthWei : Int
  grossProfitEthWei : Int
  gasCostWei : Int
deriving DecidableEq, Repr

/-- The settings of `process.env` that `CONFIG` reads for the window, when they are set
to integers. -/
structure ProcessEnv where
  REALIZED_TX_HASH : Option String
  REALIZED_BLOCK : Option Int
  WINDOW_START : Option Int
  WINDOW_END : Option Int
  STEP : Option Int
deriving DecidableEq, Repr

/-- The properties of `CONFIG` that `run` reads. -/
structure GhostConfig where
  txHash : String
  realizedBlock : Int
  windowStart : Int
  windowEnd : Int
  step : Int
deriving DecidableEq, Repr

/-- The object `CONFIG`, lines 18-35. -/
def CONFIG (env : ProcessEnv) : GhostConfig :=
  { txHash := env.REALIZED_TX_HASH.getD
      "0x1f19267099524175eb02901712c87f07185cd4f422e45f592b469b02b9b33122"
    realizedBlock := env.REALIZED_BLOCK.getD 41493767
    windowStart := env.WINDOW_START.getD 41493000
    windowEnd := (env.WINDOW_END.orElse (fun _ => env.REALIZED_BLOCK)).getD 41493767
    step := env.STEP.getD 20 }

/-- The `summary` object of `ghost-audit.mjs`, lines 947-988, without the echoed
configuration, the token metadata and the floating-point renderings. -/
structure Summary where
  blocksSimulated : Nat
  realized : HarvestRow
  realizedSimulated : Option SuccessRow
  optimal : SuccessRow
  delta : Delta
  top5ByNetProfitEth : List Scored
  rows : List HarvestRow
deriving DecidableEq, Repr

/-- What one execution of `run` in `ghost-audit.mjs` shows: the candidate blocks announced
on standard output by "Simulating block ...", and the summary written or the failure. -/
structure GhostRun where
  announced : List Int
  result : Outcome Summary
deriving DecidableEq, Repr

/-- Lines 904-988 of `run`: ranking, realized replay, deltas and summary. -/
def summarize (config : GhostConfig) (staticContext : StaticContext) (chain : RealizedWorld)
    (blocks : List Int) (results : List HarvestRow) : Outcome Summary :=
  match rankResults results with
  | .error message => .failed (.thrown message)
  | .ok scored =>
    match scored[0]? with
    | none => .failed (.typeError "optimal is undefined")
    | some optimal =>
      let realizedSim := scored.find? (fun s => decide (s.block = config.realizedBlock))
      match buildRealizedRowFromForkTx config.txHash chain staticContext
          (rewardTokensOf staticContext) (lower staticContext.native) with
      | .failed failure => .failed failure
      | .ok realized =>
        match realized with
        | .failure _ _ _ _ => .failed (.typeError "realized.estimated is undefined")
        | .success realizedRow =>
          let realizedNetProfitEthWei := realizedRow.estimated.netProfitEthWei
          let realizedGrossProfitEthWei := realizedRow.estimated.grossProfitEthWei
          let realizedGasCostWei := realizedRow.gasCostWei
          let optimalGrossProfitEthWei := optimal.row.estimated.grossProfitEthWei
          let optimalGasCostWei := optimal.row.gasCostWei
          let deltaNetWei := optimal.netProfitEthWei - realizedNetProfitEthWei
          let deltaGrossProfitEthWei := optimalGrossProfitEthWei - realizedGrossProfitEthWei
          let deltaGasWei := optimalGasCostWei - realizedGasCostWei
          .ok
            { blocksSimulated := blocks.length
              realized := realized
              realizedSimulated := realizedSim.map (·.row)
              optimal := optimal.row
              delta :=
                { netProfitEthWei := deltaNetWei
                  grossProfitEthWei := deltaGrossProfitEthWei
                  gasCostWei := deltaGasWei }
              top5ByNetProfitEth := scored.take 5
              rows := results }

/-- The function `run` of `ghost-audit.mjs`, lines 862-1010, given the static context
that `collectStaticStrategyContext` returned.  `none` means that `buildBlockList` has not
returned within the fuel. -/
def ghostRun (config : GhostConfig) (staticContext : StaticContext)
    (world : Int → CandidateWorld) (chain : RealizedWorld) (fuel : Nat) : Option GhostRun :=
  let nativeTokenLower := lower staticContext.native
  let rewardTokens := rewardTokensOf staticContext
  match buildBlockList config.windowStart config.windowEnd config.step fuel with
  | none => none
  | some blocks =>
    match simulateAll world staticContext rewardTokens nativeTokenLower blocks [] [] with
    | (announced, .failed failure) => some { announced := announced, result := .failed failure }
    | (announced, .ok results) =>
      some { announced := announced
             result := summarize config staticContext chain blocks results }

/-! ## `scripts/merge-ghost-reports.mjs`: `run` -/

/-- The `merged` object of `merge-ghost-reports.mjs`, lines 90-135, without the echoed
properties of the first report and the floating-point renderings. -/
structure MergedSummary where
  blocksSimulated : Nat
  realized : HarvestRow
  optimal : SuccessRow
  delta : Delta
  top5ByNetProfitEth : List MergedScored
  rows : List SuccessRow
deriving DecidableEq, Repr

/-- The function `run` of `merge-ghost-reports.mjs`, lines 29-149, given the reports that
`readReport` loaded. -/
def mergeRun (REALIZED_BLOCK : Int) (loaded : List Report) : Outcome MergedSummary :=
  match loaded with
  | [] => .failed (.typeError "loaded[0] is undefined")
  | base :: _ =>
    match mergeRank loaded with
    | .error message => .failed (.thrown message)
    | .ok scored =>
      match scored[0]? with
      | none => .failed (.typeError "optimal is undefined")
      | some optimal =>
        let realizedRow : Option HarvestRow :=
          match base.realized with
          | some realized => some realized
          | none =>
            (scored.find? (fun x => decide (x.block = REALIZED_BLOCK))).map
              (fun x => HarvestRow.success x.row)
        match realizedRow with
        | none =>
          .failed (.thrown ("Missing realized metrics for block " ++
            toString REALIZED_BLOCK ++ "."))
        | some (.failure _ _ _ _) => .failed (.typeError "realizedRow.estimated is undefined")
        | some (.success realized) =>
          let realizedNetProfitEthWei := realized.estimated.netProfitEthWei
          let realizedGrossProfitEthWei := realized.estimated.grossProfitEthWei
          let realizedGasCostWei := realized.gasCostWei
          let optimalGrossProfitEthWei := optimal.row.estimated.grossProfitEthWei
          let optimalGasCostWei := optimal.row.gasCostWei
          let deltaNet := optimal.netProfitEthWei - realizedNetProfitEthWei
          let deltaGrossProfitEthWei := optimalGrossProfitEthWei - realizedGrossProfitEthWei
          let deltaGas := optimalGasCostWei - realizedGasCostWei
          .ok
            { blocksSimulated := (mergedRows loaded).length
              realized := .success realized
              optimal := optimal.row
              delta :=
                { netProfitEthWei := deltaNet
                  grossProfitEthWei := deltaGrossProfitEthWei
                  gasCostWei := deltaGas }
              top5ByNetProfitEth := scored.take 5
              rows := mergedRows loaded }

/-! ## Reference notions for the conservation of attributed inflows -/

/-- The sum of the values of a dictionary. -/
def dictSum (d : Dict) : Int := (d.map Prod.snd).sum

/-- The value of a log as a native inflow: its transfer value when it is a native-token
transfer to the strategy, and 0 otherwise. -/
def nativeInflowValue (nativeTokenLower : Address) (log : Log) : Int :=
  if isNativeInflow nativeTokenLower log = true then transferValue log else 0

/-- The sum of the native inflows that appear in the logs before the first non-zero
reward-token outflow from the strategy. -/
def nativeInBeforeFirstSale (rewardTokenSet : List Address) (nativeTokenLower : Address)
    (logs : List Log) : Int :=
  ((logs.takeWhile (fun log => !isRewardSale rewardTokenSet log)).map
    (nativeInflowValue nativeTokenLower)).sum

/-- The sum of the native inflows that no non-zero reward-token outflow precedes: those
before the first such outflow, and the inflow of that outflow's own log when that log is
also a native-token transfer to the strategy. -/
def uncreditedNativeIn (rewardTokenSet : List Address) (nativeTokenLower : Address)
    (logs : List Log) : Int :=
  nativeInBeforeFirstSale rewardTokenSet nativeTokenLower logs +
    match (logs.dropWhile (fun log => !isRewardSale rewardTokenSet log)).head? with
    | some log => nativeInflowValue nativeTokenLower log
    | none => 0

/-! ## Concrete inputs -/

/-- A chain with one block every two seconds: block `b` has timestamp `1000 + 2 * b`. -/
def twoSecondBlocks (b : Int) : Int := 1000 + 2 * b

/-- A successful receipt of the end-to-end scenario: 180000 gas at 50000000 wei, one
`StratHarvest` event of the strategy reporting `wantHarvested = 10^21`. -/
def scenarioReceipt : Receipt :=
  { status := .str "success"
    blockNumber := 41493767
    gasUsed := 180000
    effectiveGasPrice := 50000000
    logs := some [{ address := CONFIG_strategy, event := .StratHarvest 0 (10 ^ 21) 0 }] }

/-- The pricing of the end-to-end scenario: one want token is worth one native token. -/
def scenarioPricing : WantPricing :=
  { wantToken := none, wantPool := none, wantPoolSource := none,
    priceWei := some (10 ^ 18), method := none }

/-- A receipt whose status is the raw string `0x0`. -/
def revertedReceipt : Receipt :=
  { status := .str "0x0", blockNumber := 120, gasUsed := 21000, effectiveGasPrice := 7,
    logs := some [{ address := CONFIG_strategy, event := .StratHarvest 0 5 0 }] }

/-- Token addresses used in the attribution example. -/
def exampleNative : Address := 0x4200000000000000000000000000000000000006

/-- A first reward token of the attribution example. -/
def exampleRewardA : Address := 0xA1

/-- A second reward token of the attribution example. -/
def exampleRewardB : Address := 0xB2

/-- A successful receipt with: a native inflow of 5 before any sale; a sale of 10 units of
reward A; a native inflow of 7; a zero-value outflow of reward B; a native inflow of 3; a
sale of 4 units of reward B; a native inflow of 2. -/
def attributionReceipt : Receipt :=
  { status := .str "success"
    blockNumber := 200
    gasUsed := 100000
    effectiveGasPrice := 10
    logs := some
      [ { address := exampleNative, event := .Transfer 0x99 CONFIG_strategy 5 },
        { address := exampleRewardA, event := .Transfer CONFIG_strategy 0x99 10 },
        { address := exampleNative, event := .Transfer 0x99 CONFIG_strategy 7 },
        { address := exampleRewardB, event := .Transfer CONFIG_strategy 0x99 0 },
        { address := exampleNative, event := .Transfer 0x99 CONFIG_strategy 3 },
        { address := exampleRewardB, event := .Transfer CONFIG_strategy 0x99 4 },
        { address := exampleNative, event := .Transfer 0x99 CONFIG_strategy 2 } ] }

/-- A successful row for `block` with the given net profit and no other activity. -/
def exampleRow (block netProfitEthWei : Int) : SuccessRow :=
  { block := block
    simulatedBlock := block
    txHash := "0xee"
    gasUsed := 0
    gasPrice := 0
    gasCostWei := 0
    l2GasCostWei := 0
    l1FeeWei := 0
    chargedFees := { callFees := 0, beefyFees := 0, strategistFees := 0, totalFeePaid := 0 }
    estimated :=
      { grossNativeOutWei := 0
        netNativeAfterGasWei := 0
        keeperCallFeeMinusGasWei := 0
        wantPricing :=
          { wantToken := ZERO_ADDRESS, wantPool := ZERO_ADDRESS, wantPoolSource := none,
            priceWei := 1, method := none }
        grossProfitWantWei := netProfitEthWei
        grossProfitEthWei := netProfitEthWei
        netProfitWantWei := netProfitEthWei
        netProfitEthWei := netProfitEthWei
        nativeInWei := 0
        nativeOutWei := 0 }
    stratHarvest := { wantHarvested := netProfitEthWei, tvl := 0, harvester := ZERO_ADDRESS }
    rewardTransfersIn := []
    rewardTransfersOut := []
    swapAttribution := { nativeInByReward := [], rewardSoldByToken := [] } }

/-- A first partial report: block 5 was simulated successfully. -/
def shardFirst : Report :=
  { rows := some [.success (exampleRow 5 10)], realized := none }

/-- A second partial report: the simulation of block 5 failed at submission. -/
def shardSecond : Report :=
  { rows := some [.failure 5 none none "submit_failed: nonce too low"], realized := none }

/-- A shard over blocks 100 and 140; both succeed, with net profits 7 and 9. -/
def shardEven : Report :=
  { rows := some [.success (exampleRow 100 7), .success (exampleRow 140 9)], realized := none }

/-- A shard over blocks 120 and 160: block 120 succeeds with net profit 9, block 160 fails. -/
def shardOdd : Report :=
  { rows := some [.success (exampleRow 120 9), .failure 160 (some 160) (some "0xee")
      "reverted: status=reverted"], realized := none }

/-- The rows of one run over blocks 100, 120, 140, 160, in ascending block order. -/
def unshardedRows : List HarvestRow :=
  [.success (exampleRow 100 7), .success (exampleRow 120 9), .success (exampleRow 140 9),
    .failure 160 (some 160) (some "0xee") "reverted: status=reverted"]

/-- A successful receipt with native inflows of 5 and 7 to the strategy and no reward-token
outflow. -/
def inflowOnlyReceipt : Receipt :=
  { status := .str "success"
    blockNumber := 300
    gasUsed := 21000
    effectiveGasPrice := 1
    logs := some
      [ { address := exampleNative, event := .Transfer 0x99 CONFIG_strategy 5 },
        { address := exampleRewardA, event := .Transfer 0x99 CONFIG_strategy 8 },
        { address := exampleNative, event := .Transfer 0x99 CONFIG_strategy 7 } ] }

/-- A static context with two reward tokens and no resolved pricing pool. -/
def exampleStatic : StaticContext :=
  { pricingWantToken := none
    pricingWantPool := none
    pricingWantPoolSource := none
    strategyWant := 0x77
    native := exampleNative
    curveRewards := [exampleRewardA]
    rewardsV3 := [exampleRewardB, exampleRewardA] }

/-- A successful receipt mined in `block`: 100000 gas at 10 wei and a harvest of
`wantHarvested`. -/
def harvestReceipt (block wantHarvested : Int) : Receipt :=
  { status := .str "success"
    blockNumber := block
    gasUsed := 100000
    effectiveGasPrice := 10
    logs := some [{ address := CONFIG_strategy, event := .StratHarvest 0 wantHarvested 0 }] }

/-- A world in which the harvest succeeds at block 100 (its L1 fee read fails) and at
block 140, is rejected at submission at block 120, cannot be mined at block 160, reverts
at block 180, and is rejected at submission anywhere else. -/
def exampleWorld (block : Int) : CandidateWorld :=
  if block = 100 then
    { resetError := none, virtualPrice := some (10 ^ 18), lpPrice := none,
      submit := .ok "0xa100", receipt := .ok (harvestReceipt 100 5000000),
      l1Fee := .oracleFailed }
  else if block = 140 then
    { resetError := none, virtualPrice := none, lpPrice := some (10 ^ 18),
      submit := .ok "0xa140", receipt := .ok (harvestReceipt 140 9000000),
      l1Fee := .fee 2000 }
  else if block = 160 then
    { resetError := none, virtualPrice := none, lpPrice := none,
      submit := .ok "0xa160", receipt := .error "timeout", l1Fee := .txFetchFailed }
  else if block = 180 then
    { resetError := none, virtualPrice := none, lpPrice := none,
      submit := .ok "0xa180",
      receipt := .ok { harvestReceipt 180 0 with status := .str "reverted" },
      l1Fee := .txFetchFailed }
  else
    { resetError := none, virtualPrice := none, lpPrice := none,
      submit := .error "nonce too low", receipt := .error "not mined",
      l1Fee := .txFetchFailed }

/-- A canonical chain on which the realized harvest was mined in block 150. -/
def exampleChain : RealizedWorld :=
  { rawReceipt := some
      { blockNumber := 150, gasUsed := 90000, effectiveGasPrice := some 10, gasPrice := none,
        status := some "0x1",
        logs := some [{ address := CONFIG_strategy, event := .StratHarvest 0 7000000 0 }],
        l1Fee := some (some 1500) }
    l1Fee := .oracleFailed
    virtualPrice := some (10 ^ 18)
    lpPrice := none }

/-- A configuration with the window 100..180 in steps of 20. -/
def exampleConfig : GhostConfig :=
  { txHash := "0x1f19", realizedBlock := 150, windowStart := 100, windowEnd := 180,
    step := 20 }

/-- An environment in which none of the settings is set. -/
def emptyEnv : ProcessEnv :=
  { REALIZED_TX_HASH := none, REALIZED_BLOCK := none, WINDOW_START := none,
    WINDOW_END := none, STEP := none }

/-- An environment whose window start (200) is greater than its window end (100). -/
def reversedWindowEnv : ProcessEnv :=
  { REALIZED_TX_HASH := none, REALIZED_BLOCK := none, WINDOW_START := some 200,
    WINDOW_END := some 100, STEP := some 20 }

/-- An environment whose step is zero, over the window 100..180. -/
def zeroStepEnv : ProcessEnv :=
  { REALIZED_TX_HASH := none, REALIZED_BLOCK := none, WINDOW_START := some 100,
    WINDOW_END := some 180, STEP := some 0 }

/-- A successful receipt whose only log is a transfer of 5 native tokens from the strategy
to itself. -/
def selfTransferReceipt : Receipt :=
  { status := .str "success"
    blockNumber := 400
    gasUsed := 50000
    effectiveGasPrice := 1
    logs := some
      [ { address := exampleNative, event := .Transfer CONFIG_strategy CONFIG_strategy 5 } ] }

/-! ## Properties of the window search -/

theorem searchLoop_succ (ts : Int → Int) (target : Int) :
    ∀ (fuel : Nat) (lo hi : Int) (seen : List Int) (r : Int × List Int),
      searchLoop ts target fuel lo hi seen = some r →
      searchLoop ts target (fuel + 1) lo hi seen = some r := by
  intro fuel
  induction fuel with
  | zero =>
    intro lo hi seen r h
    simp only [searchLoop] at h ⊢
    split at h
    · exact absurd h (by simp)
    · rename_i hlt
      simp [hlt, h]
  | succ n ih =>
    intro lo hi seen r h
    rw [searchLoop] at h
    rw [searchLoop]
    split at h
    · rename_i hlt
      simp only [hlt, if_true]
      simp only at h
      split at h
      · rename_i hge
        simp only [hge, if_true]
        exact ih _ _ _ _ h
      · rename_i hge
        simp only [hge, if_false]
        exact ih _ _ _ _ h
    · rename_i hlt
      simp only [hlt, if_false]
      exact h

theorem searchLoop_mono (ts : Int → Int) (target : Int) (fuel fuel' : Nat) (hle : fuel ≤ fuel')
    (lo hi : Int) (seen : List Int) (r : Int × List Int)
    (h : searchLoop ts target fuel lo hi seen = some r) :
    searchLoop ts target fuel' lo hi seen = some r := by
  induction hle with
  | refl => exact h
  | step _ ih => exact searchLoop_succ ts target _ lo hi seen r ih

theorem searchLoop_terminates (ts : Int → Int) (target : Int) :
    ∀ (fuel : Nat) (lo hi : Int) (seen : List Int), hi - lo ≤ fuel + 1 →
      ∃ b more, searchLoop ts target fuel lo hi seen = some (b, seen ++ more) := by
  intro fuel
  induction fuel with
  | zero =>
    intro lo hi seen h
    refine ⟨hi, [], ?_⟩
    have : ¬ lo + 1 < hi := by omega
    simp [searchLoop, this]
  | succ n ih =>
    intro lo hi seen h
    rw [searchLoop]
    by_cases hlt : lo + 1 < hi
    · simp only [hlt, if_true]
      by_cases hge : ts ((lo + hi) / 2) ≥ target
      · simp only [hge, if_true]
        obtain ⟨b, more, hb⟩ := ih lo ((lo + hi) / 2) (seen ++ [(lo + hi) / 2]) (by push_cast at h ⊢; omega)
        exact ⟨b, (lo + hi) / 2 :: more, by simpa using hb⟩
      · simp only [hge, if_false]
        obtain ⟨b, more, hb⟩ := ih ((lo + hi) / 2) hi (seen ++ [(lo + hi) / 2]) (by push_cast at h ⊢; omega)
        exact ⟨b, (lo + hi) / 2 :: more, by simpa using hb⟩
    · simp only [hlt, if_false]
      exact ⟨hi, [], by simp⟩

/-- Invariant of the search loop: started with `ts lo < target ≤ ts hi`, it ends on a
block `b` in `(lo, hi]` with `ts (b - 1) < target ≤ ts b`. -/
theorem searchLoop_boundary (ts : Int → Int) (target : Int) :
    ∀ (fuel : Nat) (lo hi : Int) (seen : List Int) (b : Int) (s : List Int),
      searchLoop ts target fuel lo hi seen = some (b, s) →
      lo < hi → ts lo < target → target ≤ ts hi →
      lo < b ∧ b ≤ hi ∧ ts (b - 1) < target ∧ target ≤ ts b := by
  intro fuel
  induction fuel with
  | zero =>
    intro lo hi seen b s h hlh hlo hhi
    simp only [searchLoop] at h
    split at h
    · exact absurd h (by simp)
    · rename_i hlt
      simp only [Option.some.injEq, Prod.mk.injEq] at h
      obtain ⟨rfl, _⟩ := h
      have : hi - 1 = lo := by omega
      rw [this]
      exact ⟨hlh, le_refl _, hlo, hhi⟩
  | succ n ih =>
    intro lo hi seen b s h hlh hlo hhi
    rw [searchLoop] at h
    split at h
    · rename_i hlt
      simp only at h
      split at h
      · rename_i hge
        obtain ⟨h1, h2, h3, h4⟩ := ih _ _ _ _ _ h (by omega) hlo hge
        exact ⟨h1, by omega, h3, h4⟩
      · rename_i hge
        obtain ⟨h1, h2, h3, h4⟩ := ih _ _ _ _ _ h (by omega) (by omega) hhi
        exact ⟨by omega, h2, h3, h4⟩
    · rename_i hlt
      simp only [Option.some.injEq, Prod.mk.injEq] at h
      obtain ⟨rfl, _⟩ := h
      have : hi - 1 = lo := by omega
      rw [this]
      exact ⟨hlh, le_refl _, hlo, hhi⟩

/-- When the lower bound is strictly older than the target, `run` prints the
smallest block of `[lo, hi]` whose timestamp reaches the target. -/
theorem run_smallest_of_lt (ts : Int → Int) (R W B : Int) (hR : 0 ≤ R) (hB : 0 ≤ B)
    (hW : 0 ≤ W)
    (hmono : ∀ a b, max 0 (R - B) ≤ a → a ≤ b → b ≤ R → ts a ≤ ts b)
    (hlo : ts (max 0 (R - B)) < ts R - W) :
    ∃ b seen, (∀ fuel, (R - max 0 (R - B)).toNat ≤ fuel →
        run ts R W B fuel =
          some { lookups := [R, max 0 (R - B)] ++ seen, stdout := some b, exitCode := 0 }) ∧
      max 0 (R - B) ≤ b ∧ b ≤ R ∧ ts R - W ≤ ts b ∧
      ∀ c, max 0 (R - B) ≤ c → c ≤ R → ts R - W ≤ ts c → b ≤ c := by
  obtain ⟨b, more, hb⟩ := searchLoop_terminates ts (ts R - W) (R - max 0 (R - B)).toNat
    (max 0 (R - B)) R [] (by omega)
  have hlt : max 0 (R - B) < R := by
    by_contra hcon
    have heq : max 0 (R - B) = R := by omega
    rw [heq] at hlo
    omega
  obtain ⟨h1, h2, h3, h4⟩ := searchLoop_boundary ts (ts R - W) _ _ _ _ _ _ hb hlt hlo (by omega)
  refine ⟨b, more, ?_, by omega, h2, h4, ?_⟩
  · intro fuel hfuel
    have := searchLoop_mono ts (ts R - W) _ fuel hfuel _ _ _ _ hb
    simp only [run]
    rw [if_neg (by omega), this]
    simp
  · intro c hc1 hc2 hc3
    by_contra hcon
    have := hmono c (b - 1) hc1 (by omega) (by omega)
    omega

/-- C1 (code defect).  The search is meant to print the smallest block of `[lo, hi]`
whose timestamp is at least the target.  On a monotone chain on which the lower bound
`lo` has exactly the target timestamp, `run` does not fail, yet prints `lo + 1` although
`lo` itself is in range and reaches the target: with one block every two seconds,
reference block 41493767, window 21600 s and backstop 10800 blocks, the lower bound
41482967 has the target timestamp and block 41482968 is printed. -/
theorem C1_run_prints_above_smallest_block :
    (∀ a b : Int, a ≤ b → twoSecondBlocks a ≤ twoSecondBlocks b) ∧
    max 0 (41493767 - 10800) = (41482967 : Int) ∧
    twoSecondBlocks 41482967 = twoSecondBlocks 41493767 - 21600 ∧
    (run twoSecondBlocks 41493767 21600 10800 10800).map (fun r => (r.stdout, r.exitCode))
      = some (some 41482968, 0) ∧
    ((41482967 : Int) ≤ 41493767 ∧ (41482967 : Int) < 41482968) := by
  refine ⟨?_, by decide, by decide, by decide, by decide⟩
  intro a b h
  simp only [twoSecondBlocks]
  omega

/-- C10.  `run` of find-window-start exits with code 1, having looked up only the
reference block and the lower bound and printed nothing, exactly when the lower bound's
timestamp exceeds the target; in every other case the search loop terminates and a block
is printed with exit code 0. -/
theorem C10_run_fails_iff_lower_bound_past_target (ts : Int → Int) (R W B : Int) :
    (ts (max 0 (R - B)) > ts R - W →
      ∀ fuel, run ts R W B fuel =
        some { lookups := [R, max 0 (R - B)], stdout := none, exitCode := 1 }) ∧
    (¬ ts (max 0 (R - B)) > ts R - W →
      ∃ b seen, ∀ fuel, (R - max 0 (R - B)).toNat ≤ fuel →
        run ts R W B fuel =
          some { lookups := [R, max 0 (R - B)] ++ seen, stdout := some b, exitCode := 0 }) := by
  constructor
  · intro h fuel
    simp only [run]
    rw [if_pos h]
  · intro h
    obtain ⟨b, more, hb⟩ := searchLoop_terminates ts (ts R - W) (R - max 0 (R - B)).toNat
      (max 0 (R - B)) R [] (by omega)
    refine ⟨b, more, ?_⟩
    intro fuel hfuel
    have := searchLoop_mono ts (ts R - W) _ fuel hfuel _ _ _ _ hb
    simp only [run]
    rw [if_neg h, this]
    simp

/-! ## Properties of `buildBlockList` -/

theorem buildBlockListLoop_succ (stop step : Int) :
    ∀ (fuel : Nat) (b : Int) (blocks r : List Int),
      buildBlockListLoop stop step fuel b blocks = some r →
      buildBlockListLoop stop step (fuel + 1) b blocks = some r := by
  intro fuel
  induction fuel with
  | zero =>
    intro b blocks r h
    simp only [buildBlockListLoop] at h ⊢
    split at h
    · exact absurd h (by simp)
    · rename_i hle
      simp [hle, h]
  | succ n ih =>
    intro b blocks r h
    rw [buildBlockListLoop] at h
    rw [buildBlockListLoop]
    split at h
    · rename_i hle
      simp only [hle, if_true]
      exact ih _ _ _ h
    · rename_i hle
      simp only [hle, if_false]
      exact h

theorem buildBlockListLoop_mono (stop step : Int) (fuel fuel' : Nat) (hle : fuel ≤ fuel')
    (b : Int) (blocks r : List Int)
    (h : buildBlockListLoop stop step fuel b blocks = some r) :
    buildBlockListLoop stop step fuel' b blocks = some r := by
  induction hle with
  | refl => exact h
  | step _ ih => exact buildBlockListLoop_succ stop step _ b blocks r ih

theorem buildBlockList_mono (start stop step : Int) (fuel fuel' : Nat) (hle : fuel ≤ fuel')
    (r : List Int) (h : buildBlockList start stop step fuel = some r) :
    buildBlockList start stop step fuel' = some r := by
  unfold buildBlockList at h ⊢
  cases hl : buildBlockListLoop stop step fuel start [] with
  | none => rw [hl] at h; exact absurd h (by simp)
  | some blocks =>
    rw [hl] at h
    rw [buildBlockListLoop_mono stop step fuel fuel' hle start [] blocks hl]
    exact h

/-- With a positive step the loop ends, and it appends to `blocks` an increasing run
of values from `b` up to at most `stop`. -/
theorem buildBlockListLoop_spec (stop step : Int) (hstep : 1 ≤ step) :
    ∀ (fuel : Nat) (b : Int) (blocks : List Int), stop - b + 1 ≤ fuel →
      ∃ more, buildBlockListLoop stop step fuel b blocks = some (blocks ++ more) ∧
        more.Pairwise (· < ·) ∧ (∀ x ∈ more, b ≤ x ∧ x ≤ stop) ∧
        (b ≤ stop → more.head? = some b) := by
  intro fuel
  induction fuel with
  | zero =>
    intro b blocks h
    have hb : ¬ b ≤ stop := by omega
    exact ⟨[], by simp [buildBlockListLoop, hb], List.Pairwise.nil, by simp, fun h' => absurd h' hb⟩
  | succ n ih =>
    intro b blocks h
    rw [buildBlockListLoop]
    by_cases hb : b ≤ stop
    · simp only [hb, if_true]
      obtain ⟨more, h1, h2, h3, _⟩ := ih (b + step) (blocks ++ [b]) (by push_cast at h; omega)
      refine ⟨b :: more, by simpa using h1, ?_, ?_, fun _ => by simp⟩
      · rw [List.pairwise_cons]
        refine ⟨fun x hx => ?_, h2⟩
        have := (h3 x hx).1
        omega
      · intro x hx
        rcases List.mem_cons.mp hx with rfl | hx
        · exact ⟨le_refl _, hb⟩
        · have := h3 x hx
          exact ⟨by omega, this.2⟩
    · rw [if_neg hb]
      exact ⟨[], by simp, List.Pairwise.nil, by simp, fun h' => absurd h' hb⟩

/-- C8.  For all integers `start ≤ end` and `step ≥ 1`, `buildBlockList(start, end, step)`
returns a strictly increasing list whose first element is `start` and whose last element
is `end`; and `buildBlockList(100, 145, 20)` is `[100, 120, 140, 145]`. -/
theorem C8_buildBlockList_increasing_with_endpoints :
    (∀ start stop step : Int, start ≤ stop → 1 ≤ step →
      ∃ blocks, (∀ fuel, (stop - start).toNat + 1 ≤ fuel →
          buildBlockList start stop step fuel = some blocks) ∧
        blocks.Pairwise (· < ·) ∧ blocks.head? = some start ∧ blocks.getLast? = some stop) ∧
    (∀ fuel, 4 ≤ fuel → buildBlockList 100 145 20 fuel = some [100, 120, 140, 145]) := by
  constructor
  · intro start stop step hse hstep
    obtain ⟨more, h1, h2, h3, h4⟩ := buildBlockListLoop_spec stop step hstep
      ((stop - start).toNat + 1) start [] (by push_cast; omega)
    simp only [List.nil_append] at h1
    have hhead := h4 hse
    have hne : more ≠ [] := by
      intro hnil
      rw [hnil] at hhead
      simp at hhead
    obtain ⟨l, hl⟩ : ∃ l, more.getLast? = some l := by
      cases hm : more.getLast? with
      | none => exact absurd (List.getLast?_eq_none_iff.mp hm) hne
      | some l => exact ⟨l, rfl⟩
    obtain ⟨ys, hys⟩ := List.getLast?_eq_some_iff.mp hl
    by_cases hlast : l = stop
    · refine ⟨more, ?_, h2, hhead, by rw [hl, hlast]⟩
      intro fuel hfuel
      apply buildBlockList_mono start stop step _ fuel hfuel
      unfold buildBlockList
      rw [h1]
      simp [hl, hlast]
    · refine ⟨more ++ [stop], ?_, ?_, ?_, by simp⟩
      · intro fuel hfuel
        apply buildBlockList_mono start stop step _ fuel hfuel
        unfold buildBlockList
        rw [h1]
        simp [hl, hlast]
      · rw [List.pairwise_append]
        refine ⟨h2, List.pairwise_singleton _ _, ?_⟩
        intro a ha b hb
        rw [List.mem_singleton] at hb
        subst hb
        have hl_le : l ≤ b := (h3 l (by rw [hys]; simp)).2
        have hl_lt : l < b := lt_of_le_of_ne hl_le hlast
        rw [hys] at ha h2
        rcases List.mem_append.mp ha with ha | ha
        · have := (List.pairwise_append.mp h2).2.2 a ha l (by simp)
          omega
        · rw [List.mem_singleton] at ha
          rw [ha]; exact hl_lt
      · rw [List.head?_append_of_ne_nil _ hne]
        exact hhead
  · intro fuel hfuel
    exact buildBlockList_mono 100 145 20 4 fuel hfuel _ (by decide)

/-! ## Properties of `buildHarvestRowFromReceipt` -/

theorem parseReceiptStatus_eq_reverted (status : Status)
    (h1 : status ≠ .str "success") (h2 : status ≠ .str "0x1") :
    parseReceiptStatus status = "reverted" := by
  cases status with
  | other => rfl
  | str s =>
    have hs1 : s ≠ "success" := fun h => h1 (by rw [h])
    have hs2 : s ≠ "0x1" := fun h => h2 (by rw [h])
    unfold parseReceiptStatus
    by_cases hr : s = "reverted"
    · simp [hr]
    · simp [hs1, hs2, hr]

/-- C2 (as written, refuted).  In the end-to-end scenario the row is successful and reports
`wantHarvested = 10^21`, but its figures are not the ones listed: the L2 gas cost is
`180000 * 50000000 = 9 * 10^12`, not `9 * 10^15`. -/
theorem C2_scenario_figures_differ :
    ∃ row, buildHarvestRowFromReceipt 41493767 "0x1f19" scenarioReceipt [] 0
        (some scenarioPricing) (some 2000000000000) = .success row ∧
      row.stratHarvest.wantHarvested = 10 ^ 21 ∧ row.gasUsed = 180000 ∧
      row.gasPrice = 50000000 ∧ row.l1FeeWei = 2000000000000 ∧
      row.estimated.wantPricing.priceWei = 10 ^ 18 ∧
      ¬ (row.l2GasCostWei = 9000000000000000 ∧ row.gasCostWei = 9002000000000000 ∧
          row.estimated.grossProfitEthWei = 1000000000000000000000 ∧
          row.estimated.netProfitEthWei = 999990998000000000000) := by
  refine ⟨_, rfl, by decide, by decide, by decide, by decide, by decide, by decide⟩

/-- C2 (amended).  For a successful receipt whose `StratHarvest` event reports
`wantHarvested = 10^21`, with `gasUsed = 180000`, `effectiveGasPrice = 50000000`,
`l1Fee = 2000000000000` and want price `10^18`, the row has
`l2GasCostWei = 9000000000000`, `gasCostWei = 11000000000000`,
`grossProfitEthWei = 10^21` and `netProfitEthWei = 999999989000000000000`. -/
theorem C2_scenario_figures (targetBlock : Int) (txHash : String) (receipt : Receipt)
    (rewardTokenSet : List Address) (nativeTokenLower : Address) (wantPricing : WantPricing)
    (hstatus : parseReceiptStatus receipt.status = "success")
    (hwant : (scanLogs rewardTokenSet nativeTokenLower
      (receipt.logs.getD [])).stratHarvest.wantHarvested = 10 ^ 21)
    (hgas : receipt.gasUsed = 180000) (hprice : receipt.effectiveGasPrice = 50000000)
    (hwp : wantPricing.priceWei = some (10 ^ 18)) :
    ∃ row, buildHarvestRowFromReceipt targetBlock txHash receipt rewardTokenSet
        nativeTokenLower (some wantPricing) (some 2000000000000) = .success row ∧
      row.l2GasCostWei = 9000000000000 ∧ row.gasCostWei = 11000000000000 ∧
      row.estimated.grossProfitEthWei = 1000000000000000000000 ∧
      row.estimated.netProfitEthWei = 999999989000000000000 := by
  simp only [buildHarvestRowFromReceipt, hstatus, ne_eq, not_true_eq_false, if_false]
  refine ⟨_, rfl, ?_, ?_, ?_, ?_⟩
  · simp only [hgas, hprice]; decide
  · simp only [hgas, hprice, Option.getD_some]; decide
  · simp only [hwant, Option.bind, hwp, Option.getD_some]; decide
  · simp only [hwant, hgas, hprice, Option.bind, hwp, Option.getD_some]; decide

/-- Witness for C2 (amended): the scenario receipt meets the hypotheses. -/
theorem C2_scenario_figures_witness :
    ∃ row, buildHarvestRowFromReceipt 41493767 "0x1f19" scenarioReceipt [] 0
        (some scenarioPricing) (some 2000000000000) = .success row ∧
      row.l2GasCostWei = 9000000000000 ∧ row.gasCostWei = 11000000000000 ∧
      row.estimated.grossProfitEthWei = 1000000000000000000000 ∧
      row.estimated.netProfitEthWei = 999999989000000000000 :=
  C2_scenario_figures 41493767 "0x1f19" scenarioReceipt [] 0 scenarioPricing
    (by decide) (by decide) (by decide) (by decide) (by decide)

/-- C3.  For every receipt with success status the row is a successful row with
`l2GasCostWei = gasUsed * effectiveGasPrice`, `gasCostWei = l2GasCostWei + l1FeeWei` and
`estimated.netProfitEthWei = estimated.grossProfitEthWei - gasCostWei`. -/
theorem C3_gas_and_net_profit_identities (targetBlock : Int) (txHash : String)
    (receipt : Receipt) (rewardTokenSet : List Address) (nativeTokenLower : Address)
    (wantPricing : Option WantPricing) (l1FeeWei : Option Int)
    (hstatus : parseReceiptStatus receipt.status = "success") :
    ∃ row, buildHarvestRowFromReceipt targetBlock txHash receipt rewardTokenSet
        nativeTokenLower wantPricing l1FeeWei = .success row ∧
      row.gasUsed = receipt.gasUsed ∧ row.gasPrice = receipt.effectiveGasPrice ∧
      row.l1FeeWei = l1FeeWei.getD 0 ∧
      row.l2GasCostWei = row.gasUsed * row.gasPrice ∧
      row.gasCostWei = row.l2GasCostWei + row.l1FeeWei ∧
      row.estimated.netProfitEthWei = row.estimated.grossProfitEthWei - row.gasCostWei := by
  simp only [buildHarvestRowFromReceipt, hstatus, ne_eq, not_true_eq_false, if_false]
  exact ⟨_, rfl, rfl, rfl, rfl, rfl, rfl, rfl⟩

/-- Witness for C3: the scenario receipt with its L1 fee. -/
theorem C3_gas_and_net_profit_identities_witness :
    ∃ row, buildHarvestRowFromReceipt 41493767 "0x1f19" scenarioReceipt [] 0
        (some scenarioPricing) (some 2000000000000) = .success row ∧
      row.gasUsed = scenarioReceipt.gasUsed ∧
      row.gasPrice = scenarioReceipt.effectiveGasPrice ∧
      row.l1FeeWei = (some 2000000000000 : Option Int).getD 0 ∧
      row.l2GasCostWei = row.gasUsed * row.gasPrice ∧
      row.gasCostWei = row.l2GasCostWei + row.l1FeeWei ∧
      row.estimated.netProfitEthWei = row.estimated.grossProfitEthWei - row.gasCostWei :=
  C3_gas_and_net_profit_identities 41493767 "0x1f19" scenarioReceipt [] 0
    (some scenarioPricing) (some 2000000000000) (by decide)

/-- C9.  For every receipt whose status is neither `"success"` nor `"0x1"`, the row is the
failure row with exactly `block`, `simulatedBlock`, `ok = false`, `txHash` and `error`
(`"reverted: status=reverted"`); it has none of the properties of a successful row. -/
theorem C9_non_success_receipt_gives_failure_row (targetBlock : Int) (txHash : String)
    (receipt : Receipt) (rewardTokenSet : List Address) (nativeTokenLower : Address)
    (wantPricing : Option WantPricing) (l1FeeWei : Option Int)
    (h1 : receipt.status ≠ .str "success") (h2 : receipt.status ≠ .str "0x1") :
    buildHarvestRowFromReceipt targetBlock txHash receipt rewardTokenSet nativeTokenLower
        wantPricing l1FeeWei
      = .failure targetBlock (some receipt.blockNumber) (some txHash)
          "reverted: status=reverted" ∧
    (buildHarvestRowFromReceipt targetBlock txHash receipt rewardTokenSet nativeTokenLower
        wantPricing l1FeeWei).ok = false ∧
    (buildHarvestRowFromReceipt targetBlock txHash receipt rewardTokenSet nativeTokenLower
        wantPricing l1FeeWei).success? = none := by
  have hrow : buildHarvestRowFromReceipt targetBlock txHash receipt rewardTokenSet
      nativeTokenLower wantPricing l1FeeWei
      = .failure targetBlock (some receipt.blockNumber) (some txHash)
          "reverted: status=reverted" := by
    have hp := parseReceiptStatus_eq_reverted receipt.status h1 h2
    simp only [buildHarvestRowFromReceipt, hp]
    rfl
  rw [hrow]
  exact ⟨rfl, rfl, rfl⟩

/-- Witness for C9: a receipt with raw status `0x0`. -/
theorem C9_non_success_receipt_gives_failure_row_witness :
    buildHarvestRowFromReceipt 100 "0xab" revertedReceipt [] 0 none none
      = .failure 100 (some revertedReceipt.blockNumber) (some "0xab")
          "reverted: status=reverted" ∧
    (buildHarvestRowFromReceipt 100 "0xab" revertedReceipt [] 0 none none).ok = false ∧
    (buildHarvestRowFromReceipt 100 "0xab" revertedReceipt [] 0 none none).success? = none :=
  C9_non_success_receipt_gives_failure_row 100 "0xab" revertedReceipt [] 0 none none
    (by decide) (by decide)

/-! ## The attribution heuristic -/

theorem dictGet_dictSet (d : Dict) (k k' : Address) (v : Int) :
    dictGet (dictSet d k v) k' = if k = k' then some v else dictGet d k' := by
  induction d with
  | nil => simp [dictSet, dictGet]
  | cons p rest ih =>
    obtain ⟨a, b⟩ := p
    simp only [dictSet]
    by_cases h : a = k
    · subst h
      by_cases h2 : a = k' <;> simp [dictGet, h2]
    · simp only [h, if_false, dictGet, ih]
      by_cases h2 : a = k'
      · have h3 : ¬ k = k' := fun h4 => h (by rw [h2, h4])
        simp [h2, h3]
      · simp [h2]

theorem scanStrategyEvent_attribution (st : ScanState) (log : Log) :
    (scanStrategyEvent st log).attributedNativeInByReward = st.attributedNativeInByReward ∧
    (scanStrategyEvent st log).currentAttributionTokenLower = st.currentAttributionTokenLower := by
  unfold scanStrategyEvent
  split
  · split <;> exact ⟨rfl, rfl⟩
  · exact ⟨rfl, rfl⟩

theorem addNativeOut_attribution (N tl sender : Address) (value : Int) (st : ScanState) :
    (addNativeOut N tl sender value st).attributedNativeInByReward
      = st.attributedNativeInByReward ∧
    (addNativeOut N tl sender value st).currentAttributionTokenLower
      = st.currentAttributionTokenLower := by
  unfold addNativeOut
  split <;> exact ⟨rfl, rfl⟩

theorem addRewardIn_attribution (R : List Address) (tl recipient : Address) (value : Int)
    (st : ScanState) :
    (addRewardIn R tl recipient value st).attributedNativeInByReward
      = st.attributedNativeInByReward ∧
    (addRewardIn R tl recipient value st).currentAttributionTokenLower
      = st.currentAttributionTokenLower := by
  unfold addRewardIn
  split <;> exact ⟨rfl, rfl⟩

theorem addRewardOut_attribution (R : List Address) (tl sender : Address) (value : Int)
    (st : ScanState) :
    (addRewardOut R tl sender value st).attributedNativeInByReward
      = st.attributedNativeInByReward ∧
    (addRewardOut R tl sender value st).currentAttributionTokenLower
      = if (tl ∈ R ∧ lower sender = lower CONFIG_strategy) ∧ value > 0 then some tl
        else st.currentAttributionTokenLower := by
  unfold addRewardOut
  by_cases h : tl ∈ R ∧ lower sender = lower CONFIG_strategy
  · by_cases hv : value > 0
    · simp [h, hv]
    · simp [h, hv]
  · simp [h]

theorem addNativeIn_attribution (N tl recipient : Address) (value : Int) (st : ScanState)
    (t : Address) :
    (dictGet (addNativeIn N tl recipient value st).attributedNativeInByReward t).getD 0
      = (dictGet st.attributedNativeInByReward t).getD 0 +
        (if (tl = N ∧ lower recipient = lower CONFIG_strategy) ∧
            st.currentAttributionTokenLower = some t then value else 0) ∧
    (addNativeIn N tl recipient value st).currentAttributionTokenLower
      = st.currentAttributionTokenLower := by
  unfold addNativeIn
  by_cases h : tl = N ∧ lower recipient = lower CONFIG_strategy
  · rw [if_pos h]
    cases hc : st.currentAttributionTokenLower with
    | none =>
      simp only [hc]
      simp
    | some cur =>
      simp only [hc, and_true]
      rw [dictGet_dictSet]
      by_cases hct : cur = t
      · subst hct
        simp [h]
      · have : ¬ (some cur = some t) := fun h' => hct (Option.some.inj h')
        simp [hct, h]
  · rw [if_neg h]
    simp [h]

theorem scanLog_current (R : List Address) (N : Address) (st : ScanState) (log : Log) :
    (scanLog R N st log).currentAttributionTokenLower =
      if isRewardSale R log = true then some (lower log.address)
      else st.currentAttributionTokenLower := by
  unfold scanLog scanTransfer isRewardSale
  cases h : log.event with
  | Transfer sender recipient value =>
    simp only []
    rw [(addRewardOut_attribution _ _ _ _ _).2, (addRewardIn_attribution _ _ _ _ _).2,
      (addNativeIn_attribution _ _ _ _ _ 0).2, (addNativeOut_attribution _ _ _ _ _).2,
      (scanStrategyEvent_attribution _ _).2]
    simp [and_assoc]
  | ChargedFees _ _ _ => simpa using (scanStrategyEvent_attribution st log).2
  | StratHarvest _ _ _ => simpa using (scanStrategyEvent_attribution st log).2
  | unknown => simpa using (scanStrategyEvent_attribution st log).2

theorem scanLog_attributed (R : List Address) (N : Address) (st : ScanState) (log : Log)
    (t : Address) :
    (dictGet (scanLog R N st log).attributedNativeInByReward t).getD 0
      = (dictGet st.attributedNativeInByReward t).getD 0 +
        (if isNativeInflow N log = true ∧ st.currentAttributionTokenLower = some t
          then transferValue log else 0) := by
  unfold scanLog scanTransfer isNativeInflow transferValue
  cases h : log.event with
  | Transfer sender recipient value =>
    simp only []
    rw [(addRewardOut_attribution _ _ _ _ _).1, (addRewardIn_attribution _ _ _ _ _).1,
      (addNativeIn_attribution _ _ _ _ _ t).1, (addNativeOut_attribution _ _ _ _ _).1,
      (addNativeOut_attribution _ _ _ _ _).2,
      (scanStrategyEvent_attribution _ _).1, (scanStrategyEvent_attribution _ _).2]
    simp
  | ChargedFees _ _ _ => simp [(scanStrategyEvent_attribution st log).1]
  | StratHarvest _ _ _ => simp [(scanStrategyEvent_attribution st log).1]
  | unknown => simp [(scanStrategyEvent_attribution st log).1]

theorem lastRewardSale_concat (R : List Address) (pre : List Log) (log : Log) :
    lastRewardSale R (pre ++ [log]) =
      if isRewardSale R log = true then some (lower log.address) else lastRewardSale R pre := by
  unfold lastRewardSale
  rw [List.filter_append]
  by_cases h : isRewardSale R log = true
  · simp [List.filter_cons, h]
  · simp [List.filter_cons, h]

theorem nativeInAfterSaleOf_concat (R : List Address) (N t : Address) (pre : List Log)
    (log : Log) :
    nativeInAfterSaleOf R N t (pre ++ [log]) = nativeInAfterSaleOf R N t pre +
      (if isNativeInflow N log = true ∧ lastRewardSale R pre = some t
        then transferValue log else 0) := by
  unfold nativeInAfterSaleOf
  rw [List.length_append, List.length_singleton, List.range_succ, List.map_append,
    List.sum_append]
  congr 1
  · congr 1
    apply List.map_congr_left
    intro i hi
    have hi' : i < pre.length := List.mem_range.mp hi
    rw [List.getElem?_append_left hi', List.take_append_of_le_length (le_of_lt hi')]
  · simp

/-- Invariant of the scan: after any prefix of the logs, the attribution marker is the
token of the latest reward sale of the prefix, and each token has been credited the
native inflows that follow one of its sales. -/
theorem scanLogs_attribution (R : List Address) (N : Address) (logs : List Log) :
    (scanLogs R N logs).currentAttributionTokenLower = lastRewardSale R logs ∧
    ∀ t, (dictGet (scanLogs R N logs).attributedNativeInByReward t).getD 0
      = nativeInAfterSaleOf R N t logs := by
  induction logs using List.reverseRecOn with
  | nil =>
    refine ⟨rfl, fun t => ?_⟩
    simp [scanLogs, initialScanState, dictGet, nativeInAfterSaleOf]
  | append_singleton pre log ih =>
    have hstep : scanLogs R N (pre ++ [log]) = scanLog R N (scanLogs R N pre) log := by
      simp [scanLogs, List.foldl_append]
    rw [hstep]
    refine ⟨?_, fun t => ?_⟩
    · rw [scanLog_current, lastRewardSale_concat, ih.1]
    · rw [scanLog_attributed, nativeInAfterSaleOf_concat, ih.2 t, ih.1]

theorem addNativeIn_present (N tl recipient : Address) (value : Int) (st : ScanState)
    (t : Address) :
    (dictGet (addNativeIn N tl recipient value st).attributedNativeInByReward t).isSome
      = ((dictGet st.attributedNativeInByReward t).isSome ||
        decide ((tl = N ∧ lower recipient = lower CONFIG_strategy) ∧
          st.currentAttributionTokenLower = some t)) := by
  unfold addNativeIn
  by_cases h : tl = N ∧ lower recipient = lower CONFIG_strategy
  · rw [if_pos h]
    cases hc : st.currentAttributionTokenLower with
    | none => simp [hc]
    | some cur =>
      simp only [hc]
      rw [dictGet_dictSet]
      by_cases hct : cur = t
      · subst hct
        simp [h]
      · simp [hct, h]
  · rw [if_neg h]
    simp [h]

theorem scanLog_present (R : List Address) (N : Address) (st : ScanState) (log : Log)
    (t : Address) :
    (dictGet (scanLog R N st log).attributedNativeInByReward t).isSome
      = ((dictGet st.attributedNativeInByReward t).isSome ||
        decide (isNativeInflow N log = true ∧ st.currentAttributionTokenLower = some t)) := by
  unfold scanLog scanTransfer isNativeInflow
  cases h : log.event with
  | Transfer sender recipient value =>
    simp only []
    rw [(addRewardOut_attribution _ _ _ _ _).1, (addRewardIn_attribution _ _ _ _ _).1,
      addNativeIn_present, (addNativeOut_attribution _ _ _ _ _).1,
      (addNativeOut_attribution _ _ _ _ _).2,
      (scanStrategyEvent_attribution _ _).1, (scanStrategyEvent_attribution _ _).2]
    simp
  | ChargedFees _ _ _ => simp [(scanStrategyEvent_attribution st log).1]
  | StratHarvest _ _ _ => simp [(scanStrategyEvent_attribution st log).1]
  | unknown => simp [(scanStrategyEvent_attribution st log).1]

theorem creditedTo_concat (R : List Address) (N t : Address) (pre : List Log) (log : Log) :
    creditedTo R N t (pre ++ [log]) ↔
      creditedTo R N t pre ∨ (isNativeInflow N log = true ∧ lastRewardSale R pre = some t) := by
  unfold creditedTo
  constructor
  · rintro ⟨i, l, hi, hin, hsale⟩
    by_cases hlt : i < pre.length
    · left
      rw [List.getElem?_append_left hlt] at hi
      rw [List.take_append_of_le_length (le_of_lt hlt)] at hsale
      exact ⟨i, l, hi, hin, hsale⟩
    · right
      have hlen : i < (pre ++ [log]).length := by
        by_contra hge
        rw [List.getElem?_eq_none (not_lt.mp hge)] at hi
        exact absurd hi (by simp)
      have hi' : i = pre.length := by
        simp only [List.length_append, List.length_singleton] at hlen
        omega
      subst hi'
      simp only [List.getElem?_concat_length, Option.some.injEq] at hi
      subst hi
      rw [List.take_left'] at hsale
      · exact ⟨hin, hsale⟩
      · rfl
  · rintro (⟨i, l, hi, hin, hsale⟩ | ⟨hin, hsale⟩)
    · have hlt : i < pre.length := by
        by_contra hge
        rw [List.getElem?_eq_none (not_lt.mp hge)] at hi
        exact absurd hi (by simp)
      refine ⟨i, l, ?_, hin, ?_⟩
      · rw [List.getElem?_append_left hlt]; exact hi
      · rw [List.take_append_of_le_length (le_of_lt hlt)]; exact hsale
    · refine ⟨pre.length, log, by simp, hin, ?_⟩
      rw [List.take_left']
      · exact hsale
      · rfl

/-- A token has an entry in the attribution map exactly when some native inflow was
credited to it. -/
theorem scanLogs_present (R : List Address) (N : Address) (logs : List Log) (t : Address) :
    (dictGet (scanLogs R N logs).attributedNativeInByReward t).isSome = true ↔
      creditedTo R N t logs := by
  induction logs using List.reverseRecOn with
  | nil =>
    simp only [scanLogs, initialScanState, List.foldl_nil, dictGet, Option.isSome_none,
      Bool.false_eq_true, false_iff]
    rintro ⟨i, l, hi, _⟩
    simp at hi
  | append_singleton pre log ih =>
    have hstep : scanLogs R N (pre ++ [log]) = scanLog R N (scanLogs R N pre) log := by
      simp [scanLogs, List.foldl_append]
    rw [hstep, scanLog_present, creditedTo_concat, Bool.or_eq_true, ih,
      (scanLogs_attribution R N pre).1]
    simp

/-- C4.  For every successful receipt and every token `t`, the entry of
`swapAttribution.nativeInByReward` for `t` (an absent entry counting as 0) is the sum of
the values of exactly those native-token transfers to the strategy whose most recent
preceding non-zero reward-token transfer from the strategy is a transfer of `t`; the
entry exists exactly when there is such a transfer.  Hence a native inflow that precedes
every non-zero reward sale is credited to no token, and a zero-value reward outflow does
not move the target. -/
theorem C4_native_inflows_credited_to_latest_sale (targetBlock : Int) (txHash : String)
    (receipt : Receipt) (rewardTokenSet : List Address) (nativeTokenLower : Address)
    (wantPricing : Option WantPricing) (l1FeeWei : Option Int) (t : Address)
    (hstatus : parseReceiptStatus receipt.status = "success") :
    ∃ row, buildHarvestRowFromReceipt targetBlock txHash receipt rewardTokenSet
        nativeTokenLower wantPricing l1FeeWei = .success row ∧
      (dictGet row.swapAttribution.nativeInByReward t).getD 0
        = nativeInAfterSaleOf rewardTokenSet nativeTokenLower t (receipt.logs.getD []) ∧
      ((dictGet row.swapAttribution.nativeInByReward t).isSome = true ↔
        creditedTo rewardTokenSet nativeTokenLower t (receipt.logs.getD [])) := by
  simp only [buildHarvestRowFromReceipt, hstatus, ne_eq, not_true_eq_false, if_false]
  exact ⟨_, rfl, (scanLogs_attribution rewardTokenSet nativeTokenLower _).2 t,
    scanLogs_present rewardTokenSet nativeTokenLower _ t⟩

/-- Witness for C4: in the attribution example reward A is credited 7 + 3 = 10. -/
theorem C4_native_inflows_credited_to_latest_sale_witness :
    nativeInAfterSaleOf [exampleRewardA, exampleRewardB] exampleNative exampleRewardA
      (attributionReceipt.logs.getD []) = 10 ∧
    ∃ row, buildHarvestRowFromReceipt 200 "0xcd" attributionReceipt
        [exampleRewardA, exampleRewardB] exampleNative none none = .success row ∧
      (dictGet row.swapAttribution.nativeInByReward exampleRewardA).getD 0
        = nativeInAfterSaleOf [exampleRewardA, exampleRewardB] exampleNative exampleRewardA
            (attributionReceipt.logs.getD []) ∧
      ((dictGet row.swapAttribution.nativeInByReward exampleRewardA).isSome = true ↔
        creditedTo [exampleRewardA, exampleRewardB] exampleNative exampleRewardA
          (attributionReceipt.logs.getD [])) :=
  ⟨by decide, C4_native_inflows_credited_to_latest_sale 200 "0xcd" attributionReceipt
    [exampleRewardA, exampleRewardB] exampleNative none none exampleRewardA (by decide)⟩

/-! ## Ranking -/

theorem compareNetProfit_le_zero_iff (a b : Int) : compareNetProfit a b ≤ 0 ↔ b ≤ a := by
  unfold compareNetProfit
  split_ifs with h1 h2
  · simp; omega
  · simp; omega
  · simp; omega

theorem filter_orderedInsert_of_key {α β : Type} [DecidableEq β] (r : α → α → Prop)
    [DecidableRel r] (key : α → β) (hr : ∀ a b, key a = key b → r a b) (v : β) (a : α) :
    ∀ l : List α, (l.orderedInsert r a).filter (fun x => decide (key x = v))
      = (a :: l).filter (fun x => decide (key x = v))
  | [] => rfl
  | b :: l => by
    rw [List.orderedInsert]
    split_ifs with h
    · rfl
    · have hne : key a ≠ key b := fun he => h (hr a b he)
      rw [List.filter_cons, filter_orderedInsert_of_key r key hr v a l]
      by_cases ha : key a = v
      · have hb : key b ≠ v := fun hb => hne (ha.trans hb.symm)
        simp [List.filter_cons, ha, hb]
      · simp [List.filter_cons, ha]

/-- Stability: sorting does not reorder the elements that share a key, provided elements
with equal keys are related by the order. -/
theorem filter_insertionSort_of_key {α β : Type} [DecidableEq β] (r : α → α → Prop)
    [DecidableRel r] (key : α → β) (hr : ∀ a b, key a = key b → r a b) (v : β) :
    ∀ l : List α, (l.insertionSort r).filter (fun x => decide (key x = v))
      = l.filter (fun x => decide (key x = v))
  | [] => rfl
  | a :: l => by
    rw [List.insertionSort, filter_orderedInsert_of_key r key hr v a, List.filter_cons,
      List.filter_cons, filter_insertionSort_of_key r key hr v l]

theorem rankRows_stablyRanked (rows : List SuccessRow) : StablyRanked rows (rankRows rows) := by
  refine ⟨List.perm_insertionSort _ _, ?_, ?_⟩
  · have htotal : IsTotal SuccessRow
        (fun a b => compareNetProfit (netProfit a) (netProfit b) ≤ 0) :=
      ⟨fun a b => by
        simp only [compareNetProfit_le_zero_iff]
        exact le_total _ _⟩
    have htrans : IsTrans SuccessRow
        (fun a b => compareNetProfit (netProfit a) (netProfit b) ≤ 0) :=
      ⟨fun a b c => by
        simp only [compareNetProfit_le_zero_iff]
        intro h1 h2
        exact le_trans h2 h1⟩
    have hs := List.sorted_insertionSort
      (fun a b : SuccessRow => compareNetProfit (netProfit a) (netProfit b) ≤ 0) rows
    refine List.Pairwise.imp ?_ hs
    intro a b hab
    exact (compareNetProfit_le_zero_iff _ _).mp hab
  · intro v
    exact filter_insertionSort_of_key _ netProfit
      (fun a b h => by rw [compareNetProfit_le_zero_iff, h]) v rows

theorem earliestMaximum_of_stablyRanked (original ranked : List SuccessRow) (opt : SuccessRow)
    (h : StablyRanked original ranked) (hhead : ranked.head? = some opt) :
    EarliestMaximum original opt := by
  obtain ⟨hperm, hsorted, hstable⟩ := h
  cases ranked with
  | nil => simp at hhead
  | cons x xs =>
    simp only [List.head?_cons, Option.some.injEq] at hhead
    subst hhead
    refine ⟨hperm.mem_iff.mp (List.mem_cons_self _ _), ?_, ?_⟩
    · intro r hr
      rcases List.mem_cons.mp (hperm.mem_iff.mpr hr) with h1 | h1
      · rw [h1]
      · exact (List.pairwise_cons.mp hsorted).1 r h1
    · rw [← hstable (netProfit x)]
      simp [List.filter_cons]

/-! ## Merging -/

theorem collectRowsByBlock_eq_foldl (loaded : List Report) :
    collectRowsByBlock loaded = (allRows loaded).foldl addRow [] := by
  have key : ∀ (l : List Report) (m : RowMap),
      l.foldl (fun m report => (report.rows.getD []).foldl addRow m) m
        = (allRows l).foldl addRow m := by
    intro l
    induction l with
    | nil => intro m; rfl
    | cons report rest ih =>
      intro m
      rw [List.foldl_cons, ih, allRows, List.foldl_append]
  exact key loaded []

theorem mapGet_mapSet (m : RowMap) (k k' : Int) (v : SuccessRow) :
    mapGet (mapSet m k v) k' = if k = k' then some v else mapGet m k' := by
  induction m with
  | nil => simp [mapSet, mapGet]
  | cons p rest ih =>
    obtain ⟨a, b⟩ := p
    simp only [mapSet]
    by_cases h : a = k
    · subst h
      by_cases h2 : a = k' <;> simp [mapGet, h2]
    · simp only [h, if_false, mapGet, ih]
      by_cases h2 : a = k'
      · have h3 : ¬ k = k' := fun h4 => h (by rw [h2, h4])
        simp [h2, h3]
      · simp [h2]

theorem lastSuccessfulRowFor_cons (b : Int) (row : HarvestRow) (rows : List HarvestRow) :
    lastSuccessfulRowFor b (row :: rows) =
      (lastSuccessfulRowFor b rows).or
        (match row with
          | .success r => if r.block = b then some r else none
          | .failure _ _ _ _ => none) := by
  unfold lastSuccessfulRowFor successfulRows
  cases row with
  | failure _ _ _ _ => simp [HarvestRow.success?]
  | success r =>
    by_cases h : r.block = b
    · simp only [List.filterMap_cons, HarvestRow.success?, List.filter_cons, h, decide_True,
        if_true, List.getLast?_cons]
      cases (List.filter (fun r => decide (r.block = b))
        (List.filterMap HarvestRow.success? rows)).getLast? <;> rfl
    · simp [HarvestRow.success?, List.filter_cons, h]

/-- The map built from a sequence of rows holds, for each block, its last successful row. -/
theorem mapGet_foldl_addRow (rows : List HarvestRow) :
    ∀ (m : RowMap) (b : Int),
      mapGet (rows.foldl addRow m) b = (lastSuccessfulRowFor b rows).or (mapGet m b) := by
  induction rows with
  | nil =>
    intro m b
    simp [lastSuccessfulRowFor, successfulRows]
  | cons row rows ih =>
    intro m b
    rw [List.foldl_cons, ih, lastSuccessfulRowFor_cons]
    cases row with
    | failure _ _ _ _ =>
      simp only [addRow]
      cases lastSuccessfulRowFor b rows <;> rfl
    | success r =>
      simp only [addRow, mapGet_mapSet]
      by_cases h : r.block = b
      · simp only [h, if_true]
        cases lastSuccessfulRowFor b rows <;> rfl
      · simp only [h, if_false]
        cases lastSuccessfulRowFor b rows <;> rfl

theorem mapSet_keys (m : RowMap) (k : Int) (v : SuccessRow) :
    ∀ x, x ∈ (mapSet m k v).map Prod.fst ↔ x = k ∨ x ∈ m.map Prod.fst := by
  induction m with
  | nil => intro x; simp [mapSet]
  | cons p rest ih =>
    obtain ⟨a, b⟩ := p
    intro x
    simp only [mapSet]
    by_cases h : a = k
    · subst h
      simp
    · simp only [h, if_false, List.map_cons, List.mem_cons, ih]
      tauto

theorem RowMapWF_mapSet (m : RowMap) (r : SuccessRow) (h : RowMapWF m) :
    RowMapWF (mapSet m r.block r) := by
  induction m with
  | nil =>
    refine ⟨by simp [mapSet], ?_⟩
    intro p hp
    simp only [mapSet, List.mem_singleton] at hp
    rw [hp]
  | cons p rest ih =>
    obtain ⟨a, b⟩ := p
    obtain ⟨hnd, hblk⟩ := h
    simp only [List.map_cons, List.nodup_cons] at hnd
    have hrest : RowMapWF rest := ⟨hnd.2, fun p hp => hblk p (List.mem_cons_of_mem _ hp)⟩
    simp only [mapSet]
    by_cases hk : a = r.block
    · simp only [hk, if_true]
      refine ⟨?_, ?_⟩
      · simp only [List.map_cons, List.nodup_cons]
        exact ⟨by rw [← hk]; exact hnd.1, hnd.2⟩
      · intro p hp
        rcases List.mem_cons.mp hp with h1 | h1
        · rw [h1]
        · exact hblk p (List.mem_cons_of_mem _ h1)
    · simp only [hk, if_false]
      obtain ⟨ih1, ih2⟩ := ih hrest
      refine ⟨?_, ?_⟩
      · simp only [List.map_cons, List.nodup_cons]
        refine ⟨?_, ih1⟩
        rw [mapSet_keys]
        intro hmem
        rcases hmem with h1 | h1
        · exact hk h1
        · exact hnd.1 h1
      · intro p hp
        rcases List.mem_cons.mp hp with h1 | h1
        · rw [h1]; exact hblk (a, b) (List.mem_cons_self _ _)
        · exact ih2 p h1

theorem RowMapWF_foldl_addRow (rows : List HarvestRow) :
    ∀ m : RowMap, RowMapWF m → RowMapWF (rows.foldl addRow m) := by
  induction rows with
  | nil => intro m h; exact h
  | cons row rows ih =>
    intro m h
    rw [List.foldl_cons]
    apply ih
    cases row with
    | failure _ _ _ _ => exact h
    | success r => exact RowMapWF_mapSet m r h

theorem RowMapWF_collectRowsByBlock (loaded : List Report) :
    RowMapWF (collectRowsByBlock loaded) := by
  rw [collectRowsByBlock_eq_foldl]
  exact RowMapWF_foldl_addRow _ [] ⟨List.nodup_nil, fun p hp => absurd hp (List.not_mem_nil _)⟩

theorem mapGet_eq_none_of_not_mem (m : RowMap) (b : Int) (h : b ∉ m.map Prod.fst) :
    mapGet m b = none := by
  induction m with
  | nil => rfl
  | cons p rest ih =>
    obtain ⟨a, v⟩ := p
    simp only [List.map_cons, List.mem_cons, not_or] at h
    have : ¬ a = b := fun h' => h.1 h'.symm
    simp only [mapGet, this, if_false]
    exact ih h.2

theorem filter_values_of_wf (m : RowMap) (h : RowMapWF m) (b : Int) :
    (m.map Prod.snd).filter (fun r => decide (r.block = b)) = (mapGet m b).toList := by
  induction m with
  | nil => rfl
  | cons p rest ih =>
    obtain ⟨a, v⟩ := p
    obtain ⟨hnd, hblk⟩ := h
    simp only [List.map_cons, List.nodup_cons] at hnd
    have hrest : RowMapWF rest := ⟨hnd.2, fun p hp => hblk p (List.mem_cons_of_mem _ hp)⟩
    have hv : v.block = a := hblk (a, v) (List.mem_cons_self _ _)
    by_cases hab : a = b
    · subst hab
      have hnone := mapGet_eq_none_of_not_mem rest a hnd.1
      have ihr := ih hrest
      rw [hnone] at ihr
      simp only [List.map_cons, List.filter_cons, hv, decide_True, if_true, mapGet]
      rw [ihr]
      rfl
    · have hvb : ¬ v.block = b := by rw [hv]; exact hab
      simp only [List.map_cons, List.filter_cons, hvb, decide_False, mapGet, hab, if_false]
      exact ih hrest

/-- For each block, the merged row list holds exactly the last successful row that the
inputs give for it. -/
theorem mergedRows_filter_block (loaded : List Report) (b : Int) :
    (mergedRows loaded).filter (fun r => decide (r.block = b))
      = (lastSuccessfulRowFor b (allRows loaded)).toList := by
  unfold mergedRows arraySort
  rw [filter_insertionSort_of_key _ (fun r : SuccessRow => r.block)
    (fun x y h => by simp only [h, sub_self, le_refl]) b,
    filter_values_of_wf _ (RowMapWF_collectRowsByBlock loaded) b,
    collectRowsByBlock_eq_foldl, mapGet_foldl_addRow]
  simp [mapGet]

/-- C7 (as written, refuted).  Block 5 has a row in both inputs; the last input that
contains a row for block 5 is the second one, whose row is a failed one.  The merger keeps
the successful row of the first input, which is not a row of the second. -/
theorem C7_last_input_row_not_kept :
    HarvestRow.success (exampleRow 5 10) ∈ shardFirst.rows.getD [] ∧
    HarvestRow.failure 5 none none "submit_failed: nonce too low" ∈ shardSecond.rows.getD [] ∧
    (HarvestRow.failure 5 none none "submit_failed: nonce too low").block = 5 ∧
    mergedRows [shardFirst, shardSecond] = [exampleRow 5 10] ∧
    HarvestRow.success (exampleRow 5 10) ∉ shardSecond.rows.getD [] := by
  refine ⟨by decide, by decide, by decide, by decide, by decide⟩

/-- C7 (amended).  For every list of input reports and every block number, the row the
merger keeps for that block is the last successful (`ok = true`) row for that block, taking
the inputs in `RUN_TAGS` order and the rows of an input in array order; failed rows are
skipped, and a block without a successful row has no row. -/
theorem C7_merger_keeps_last_successful_row (loaded : List Report) (b : Int) :
    mapGet (collectRowsByBlock loaded) b = lastSuccessfulRowFor b (allRows loaded) ∧
    (mergedRows loaded).filter (fun r => decide (r.block = b))
      = (lastSuccessfulRowFor b (allRows loaded)).toList := by
  refine ⟨?_, mergedRows_filter_block loaded b⟩
  rw [collectRowsByBlock_eq_foldl, mapGet_foldl_addRow]
  simp [mapGet]

/-! ## The ranker in both scripts -/

theorem successfulRows_ne_nil (results : List HarvestRow)
    (h : ∃ r ∈ results, r.ok = true) : successfulRows results ≠ [] := by
  obtain ⟨r, hr, hok⟩ := h
  cases r with
  | failure _ _ _ _ => simp [HarvestRow.ok] at hok
  | success row =>
    intro hnil
    have : row ∈ successfulRows results :=
      List.mem_filterMap.mpr ⟨_, hr, rfl⟩
    rw [hnil] at this
    exact absurd this (List.not_mem_nil _)

theorem rankResults_eq (results : List HarvestRow) (h : successfulRows results ≠ []) :
    rankResults results = .ok ((rankRows (successfulRows results)).map toScored) := by
  unfold rankResults
  have hlen : ¬ (successfulRows results).length = 0 := fun h0 => h (List.length_eq_zero.mp h0)
  simp only [hlen, if_false]
  congr 1
  unfold rankRows arraySort
  exact (List.map_insertionSort _ _ toScored _ (fun a _ b _ => Iff.rfl)).symm

theorem mergeRank_eq (loaded : List Report) (h : mergedRows loaded ≠ []) :
    mergeRank loaded = .ok ((rankRows (mergedRows loaded)).map toMergedScored) := by
  unfold mergeRank
  have hlen : ¬ (mergedRows loaded).length = 0 := fun h0 => h (List.length_eq_zero.mp h0)
  simp only [hlen, if_false]
  congr 1
  unfold rankRows arraySort
  exact (List.map_insertionSort _ _ toMergedScored _ (fun a _ b _ => Iff.rfl)).symm

theorem mergedRows_ne_nil (loaded : List Report)
    (h : ∃ r ∈ allRows loaded, r.ok = true) : mergedRows loaded ≠ [] := by
  obtain ⟨r, hr, hok⟩ := h
  cases r with
  | failure _ _ _ _ => simp [HarvestRow.ok] at hok
  | success row =>
    intro hnil
    have hf := mergedRows_filter_block loaded row.block
    rw [hnil] at hf
    have hmem : row ∈ (successfulRows (allRows loaded)).filter
        (fun r => decide (r.block = row.block)) := by
      rw [List.mem_filter]
      exact ⟨List.mem_filterMap.mpr ⟨_, hr, rfl⟩, by simp⟩
    unfold lastSuccessfulRowFor at hf
    cases hl : ((successfulRows (allRows loaded)).filter
        (fun r => decide (r.block = row.block))).getLast? with
    | none =>
      rw [List.getLast?_eq_none_iff.mp hl] at hmem
      exact absurd hmem (List.not_mem_nil _)
    | some x =>
      rw [hl] at hf
      simp [Option.toList] at hf

theorem rankRows_head (rows : List SuccessRow) (h : rows ≠ []) :
    ∃ opt, (rankRows rows).head? = some opt := by
  cases hr : rankRows rows with
  | nil =>
    have := (rankRows_stablyRanked rows).1
    rw [hr] at this
    exact absurd this.symm.eq_nil h
  | cons x xs => exact ⟨x, rfl⟩

/-- C5.  In `ghost-audit` and in the merger alike, when the row list has a successful row
the scored list is the scoring of a permutation of the successful rows in non-increasing
`netProfitEthWei` with rows of equal net profit in their original relative order, and the
selected optimal row is its first element: its net profit is at least that of every
successful row, and among the rows attaining the maximum it is the earliest in the
original order. -/
theorem C5_ranker_sorts_stably_and_selects_first :
    (∀ results : List HarvestRow, (∃ r ∈ results, r.ok = true) →
      ∃ ranked opt, rankResults results = .ok (ranked.map toScored) ∧
        StablyRanked (successfulRows results) ranked ∧
        ranked.head? = some opt ∧ ghostOptimal results = some (toScored opt) ∧
        EarliestMaximum (successfulRows results) opt) ∧
    (∀ loaded : List Report, (∃ r ∈ allRows loaded, r.ok = true) →
      ∃ ranked opt, mergeRank loaded = .ok (ranked.map toMergedScored) ∧
        StablyRanked (mergedRows loaded) ranked ∧
        ranked.head? = some opt ∧ mergeOptimal loaded = some (toMergedScored opt) ∧
        EarliestMaximum (mergedRows loaded) opt) := by
  constructor
  · intro results h
    have hne := successfulRows_ne_nil results h
    obtain ⟨opt, hopt⟩ := rankRows_head _ hne
    have hst := rankRows_stablyRanked (successfulRows results)
    refine ⟨rankRows (successfulRows results), opt, rankResults_eq results hne, hst, hopt, ?_,
      earliestMaximum_of_stablyRanked _ _ _ hst hopt⟩
    unfold ghostOptimal
    rw [rankResults_eq results hne]
    simp only [← List.head?_eq_getElem?, List.head?_map, hopt, Option.map_some']
  · intro loaded h
    have hne := mergedRows_ne_nil loaded h
    obtain ⟨opt, hopt⟩ := rankRows_head _ hne
    have hst := rankRows_stablyRanked (mergedRows loaded)
    refine ⟨rankRows (mergedRows loaded), opt, mergeRank_eq loaded hne, hst, hopt, ?_,
      earliestMaximum_of_stablyRanked _ _ _ hst hopt⟩
    unfold mergeOptimal
    rw [mergeRank_eq loaded hne]
    simp only [← List.head?_eq_getElem?, List.head?_map, hopt, Option.map_some']

/-! ## Sharded runs -/

theorem mapSet_fresh (m : RowMap) (k : Int) (v : SuccessRow) (h : k ∉ m.map Prod.fst) :
    mapSet m k v = m ++ [(k, v)] := by
  induction m with
  | nil => rfl
  | cons p rest ih =>
    obtain ⟨a, b⟩ := p
    simp only [List.map_cons, List.mem_cons, not_or] at h
    have hak : ¬ a = k := fun h' => h.1 h'.symm
    simp only [mapSet, hak, if_false, List.cons_append, ih h.2]

/-- When the successful rows have pairwise distinct blocks, none of them already a key,
every `set` appends: the map lists the successful rows in input order. -/
theorem foldl_addRow_fresh (rows : List HarvestRow) :
    ∀ m : RowMap,
      (successfulRows rows).Pairwise (fun x y => x.block ≠ y.block) →
      (∀ r ∈ successfulRows rows, r.block ∉ m.map Prod.fst) →
      rows.foldl addRow m = m ++ (successfulRows rows).map (fun r => (r.block, r)) := by
  induction rows with
  | nil => intro m _ _; simp [successfulRows]
  | cons row rows ih =>
    intro m hpw hfresh
    rw [List.foldl_cons]
    cases row with
    | failure _ _ _ _ =>
      simp only [successfulRows, List.filterMap_cons, HarvestRow.success?] at hpw hfresh ⊢
      exact ih m hpw hfresh
    | success r =>
      simp only [successfulRows, List.filterMap_cons, HarvestRow.success?, List.pairwise_cons,
        List.mem_cons, forall_eq_or_imp] at hpw hfresh ⊢
      simp only [addRow]
      rw [mapSet_fresh m r.block r hfresh.1, ih _ hpw.2]
      · simp [successfulRows]
      · intro x hx
        simp only [List.map_append, List.map_cons, List.map_nil, List.mem_append,
          List.mem_singleton, not_or]
        exact ⟨hfresh.2 x hx, fun h => hpw.1 x hx h.symm⟩

theorem mergedRows_eq_of_distinct_blocks (shardA shardB : Report) (combined : List HarvestRow)
    (hA : (shardA.rows.getD []).Pairwise (fun x y => x.block < y.block))
    (hB : (shardB.rows.getD []).Pairwise (fun x y => x.block < y.block))
    (hdisj : ∀ x ∈ shardA.rows.getD [], ∀ y ∈ shardB.rows.getD [], x.block ≠ y.block)
    (hC : combined.Pairwise (fun x y => x.block < y.block))
    (hperm : combined.Perm (shardA.rows.getD [] ++ shardB.rows.getD [])) :
    mergedRows [shardA, shardB] = successfulRows combined := by
  have hsucc : ∀ (a a' : HarvestRow), a.block ≠ a'.block →
      ∀ b ∈ a.success?, ∀ b' ∈ a'.success?, b.block ≠ b'.block := by
    intro a a' h b hb b' hb'
    cases a <;> cases a' <;> simp [HarvestRow.success?] at hb hb'
    subst hb; subst hb'
    exact h
  have hsuccLt : ∀ (a a' : HarvestRow), a.block < a'.block →
      ∀ b ∈ a.success?, ∀ b' ∈ a'.success?, b.block < b'.block := by
    intro a a' h b hb b' hb'
    cases a <;> cases a' <;> simp [HarvestRow.success?] at hb hb'
    subst hb; subst hb'
    exact h
  have hne : (shardA.rows.getD [] ++ shardB.rows.getD []).Pairwise
      (fun x y => x.block ≠ y.block) := by
    rw [List.pairwise_append]
    exact ⟨hA.imp (fun h => ne_of_lt h), hB.imp (fun h => ne_of_lt h), hdisj⟩
  have hneS : (successfulRows (shardA.rows.getD [] ++ shardB.rows.getD [])).Pairwise
      (fun x y => x.block ≠ y.block) :=
    List.Pairwise.filterMap _ hsucc hne
  have hvalues : (collectRowsByBlock [shardA, shardB]).map Prod.snd
      = successfulRows (shardA.rows.getD [] ++ shardB.rows.getD []) := by
    rw [collectRowsByBlock_eq_foldl]
    simp only [allRows, List.append_nil]
    rw [foldl_addRow_fresh _ [] hneS (fun r _ => by simp)]
    simp [Function.comp_def]
  have hpermS : (mergedRows [shardA, shardB]).Perm (successfulRows combined) := by
    unfold mergedRows arraySort
    refine (List.perm_insertionSort _ _).trans ?_
    rw [hvalues]
    exact (hperm.filterMap _).symm
  have hsortedC : (successfulRows combined).Pairwise (fun x y => x.block < y.block) :=
    List.Pairwise.filterMap _ hsuccLt hC
  have hsortedM : (mergedRows [shardA, shardB]).Pairwise (fun x y => x.block < y.block) := by
    have hle : (mergedRows [shardA, shardB]).Pairwise
        (fun x y : SuccessRow => x.block - y.block ≤ 0) := by
      have htotal : IsTotal SuccessRow (fun x y => x.block - y.block ≤ 0) :=
        ⟨fun a b => by omega⟩
      have htrans : IsTrans SuccessRow (fun x y => x.block - y.block ≤ 0) :=
        ⟨fun a b c h1 h2 => by omega⟩
      exact List.sorted_insertionSort (fun x y : SuccessRow => x.block - y.block ≤ 0) _
    have hneM : (mergedRows [shardA, shardB]).Pairwise (fun x y => x.block ≠ y.block) :=
      hpermS.symm.pairwise (hsortedC.imp (fun h => ne_of_lt h)) (fun h => h.symm)
    exact List.Pairwise.imp₂ (fun a b h1 h2 => by omega) hle hneM
  have hanti : IsAntisymm SuccessRow (fun x y => x.block < y.block) :=
    ⟨fun a b h1 h2 => absurd h1 (not_lt.mpr (le_of_lt h2))⟩
  exact List.eq_of_perm_of_sorted hpermS hsortedM hsortedC

/-- C6.  For two shards produced over disjoint block sets, each in ascending block order,
and the rows of the combined block set in ascending block order, the merger over the two
shards and the ranker of `ghost-audit` over the combined rows select the same optimal
block (and the same optimal row), ties on net profit included; the selection exists as
soon as some row succeeded. -/
theorem C6_merged_shards_select_same_optimal_block (shardA shardB : Report)
    (combined : List HarvestRow)
    (hA : (shardA.rows.getD []).Pairwise (fun x y => x.block < y.block))
    (hB : (shardB.rows.getD []).Pairwise (fun x y => x.block < y.block))
    (hdisj : ∀ x ∈ shardA.rows.getD [], ∀ y ∈ shardB.rows.getD [], x.block ≠ y.block)
    (hC : combined.Pairwise (fun x y => x.block < y.block))
    (hperm : combined.Perm (shardA.rows.getD [] ++ shardB.rows.getD [])) :
    (mergeOptimal [shardA, shardB]).map (·.block) = (ghostOptimal combined).map (·.block) ∧
    (mergeOptimal [shardA, shardB]).map (·.row) = (ghostOptimal combined).map (·.row) ∧
    ((∃ r ∈ combined, r.ok = true) → ∃ opt, ghostOptimal combined = some opt) := by
  have hrows := mergedRows_eq_of_distinct_blocks shardA shardB combined hA hB hdisj hC hperm
  by_cases hnil : successfulRows combined = []
  · have hm : mergeOptimal [shardA, shardB] = none := by
      unfold mergeOptimal mergeRank
      simp [hrows, hnil]
    have hg : ghostOptimal combined = none := by
      unfold ghostOptimal rankResults
      simp [hnil]
    rw [hm, hg]
    refine ⟨rfl, rfl, fun h => absurd hnil (successfulRows_ne_nil combined h)⟩
  · have hm : mergeOptimal [shardA, shardB]
        = ((rankRows (successfulRows combined)).head?).map toMergedScored := by
      unfold mergeOptimal
      rw [mergeRank_eq _ (by rw [hrows]; exact hnil), hrows]
      simp only [← List.head?_eq_getElem?, List.head?_map]
    have hg : ghostOptimal combined
        = ((rankRows (successfulRows combined)).head?).map toScored := by
      unfold ghostOptimal
      rw [rankResults_eq _ hnil]
      simp only [← List.head?_eq_getElem?, List.head?_map]
    obtain ⟨opt, hopt⟩ := rankRows_head _ hnil
    rw [hm, hg, hopt]
    exact ⟨rfl, rfl, fun _ => ⟨_, rfl⟩⟩

/-- Witness for C6: shards over blocks {100, 140} and {120, 160}, with a tie between
blocks 120 and 140; both ways select block 120. -/
theorem C6_merged_shards_select_same_optimal_block_witness :
    (mergeOptimal [shardEven, shardOdd]).map (·.block) = some 120 ∧
    ((mergeOptimal [shardEven, shardOdd]).map (·.block)
        = (ghostOptimal unshardedRows).map (·.block) ∧
      (mergeOptimal [shardEven, shardOdd]).map (·.row)
        = (ghostOptimal unshardedRows).map (·.row) ∧
      ((∃ r ∈ unshardedRows, r.ok = true) → ∃ opt, ghostOptimal unshardedRows = some opt)) :=
  ⟨by decide, C6_merged_shards_select_same_optimal_block shardEven shardOdd unshardedRows
    (by decide) (by decide) (by decide) (by decide) (by decide)⟩

/-! ## Profit figures -/

theorem addNativeOut_events (N tl sender : Address) (value : Int) (st : ScanState) :
    (addNativeOut N tl sender value st).stratHarvest = st.stratHarvest ∧
    (addNativeOut N tl sender value st).chargedFees = st.chargedFees := by
  unfold addNativeOut
  split <;> exact ⟨rfl, rfl⟩

theorem addNativeIn_events (N tl recipient : Address) (value : Int) (st : ScanState) :
    (addNativeIn N tl recipient value st).stratHarvest = st.stratHarvest ∧
    (addNativeIn N tl recipient value st).chargedFees = st.chargedFees := by
  unfold addNativeIn
  split
  · cases hc : st.currentAttributionTokenLower <;> simp [hc]
  · exact ⟨rfl, rfl⟩

theorem addRewardIn_events (R : List Address) (tl recipient : Address) (value : Int)
    (st : ScanState) :
    (addRewardIn R tl recipient value st).stratHarvest = st.stratHarvest ∧
    (addRewardIn R tl recipient value st).chargedFees = st.chargedFees := by
  unfold addRewardIn
  split <;> exact ⟨rfl, rfl⟩

theorem addRewardOut_events (R : List Address) (tl sender : Address) (value : Int)
    (st : ScanState) :
    (addRewardOut R tl sender value st).stratHarvest = st.stratHarvest ∧
    (addRewardOut R tl sender value st).chargedFees = st.chargedFees := by
  unfold addRewardOut
  split
  · split <;> exact ⟨rfl, rfl⟩
  · exact ⟨rfl, rfl⟩

theorem scanTransfer_events (R : List Address) (N : Address) (st : ScanState) (log : Log) :
    (scanTransfer R N st log).stratHarvest = st.stratHarvest ∧
    (scanTransfer R N st log).chargedFees = st.chargedFees := by
  unfold scanTransfer
  cases h : log.event with
  | Transfer sender recipient value =>
    simp only []
    rw [(addRewardOut_events _ _ _ _ _).1, (addRewardIn_events _ _ _ _ _).1,
      (addNativeIn_events _ _ _ _ _).1, (addNativeOut_events _ _ _ _ _).1,
      (addRewardOut_events _ _ _ _ _).2, (addRewardIn_events _ _ _ _ _).2,
      (addNativeIn_events _ _ _ _ _).2, (addNativeOut_events _ _ _ _ _).2]
    exact ⟨rfl, rfl⟩
  | ChargedFees _ _ _ => exact ⟨rfl, rfl⟩
  | StratHarvest _ _ _ => exact ⟨rfl, rfl⟩
  | unknown => exact ⟨rfl, rfl⟩

theorem scanLog_wantHarvested (R : List Address) (N : Address) (st : ScanState) (log : Log) :
    (scanLog R N st log).stratHarvest.wantHarvested =
      if isStrategyHarvest log = true then
        (match log.event with
          | .StratHarvest _ wantHarvested _ => wantHarvested
          | _ => 0)
      else st.stratHarvest.wantHarvested := by
  unfold scanLog
  rw [(scanTransfer_events R N _ log).1]
  unfold scanStrategyEvent isStrategyHarvest
  cases h : log.event with
  | StratHarvest harvester wantHarvested tvl =>
    by_cases ha : lower log.address = lower CONFIG_strategy
    · simp [ha]
    · simp [ha]
  | Transfer _ _ _ => split <;> simp
  | ChargedFees _ _ _ => split <;> simp
  | unknown => split <;> simp

theorem reportedWantHarvested_concat (pre : List Log) (log : Log) :
    reportedWantHarvested (pre ++ [log]) =
      if isStrategyHarvest log = true then
        (match log.event with
          | .StratHarvest _ wantHarvested _ => wantHarvested
          | _ => 0)
      else reportedWantHarvested pre := by
  unfold reportedWantHarvested
  rw [List.filter_append]
  by_cases h : isStrategyHarvest log = true
  · simp [List.filter_cons, h]
  · simp [List.filter_cons, h]

/-- The scan keeps the `wantHarvested` of the last `StratHarvest` event of the strategy. -/
theorem scanLogs_wantHarvested (R : List Address) (N : Address) (logs : List Log) :
    (scanLogs R N logs).stratHarvest.wantHarvested = reportedWantHarvested logs := by
  induction logs using List.reverseRecOn with
  | nil => rfl
  | append_singleton pre log ih =>
    have hstep : scanLogs R N (pre ++ [log]) = scanLog R N (scanLogs R N pre) log := by
      simp [scanLogs, List.foldl_append]
    rw [hstep, scanLog_wantHarvested, reportedWantHarvested_concat, ih]

theorem tdiv_eq_floor (a b : Int) (ha : 0 ≤ a) (hb : 0 < b) :
    Int.tdiv a b = ⌊(a : ℚ) / (b : ℚ)⌋ := by
  rw [Int.tdiv_eq_ediv ha (le_of_lt hb)]
  have hb' : (b : ℚ) = ((b.toNat : ℕ) : ℚ) := by
    have : ((b.toNat : ℕ) : ℤ) = b := Int.toNat_of_nonneg (le_of_lt hb)
    exact_mod_cast this.symm
  rw [hb', Rat.floor_intCast_div_natCast, Int.toNat_of_nonneg (le_of_lt hb)]
theorem reportedWantHarvested_nonneg (logs : List Log)
    (h : ∀ log ∈ logs, nonnegAmounts log) : 0 ≤ reportedWantHarvested logs := by
  unfold reportedWantHarvested
  cases hl : (logs.filter isStrategyHarvest).getLast? with
  | none => exact le_refl _
  | some log =>
    obtain ⟨ys, hys⟩ := List.getLast?_eq_some_iff.mp hl
    have hmem : log ∈ logs.filter isStrategyHarvest := by rw [hys]; simp
    have hlog := h log (List.mem_filter.mp hmem).1
    unfold nonnegAmounts at hlog
    cases he : log.event with
    | StratHarvest _ w _ =>
      rw [he] at hlog
      simp only [he]
      exact hlog.1
    | Transfer _ _ _ => simp only [he]; exact le_refl _
    | ChargedFees _ _ _ => simp only [he]; exact le_refl _
    | unknown => simp only [he]; exact le_refl _

/-- C11.  For every successful receipt (event amounts being `uint256` values),
`estimated.grossProfitWantWei` is the `wantHarvested` value of the `StratHarvest` event, and
`estimated.grossProfitEthWei` is `floor(wantHarvested * wantPriceWei / 10^18)` when a
want price was resolved, and 0 when the price is null or 0. -/
theorem C11_gross_profit_figures (targetBlock : Int) (txHash : String) (receipt : Receipt)
    (rewardTokenSet : List Address) (nativeTokenLower : Address)
    (wantPricing : Option WantPricing) (l1FeeWei : Option Int)
    (hstatus : parseReceiptStatus receipt.status = "success")
    (hamounts : ∀ log ∈ receipt.logs.getD [], nonnegAmounts log) :
    ∃ row, buildHarvestRowFromReceipt targetBlock txHash receipt rewardTokenSet
        nativeTokenLower wantPricing l1FeeWei = .success row ∧
      row.estimated.grossProfitWantWei = reportedWantHarvested (receipt.logs.getD []) ∧
      (∀ p : Int, wantPricing.bind (·.priceWei) = some p → 0 < p →
        row.estimated.grossProfitEthWei
          = ⌊((reportedWantHarvested (receipt.logs.getD []) * p : Int) : ℚ) / 10 ^ 18⌋) ∧
      ((wantPricing.bind (·.priceWei) = none ∨ wantPricing.bind (·.priceWei) = some 0) →
        row.estimated.grossProfitEthWei = 0) := by
  simp only [buildHarvestRowFromReceipt, hstatus, ne_eq, not_true_eq_false, if_false]
  refine ⟨_, rfl, scanLogs_wantHarvested _ _ _, ?_, ?_⟩
  · intro p hp hpos
    simp only [hp, Option.getD_some, gt_iff_lt, hpos, if_true, scanLogs_wantHarvested]
    have hw := reportedWantHarvested_nonneg _ hamounts
    rw [tdiv_eq_floor _ _ (mul_nonneg hw (le_of_lt hpos)) (by norm_num)]
    norm_num
  · rintro (hp | hp)
    · simp [hp]
    · simp [hp]

/-- Witness for C11: the end-to-end scenario, with price `10^18`. -/
theorem C11_gross_profit_figures_witness :
    ∃ row, buildHarvestRowFromReceipt 41493767 "0x1f19" scenarioReceipt [] 0
        (some scenarioPricing) (some 2000000000000) = .success row ∧
      row.estimated.grossProfitWantWei = reportedWantHarvested (scenarioReceipt.logs.getD []) ∧
      (∀ p : Int, (some scenarioPricing).bind (·.priceWei) = some p → 0 < p →
        row.estimated.grossProfitEthWei
          = ⌊((reportedWantHarvested (scenarioReceipt.logs.getD []) * p : Int) : ℚ) / 10 ^ 18⌋) ∧
      (((some scenarioPricing).bind (·.priceWei) = none ∨
          (some scenarioPricing).bind (·.priceWei) = some 0) →
        row.estimated.grossProfitEthWei = 0) :=
  C11_gross_profit_figures 41493767 "0x1f19" scenarioReceipt [] 0
    (some scenarioPricing) (some 2000000000000) (by decide)
    (by
      intro log h
      simp only [scenarioReceipt, Option.getD_some, List.mem_singleton] at h
      subst h
      simp [nonnegAmounts])

/-- C12.  For every successful receipt, `estimated.netProfitWantWei` is
`wantHarvested - floor(totalGasCost * 10^18 / wantPriceWei)` when a want price was
resolved (gas figures being non-negative), and `wantHarvested` unchanged when the price is
null or 0; and for any input whatever no division is given a zero divisor: the checked
computation returns the figures of the row. -/
theorem C12_net_profit_in_want (targetBlock : Int) (txHash : String) (receipt : Receipt)
    (rewardTokenSet : List Address) (nativeTokenLower : Address)
    (wantPricing : Option WantPricing) (l1FeeWei : Option Int)
    (hstatus : parseReceiptStatus receipt.status = "success") :
    ∃ row, buildHarvestRowFromReceipt targetBlock txHash receipt rewardTokenSet
        nativeTokenLower wantPricing l1FeeWei = .success row ∧
      row.gasCostWei = receipt.gasUsed * receipt.effectiveGasPrice + l1FeeWei.getD 0 ∧
      (∀ p : Int, wantPricing.bind (·.priceWei) = some p → 0 < p →
        0 ≤ receipt.gasUsed → 0 ≤ receipt.effectiveGasPrice → 0 ≤ l1FeeWei.getD 0 →
        row.estimated.netProfitWantWei
          = reportedWantHarvested (receipt.logs.getD [])
            - ⌊((row.gasCostWei * 10 ^ 18 : Int) : ℚ) / (p : ℚ)⌋) ∧
      ((wantPricing.bind (·.priceWei) = none ∨ wantPricing.bind (·.priceWei) = some 0) →
        row.estimated.netProfitWantWei = reportedWantHarvested (receipt.logs.getD [])) ∧
      estimateProfit (reportedWantHarvested (receipt.logs.getD [])) row.gasCostWei
          ((wantPricing.bind (·.priceWei)).getD 0)
        = .ok (row.estimated.grossProfitEthWei, row.estimated.netProfitEthWei,
            row.estimated.netProfitWantWei) := by
  simp only [buildHarvestRowFromReceipt, hstatus, ne_eq, not_true_eq_false, if_false]
  refine ⟨_, rfl, rfl, ?_, ?_, ?_⟩
  · intro p hp hpos hg hprice hl1
    simp only [hp, Option.getD_some, gt_iff_lt, hpos, if_true, scanLogs_wantHarvested]
    rw [tdiv_eq_floor _ _ (mul_nonneg (add_nonneg (mul_nonneg hg hprice) hl1) (by norm_num))
      hpos]
  · rintro (hp | hp)
    · simp [hp, scanLogs_wantHarvested]
    · simp [hp, scanLogs_wantHarvested]
  · simp only [scanLogs_wantHarvested]
    unfold estimateProfit bigIntDiv
    by_cases hpos : (wantPricing.bind (·.priceWei)).getD 0 > 0
    · have hne : ¬ (wantPricing.bind (·.priceWei)).getD 0 = 0 := by omega
      simp [hpos, hne]
    · simp [hpos]

/-- Witness for C12: the end-to-end scenario. -/
theorem C12_net_profit_in_want_witness :
    ∃ row, buildHarvestRowFromReceipt 41493767 "0x1f19" scenarioReceipt [] 0
        (some scenarioPricing) (some 2000000000000) = .success row ∧
      row.gasCostWei = scenarioReceipt.gasUsed * scenarioReceipt.effectiveGasPrice
        + (some 2000000000000 : Option Int).getD 0 ∧
      (∀ p : Int, (some scenarioPricing).bind (·.priceWei) = some p → 0 < p →
        0 ≤ scenarioReceipt.gasUsed → 0 ≤ scenarioReceipt.effectiveGasPrice →
        0 ≤ (some 2000000000000 : Option Int).getD 0 →
        row.estimated.netProfitWantWei
          = reportedWantHarvested (scenarioReceipt.logs.getD [])
            - ⌊((row.gasCostWei * 10 ^ 18 : Int) : ℚ) / (p : ℚ)⌋) ∧
      (((some scenarioPricing).bind (·.priceWei) = none ∨
          (some scenarioPricing).bind (·.priceWei) = some 0) →
        row.estimated.netProfitWantWei = reportedWantHarvested (scenarioReceipt.logs.getD [])) ∧
      estimateProfit (reportedWantHarvested (scenarioReceipt.logs.getD [])) row.gasCostWei
          (((some scenarioPricing).bind (·.priceWei)).getD 0)
        = .ok (row.estimated.grossProfitEthWei, row.estimated.netProfitEthWei,
            row.estimated.netProfitWantWei) :=
  C12_net_profit_in_want 41493767 "0x1f19" scenarioReceipt [] 0
    (some scenarioPricing) (some 2000000000000) (by decide)

/-! ## Receipts without reward sales; non-negativity -/

theorem lastRewardSale_eq_none (R : List Address) (logs : List Log)
    (h : ∀ log ∈ logs, isRewardSale R log = false) : lastRewardSale R logs = none := by
  unfold lastRewardSale
  have : logs.filter (isRewardSale R) = [] := by
    rw [List.filter_eq_nil_iff]
    intro log hlog
    rw [h log hlog]
    simp
  rw [this]
  rfl

theorem isRewardSale_of_not_outflow (R : List Address) (log : Log)
    (h : isRewardOutflow R log = false) : isRewardSale R log = false := by
  unfold isRewardOutflow at h
  unfold isRewardSale
  cases he : log.event with
  | Transfer sender recipient value =>
    rw [he] at h
    simp only [decide_eq_false_iff_not] at h ⊢
    exact fun hh => h ⟨hh.1, hh.2.1⟩
  | ChargedFees _ _ _ => rfl
  | StratHarvest _ _ _ => rfl
  | unknown => rfl

theorem dict_eq_nil_of_get_none (d : Dict) (h : ∀ t, dictGet d t = none) : d = [] := by
  cases d with
  | nil => rfl
  | cons p rest =>
    obtain ⟨k, v⟩ := p
    have := h k
    simp [dictGet] at this

/-- Without a non-zero reward sale nothing is attributed. -/
theorem scanLogs_attributed_nil (R : List Address) (N : Address) (logs : List Log)
    (h : ∀ log ∈ logs, isRewardSale R log = false) :
    (scanLogs R N logs).attributedNativeInByReward = [] := by
  apply dict_eq_nil_of_get_none
  intro t
  cases hg : dictGet (scanLogs R N logs).attributedNativeInByReward t with
  | none => rfl
  | some v =>
    have hpres := (scanLogs_present R N logs t).mp (by rw [hg]; rfl)
    obtain ⟨i, log, _, _, hsale⟩ := hpres
    rw [lastRewardSale_eq_none R (logs.take i)
      (fun l hl => h l (List.mem_of_mem_take hl))] at hsale
    exact absurd hsale (by simp)

/-- C16.  For every successful receipt that contains no `Transfer` of a configured reward
token from the strategy, `swapAttribution.nativeInByReward` is empty whatever native
inflows the receipt contains, and `netProfitEthWei = grossProfitEthWei - gasCostWei`. -/
theorem C16_no_reward_sale_empty_attribution (targetBlock : Int) (txHash : String)
    (receipt : Receipt) (rewardTokenSet : List Address) (nativeTokenLower : Address)
    (wantPricing : Option WantPricing) (l1FeeWei : Option Int)
    (hstatus : parseReceiptStatus receipt.status = "success")
    (hnone : ∀ log ∈ receipt.logs.getD [], isRewardOutflow rewardTokenSet log = false) :
    ∃ row, buildHarvestRowFromReceipt targetBlock txHash receipt rewardTokenSet
        nativeTokenLower wantPricing l1FeeWei = .success row ∧
      row.swapAttribution.nativeInByReward = [] ∧
      row.estimated.netProfitEthWei = row.estimated.grossProfitEthWei - row.gasCostWei := by
  simp only [buildHarvestRowFromReceipt, hstatus, ne_eq, not_true_eq_false, if_false]
  exact ⟨_, rfl, scanLogs_attributed_nil _ _ _
    (fun log hlog => isRewardSale_of_not_outflow _ log (hnone log hlog)), rfl⟩

/-- Witness for C16: a receipt with native inflows of 5 and 7 and no reward outflow. -/
theorem C16_no_reward_sale_empty_attribution_witness :
    ∃ row, buildHarvestRowFromReceipt 300 "0xef" inflowOnlyReceipt
        [exampleRewardA, exampleRewardB] exampleNative none none = .success row ∧
      row.swapAttribution.nativeInByReward = [] ∧
      row.estimated.netProfitEthWei = row.estimated.grossProfitEthWei - row.gasCostWei :=
  C16_no_reward_sale_empty_attribution 300 "0xef" inflowOnlyReceipt
    [exampleRewardA, exampleRewardB] exampleNative none none (by decide) (by decide)

theorem dictGet_getD_nonneg (d : Dict) (h : dictNonneg d) (k : Address) :
    0 ≤ (dictGet d k).getD 0 := by
  induction d with
  | nil => exact le_refl _
  | cons p rest ih =>
    obtain ⟨a, v⟩ := p
    by_cases hk : a = k
    · simp only [dictGet, hk, if_true, Option.getD_some]
      exact h (a, v) (List.mem_cons_self _ _)
    · simp only [dictGet, hk, if_false]
      exact ih (fun q hq => h q (List.mem_cons_of_mem _ hq))

theorem dictSet_nonneg (d : Dict) (k : Address) (v : Int) (h : dictNonneg d) (hv : 0 ≤ v) :
    dictNonneg (dictSet d k v) := by
  induction d with
  | nil =>
    intro q hq
    simp only [dictSet, List.mem_singleton] at hq
    rw [hq]; exact hv
  | cons p rest ih =>
    obtain ⟨a, w⟩ := p
    intro q hq
    by_cases hk : a = k
    · simp only [dictSet, hk, if_true, List.mem_cons] at hq
      rcases hq with hq | hq
      · rw [hq]; exact hv
      · exact h q (List.mem_cons_of_mem _ hq)
    · simp only [dictSet, hk, if_false, List.mem_cons] at hq
      rcases hq with hq | hq
      · rw [hq]; exact h (a, w) (List.mem_cons_self _ _)
      · exact ih (fun q' hq' => h q' (List.mem_cons_of_mem _ hq')) q hq

theorem dictAdd_nonneg (d : Dict) (k : Address) (value : Int) (h : dictNonneg d)
    (hv : 0 ≤ value) : dictNonneg (dictSet d k ((dictGet d k).getD 0 + value)) :=
  dictSet_nonneg d k _ h (add_nonneg (dictGet_getD_nonneg d h k) hv)

theorem scanStrategyEvent_nonneg (st : ScanState) (log : Log) (h : ScanNonneg st)
    (hlog : nonnegAmounts log) : ScanNonneg (scanStrategyEvent st log) := by
  unfold scanStrategyEvent
  unfold nonnegAmounts at hlog
  split
  · cases he : log.event with
    | ChargedFees a b c =>
      rw [he] at hlog
      exact ⟨hlog.1, hlog.2.1, hlog.2.2, h.4, h.5, h.6, h.7, h.8, h.9, h.10, h.11⟩
    | StratHarvest _ w t =>
      rw [he] at hlog
      exact ⟨h.1, h.2, h.3, hlog.1, hlog.2, h.6, h.7, h.8, h.9, h.10, h.11⟩
    | Transfer _ _ _ => exact h
    | unknown => exact h
  · exact h

theorem addNativeOut_nonneg (N tl sender : Address) (value : Int) (st : ScanState)
    (h : ScanNonneg st) (hv : 0 ≤ value) : ScanNonneg (addNativeOut N tl sender value st) := by
  unfold addNativeOut
  split
  · exact ⟨h.1, h.2, h.3, h.4, h.5, h.6, h.7, add_nonneg h.8 hv, h.9, h.10, h.11⟩
  · exact h

theorem addNativeIn_nonneg (N tl recipient : Address) (value : Int) (st : ScanState)
    (h : ScanNonneg st) (hv : 0 ≤ value) :
    ScanNonneg (addNativeIn N tl recipient value st) := by
  unfold addNativeIn
  split
  · cases hc : st.currentAttributionTokenLower with
    | none =>
      simp only [hc]
      exact ⟨h.1, h.2, h.3, h.4, h.5, h.6, h.7, h.8, add_nonneg h.9 hv, h.10, h.11⟩
    | some cur =>
      simp only [hc]
      exact ⟨h.1, h.2, h.3, h.4, h.5, h.6, h.7, h.8, add_nonneg h.9 hv,
        dictAdd_nonneg _ _ _ h.10 hv, h.11⟩
  · exact h

theorem addRewardIn_nonneg (R : List Address) (tl recipient : Address) (value : Int)
    (st : ScanState) (h : ScanNonneg st) (hv : 0 ≤ value) :
    ScanNonneg (addRewardIn R tl recipient value st) := by
  unfold addRewardIn
  split
  · exact ⟨h.1, h.2, h.3, h.4, h.5, dictAdd_nonneg _ _ _ h.6 hv, h.7, h.8, h.9, h.10, h.11⟩
  · exact h

theorem addRewardOut_nonneg (R : List Address) (tl sender : Address) (value : Int)
    (st : ScanState) (h : ScanNonneg st) (hv : 0 ≤ value) :
    ScanNonneg (addRewardOut R tl sender value st) := by
  unfold addRewardOut
  split
  · split
    · exact ⟨h.1, h.2, h.3, h.4, h.5, h.6, dictAdd_nonneg _ _ _ h.7 hv, h.8, h.9, h.10,
        dictAdd_nonneg _ _ _ h.11 hv⟩
    · exact ⟨h.1, h.2, h.3, h.4, h.5, h.6, dictAdd_nonneg _ _ _ h.7 hv, h.8, h.9, h.10,
        dictAdd_nonneg _ _ _ h.11 hv⟩
  · exact h

theorem scanLog_nonneg (R : List Address) (N : Address) (st : ScanState) (log : Log)
    (h : ScanNonneg st) (hlog : nonnegAmounts log) : ScanNonneg (scanLog R N st log) := by
  have h1 := scanStrategyEvent_nonneg st log h hlog
  unfold scanLog scanTransfer
  unfold nonnegAmounts at hlog
  cases he : log.event with
  | Transfer sender recipient value =>
    rw [he] at hlog
    simp only []
    exact addRewardOut_nonneg _ _ _ _ _ (addRewardIn_nonneg _ _ _ _ _
      (addNativeIn_nonneg _ _ _ _ _ (addNativeOut_nonneg _ _ _ _ _ h1 hlog) hlog) hlog) hlog
  | ChargedFees _ _ _ => exact h1
  | StratHarvest _ _ _ => exact h1
  | unknown => exact h1

theorem scanLogs_nonneg (R : List Address) (N : Address) (logs : List Log)
    (h : ∀ log ∈ logs, nonnegAmounts log) : ScanNonneg (scanLogs R N logs) := by
  have key : ∀ (l : List Log) (st : ScanState), ScanNonneg st →
      (∀ log ∈ l, nonnegAmounts log) → ScanNonneg (l.foldl (scanLog R N) st) := by
    intro l
    induction l with
    | nil => intro st hst _; exact hst
    | cons log rest ih =>
      intro st hst hl
      rw [List.foldl_cons]
      exact ih _ (scanLog_nonneg R N st log hst (hl log (List.mem_cons_self _ _)))
        (fun l' hl' => hl l' (List.mem_cons_of_mem _ hl'))
  refine key logs initialScanState ?_ h
  refine ⟨le_refl _, le_refl _, le_refl _, le_refl _, le_refl _, ?_, ?_, le_refl _, le_refl _,
    ?_, ?_⟩ <;> exact fun p hp => absurd hp (List.not_mem_nil _)

/-- C13 (as written, refuted).  A successful receipt with non-negative inputs (21000 gas at
1 wei, price `10^18`, no L1 fee, only inflows to the strategy) yields a row whose
`netNativeAfterGasWei`, `keeperCallFeeMinusGasWei`, `netProfitEthWei` and
`netProfitWantWei` are all negative. -/
theorem C13_signed_fields_can_be_negative :
    0 ≤ inflowOnlyReceipt.gasUsed ∧ 0 ≤ inflowOnlyReceipt.effectiveGasPrice ∧
    (∀ log ∈ inflowOnlyReceipt.logs.getD [], nonnegAmounts log) ∧
    (0 : Int) ≤ (scenarioPricing.priceWei).getD 0 ∧
    ∃ row, buildHarvestRowFromReceipt 300 "0xef" inflowOnlyReceipt
        [exampleRewardA, exampleRewardB] exampleNative (some scenarioPricing) none
          = .success row ∧
      row.estimated.netNativeAfterGasWei < 0 ∧ row.estimated.keeperCallFeeMinusGasWei < 0 ∧
      row.estimated.netProfitEthWei < 0 ∧ row.estimated.netProfitWantWei < 0 := by
  refine ⟨by decide, by decide, ?_, by decide, _, rfl, by decide, by decide, by decide,
    by decide⟩
  intro log h
  simp only [inflowOnlyReceipt, Option.getD_some, List.mem_cons, List.mem_singleton,
    List.not_mem_nil, or_false] at h
  rcases h with h | h | h <;> subst h <;> simp [nonnegAmounts]

/-- C13 (amended).  For every successful receipt whose inputs (gas used, effective gas
price, L1 fee, want price, event amounts, transfer values) are non-negative, the gas
figures, the charged fees, `grossNativeOutWei`, the gross profit in want and in native,
the native transfer totals, the reward transfer totals, the harvest event amounts and the
attributed amounts of the row are non-negative. -/
theorem C13_amounts_nonnegative (targetBlock : Int) (txHash : String) (receipt : Receipt)
    (rewardTokenSet : List Address) (nativeTokenLower : Address)
    (wantPricing : Option WantPricing) (l1FeeWei : Option Int)
    (hstatus : parseReceiptStatus receipt.status = "success")
    (hamounts : ∀ log ∈ receipt.logs.getD [], nonnegAmounts log)
    (hgas : 0 ≤ receipt.gasUsed) (hprice : 0 ≤ receipt.effectiveGasPrice)
    (hl1 : 0 ≤ l1FeeWei.getD 0) (hwant : 0 ≤ (wantPricing.bind (·.priceWei)).getD 0) :
    ∃ row, buildHarvestRowFromReceipt targetBlock txHash receipt rewardTokenSet
        nativeTokenLower wantPricing l1FeeWei = .success row ∧
      (0 ≤ row.gasUsed ∧ 0 ≤ row.gasPrice ∧ 0 ≤ row.l2GasCostWei ∧ 0 ≤ row.l1FeeWei ∧
        0 ≤ row.gasCostWei) ∧
      (0 ≤ row.chargedFees.callFees ∧ 0 ≤ row.chargedFees.beefyFees ∧
        0 ≤ row.chargedFees.strategistFees ∧ 0 ≤ row.chargedFees.totalFeePaid) ∧
      (0 ≤ row.estimated.grossNativeOutWei ∧ 0 ≤ row.estimated.wantPricing.priceWei ∧
        0 ≤ row.estimated.grossProfitWantWei ∧ 0 ≤ row.estimated.grossProfitEthWei ∧
        0 ≤ row.estimated.nativeInWei ∧ 0 ≤ row.estimated.nativeOutWei) ∧
      (0 ≤ row.stratHarvest.wantHarvested ∧ 0 ≤ row.stratHarvest.tvl) ∧
      (dictNonneg row.rewardTransfersIn ∧ dictNonneg row.rewardTransfersOut ∧
        dictNonneg row.swapAttribution.nativeInByReward ∧
        dictNonneg row.swapAttribution.rewardSoldByToken) := by
  have hs := scanLogs_nonneg rewardTokenSet nativeTokenLower (receipt.logs.getD []) hamounts
  simp only [buildHarvestRowFromReceipt, hstatus, ne_eq, not_true_eq_false, if_false]
  refine ⟨_, rfl, ⟨hgas, hprice, mul_nonneg hgas hprice, hl1,
      add_nonneg (mul_nonneg hgas hprice) hl1⟩,
    ⟨hs.1, hs.2, hs.3, add_nonneg (add_nonneg hs.1 hs.2) hs.3⟩,
    ⟨hs.8, hwant, hs.4, ?_, hs.9, hs.8⟩, ⟨hs.4, hs.5⟩, ⟨hs.6, hs.7, hs.10, hs.11⟩⟩
  simp only []
  split
  · exact Int.tdiv_nonneg (mul_nonneg hs.4 hwant) (by norm_num)
  · exact le_refl _

/-- Witness for C13 (amended): the receipt of the counterexample. -/
theorem C13_amounts_nonnegative_witness :
    ∃ row, buildHarvestRowFromReceipt 300 "0xef" inflowOnlyReceipt
        [exampleRewardA, exampleRewardB] exampleNative (some scenarioPricing) none
          = .success row ∧
      (0 ≤ row.gasUsed ∧ 0 ≤ row.gasPrice ∧ 0 ≤ row.l2GasCostWei ∧ 0 ≤ row.l1FeeWei ∧
        0 ≤ row.gasCostWei) ∧
      (0 ≤ row.chargedFees.callFees ∧ 0 ≤ row.chargedFees.beefyFees ∧
        0 ≤ row.chargedFees.strategistFees ∧ 0 ≤ row.chargedFees.totalFeePaid) ∧
      (0 ≤ row.estimated.grossNativeOutWei ∧ 0 ≤ row.estimated.wantPricing.priceWei ∧
        0 ≤ row.estimated.grossProfitWantWei ∧ 0 ≤ row.estimated.grossProfitEthWei ∧
        0 ≤ row.estimated.nativeInWei ∧ 0 ≤ row.estimated.nativeOutWei) ∧
      (0 ≤ row.stratHarvest.wantHarvested ∧ 0 ≤ row.stratHarvest.tvl) ∧
      (dictNonneg row.rewardTransfersIn ∧ dictNonneg row.rewardTransfersOut ∧
        dictNonneg row.swapAttribution.nativeInByReward ∧
        dictNonneg row.swapAttribution.rewardSoldByToken) :=
  C13_amounts_nonnegative 300 "0xef" inflowOnlyReceipt [exampleRewardA, exampleRewardB]
    exampleNative (some scenarioPricing) none (by decide)
    (by
      intro log h
      simp only [inflowOnlyReceipt, Option.getD_some, List.mem_cons, List.mem_singleton,
        List.not_mem_nil, or_false] at h
      rcases h with h | h | h <;> subst h <;> simp [nonnegAmounts])
    (by decide) (by decide) (by decide) (by decide)

/-! ## Simulation of the candidates -/

/-- When the fork reset succeeds, `simulateBlock` returns a row for its candidate. -/
theorem simulateBlock_ok (world : Int → CandidateWorld) (b : Int) (ctx : StaticContext)
    (R : List Address) (N : Address) (hreset : (world b).resetError = none) :
    ∃ row, simulateBlock world b ctx R N = .ok row ∧ row.block = b := by
  unfold simulateBlock
  simp only [hreset]
  cases hs : (world b).submit with
  | error message => exact ⟨_, rfl, rfl⟩
  | ok txHash =>
    cases hr : (world b).receipt with
    | error message => exact ⟨_, rfl, rfl⟩
    | ok receipt =>
      by_cases hst : receipt.status = .str "success"
      · simp only [hst, ne_eq, not_true_eq_false, if_false]
        refine ⟨_, rfl, ?_⟩
        simp only [buildHarvestRowFromReceipt, hst, parseReceiptStatus, true_or, if_true,
          ne_eq, not_true_eq_false, if_false]
        rfl
      · simp only [ne_eq, hst, not_false_eq_true, if_true]
        exact ⟨_, rfl, rfl⟩

/-- `simulateBlock` only ever fails with the rejection of the fork reset. -/
theorem simulateBlock_failed (world : Int → CandidateWorld) (b : Int) (ctx : StaticContext)
    (R : List Address) (N : Address) (failure : RunFailure)
    (h : simulateBlock world b ctx R N = .failed failure) :
    ∃ message, (world b).resetError = some message ∧ failure = .rejected message := by
  cases hreset : (world b).resetError with
  | none =>
    obtain ⟨row, hrow, _⟩ := simulateBlock_ok world b ctx R N hreset
    rw [hrow] at h
    exact absurd h (by simp)
  | some message =>
    refine ⟨message, rfl, ?_⟩
    unfold simulateBlock at h
    simp only [hreset] at h
    injection h with h
    exact h.symm

/-- The loop announces a prefix of the candidates and, when it completes, has announced
all of them and pushed one row per candidate, in order. -/
theorem simulateAll_spec (world : Int → CandidateWorld) (ctx : StaticContext)
    (R : List Address) (N : Address) :
    ∀ (blocks announced : List Int) (results : List HarvestRow),
      (∀ rows, (simulateAll world ctx R N blocks announced results).2 = .ok rows →
        (simulateAll world ctx R N blocks announced results).1 = announced ++ blocks ∧
        ∃ more, rows = results ++ more ∧
          List.Forall₂ (fun b row => simulateBlock world b ctx R N = .ok row ∧ row.block = b)
            blocks more) ∧
      (∀ failure, (simulateAll world ctx R N blocks announced results).2 = .failed failure →
        ∃ b ∈ blocks, ∃ message, (world b).resetError = some message ∧
          failure = .rejected message) ∧
      ((∀ b ∈ blocks, (world b).resetError = none) →
        ∃ rows, (simulateAll world ctx R N blocks announced results).2 = .ok rows) ∧
      (∀ b rest, blocks = b :: rest →
        ∃ tail, (simulateAll world ctx R N blocks announced results).1
          = announced ++ b :: tail) := by
  intro blocks
  induction blocks with
  | nil =>
    intro announced results
    refine ⟨?_, ?_, ?_, ?_⟩
    · intro rows h
      simp only [simulateAll, Outcome.ok.injEq] at h
      subst h
      exact ⟨by simp [simulateAll], [], by simp, List.Forall₂.nil⟩
    · intro failure h
      simp [simulateAll] at h
    · intro _
      exact ⟨results, rfl⟩
    · intro b rest h
      exact absurd h (by simp)
  | cons b rest ih =>
    intro announced results
    cases hsim : simulateBlock world b ctx R N with
    | failed failure =>
      have hall : simulateAll world ctx R N (b :: rest) announced results
          = (announced ++ [b], .failed failure) := by
        simp only [simulateAll, hsim]
      rw [hall]
      refine ⟨?_, ?_, ?_, ?_⟩
      · intro rows h
        exact absurd h (by simp)
      · intro f h
        simp only [Outcome.failed.injEq] at h
        subst h
        obtain ⟨message, h1, h2⟩ := simulateBlock_failed world b ctx R N failure hsim
        exact ⟨b, List.mem_cons_self _ _, message, h1, h2⟩
      · intro hreset
        obtain ⟨row, hrow, _⟩ := simulateBlock_ok world b ctx R N
          (hreset b (List.mem_cons_self _ _))
        rw [hrow] at hsim
        exact absurd hsim (by simp)
      · intro b' rest' h
        simp only [List.cons.injEq] at h
        obtain ⟨rfl, _⟩ := h
        exact ⟨[], by simp⟩
    | ok row =>
      have hall : simulateAll world ctx R N (b :: rest) announced results
          = simulateAll world ctx R N rest (announced ++ [b]) (results ++ [row]) := by
        simp only [simulateAll, hsim]
      rw [hall]
      obtain ⟨ih1, ih2, ih3, ih4⟩ := ih (announced ++ [b]) (results ++ [row])
      have hblock : row.block = b := by
        cases hreset : (world b).resetError with
        | none =>
          obtain ⟨row', hrow', hb⟩ := simulateBlock_ok world b ctx R N hreset
          rw [hrow'] at hsim
          injection hsim with hsim
          rw [← hsim]; exact hb
        | some message =>
          unfold simulateBlock at hsim
          simp only [hreset] at hsim
          exact absurd hsim (by simp)
      refine ⟨?_, ?_, ?_, ?_⟩
      · intro rows h
        obtain ⟨h1, more, h2, h3⟩ := ih1 rows h
        refine ⟨by rw [h1]; simp, row :: more, by rw [h2]; simp, ?_⟩
        exact List.Forall₂.cons ⟨hsim, hblock⟩ h3
      · intro f h
        obtain ⟨b', hb', rest'⟩ := ih2 f h
        exact ⟨b', List.mem_cons_of_mem _ hb', rest'⟩
      · intro hreset
        exact ih3 (fun b' hb' => hreset b' (List.mem_cons_of_mem _ hb'))
      · intro b' rest' h
        simp only [List.cons.injEq] at h
        obtain ⟨rfl, _⟩ := h
        cases rest with
        | nil => exact ⟨[], by simp [simulateAll]⟩
        | cons c rest2 =>
          obtain ⟨tail, ht⟩ := ih4 c rest2 rfl
          exact ⟨c :: tail, by rw [ht]; simp⟩

theorem forall₂_map_block (world : Int → CandidateWorld) (ctx : StaticContext)
    (R : List Address) (N : Address) (blocks : List Int) (rows : List HarvestRow)
    (h : List.Forall₂ (fun b row => simulateBlock world b ctx R N = .ok row ∧ row.block = b)
      blocks rows) : rows.map HarvestRow.block = blocks := by
  induction h with
  | nil => rfl
  | cons hab _ ih => simp [hab.2, ih]

/-- C17.  When a candidate's receipt is successful and the L1 data-fee computation fails
at any of its steps (transaction fetch, serialization, oracle read), `simulateBlock` still
yields an `ok = true` row, whose `l1FeeWei` is 0 and whose `gasCostWei` equals
`l2GasCostWei = gasUsed * effectiveGasPrice`. -/
theorem C17_failed_l1_fee_degrades_to_zero (world : Int → CandidateWorld) (targetBlock : Int)
    (staticContext : StaticContext) (rewardTokenSet : List Address)
    (nativeTokenLower : Address) (txHash : String) (receipt : Receipt)
    (hreset : (world targetBlock).resetError = none)
    (hsubmit : (world targetBlock).submit = .ok txHash)
    (hreceipt : (world targetBlock).receipt = .ok receipt)
    (hstatus : receipt.status = .str "success")
    (hl1 : (world targetBlock).l1Fee = .txFetchFailed ∨
      (world targetBlock).l1Fee = .serializeFailed ∨
      (world targetBlock).l1Fee = .oracleFailed) :
    ∃ row, simulateBlock world targetBlock staticContext rewardTokenSet nativeTokenLower
        = .ok (.success row) ∧
      (HarvestRow.success row).ok = true ∧ row.block = targetBlock ∧ row.l1FeeWei = 0 ∧
      row.l2GasCostWei = receipt.gasUsed * receipt.effectiveGasPrice ∧
      row.gasCostWei = row.l2GasCostWei := by
  have hfee : l1FeeOfRead (world targetBlock).l1Fee = none := by
    rcases hl1 with h | h | h <;> rw [h] <;> rfl
  unfold simulateBlock
  simp only [hreset, hsubmit, hreceipt, hstatus, ne_eq, not_true_eq_false, if_false, hfee]
  simp only [buildHarvestRowFromReceipt, hstatus, parseReceiptStatus, true_or, if_true,
    ne_eq, not_true_eq_false, if_false]
  exact ⟨_, rfl, rfl, rfl, rfl, rfl, by simp⟩

/-- Witness for C17: block 100 of the example world, whose oracle read fails. -/
theorem C17_failed_l1_fee_degrades_to_zero_witness :
    ∃ row, simulateBlock exampleWorld 100 exampleStatic (rewardTokensOf exampleStatic)
        (lower exampleStatic.native) = .ok (.success row) ∧
      (HarvestRow.success row).ok = true ∧ row.block = 100 ∧ row.l1FeeWei = 0 ∧
      row.l2GasCostWei = (harvestReceipt 100 5000000).gasUsed
        * (harvestReceipt 100 5000000).effectiveGasPrice ∧
      row.gasCostWei = row.l2GasCostWei :=
  C17_failed_l1_fee_degrades_to_zero exampleWorld 100 exampleStatic
    (rewardTokensOf exampleStatic) (lower exampleStatic.native) "0xa100"
    (harvestReceipt 100 5000000) rfl rfl rfl rfl (Or.inr (Or.inr rfl))

theorem simulateBlock_categories (world : Int → CandidateWorld) (b : Int)
    (ctx : StaticContext) (R : List Address) (N : Address)
    (hreset : (world b).resetError = none) :
    (∀ message, (world b).submit = .error message →
      simulateBlock world b ctx R N
        = .ok (.failure b none none ("submit_failed: " ++ message))) ∧
    (∀ txHash message, (world b).submit = .ok txHash → (world b).receipt = .error message →
      simulateBlock world b ctx R N
        = .ok (.failure b none (some txHash) ("receipt_failed: " ++ message))) ∧
    (∀ txHash receipt, (world b).submit = .ok txHash → (world b).receipt = .ok receipt →
      receipt.status ≠ .str "success" →
      simulateBlock world b ctx R N
        = .ok (.failure b (some receipt.blockNumber) (some txHash)
            ("reverted: status=" ++ statusText receipt.status))) ∧
    (∀ txHash receipt, (world b).submit = .ok txHash → (world b).receipt = .ok receipt →
      receipt.status = .str "success" →
      ∃ row, simulateBlock world b ctx R N = .ok (.success row) ∧ row.block = b) := by
  refine ⟨?_, ?_, ?_, ?_⟩
  · intro message hs
    unfold simulateBlock
    simp only [hreset, hs]
  · intro txHash message hs hr
    unfold simulateBlock
    simp only [hreset, hs, hr]
  · intro txHash receipt hs hr hst
    unfold simulateBlock
    simp only [hreset, hs, hr, ne_eq, hst, not_false_eq_true, if_true]
  · intro txHash receipt hs hr hst
    unfold simulateBlock
    simp only [hreset, hs, hr, hst, ne_eq, not_true_eq_false, if_false]
    simp only [buildHarvestRowFromReceipt, hst, parseReceiptStatus, true_or, if_true,
      ne_eq, not_true_eq_false, if_false]
    exact ⟨_, rfl, rfl⟩

/-- C18.  For every candidate block list (no fork reset being rejected), the loop of
`run` records exactly one row per candidate, in candidate order, with `row.block` equal to
the candidate, whether the submission failed (`submit_failed`), the mining or receipt fetch
failed (`receipt_failed`), the receipt status was not success (`reverted`) or the harvest
succeeded; these are the rows of the summary; and for a strictly increasing candidate list
the rows have pairwise distinct block numbers. -/
theorem C18_one_row_per_candidate (world : Int → CandidateWorld) (ctx : StaticContext)
    (blocks : List Int) (hreset : ∀ b ∈ blocks, (world b).resetError = none) :
    ∃ results,
      simulateAll world ctx (rewardTokensOf ctx) (lower ctx.native) blocks [] []
        = (blocks, .ok results) ∧
      results.length = blocks.length ∧ results.map HarvestRow.block = blocks ∧
      List.Forall₂ (fun b row =>
          simulateBlock world b ctx (rewardTokensOf ctx) (lower ctx.native) = .ok row ∧
          row.block = b) blocks results ∧
      (∀ b ∈ blocks,
        (∀ message, (world b).submit = .error message →
          simulateBlock world b ctx (rewardTokensOf ctx) (lower ctx.native)
            = .ok (.failure b none none ("submit_failed: " ++ message))) ∧
        (∀ txHash message, (world b).submit = .ok txHash →
          (world b).receipt = .error message →
          simulateBlock world b ctx (rewardTokensOf ctx) (lower ctx.native)
            = .ok (.failure b none (some txHash) ("receipt_failed: " ++ message))) ∧
        (∀ txHash receipt, (world b).submit = .ok txHash → (world b).receipt = .ok receipt →
          receipt.status ≠ .str "success" →
          simulateBlock world b ctx (rewardTokensOf ctx) (lower ctx.native)
            = .ok (.failure b (some receipt.blockNumber) (some txHash)
                ("reverted: status=" ++ statusText receipt.status))) ∧
        (∀ txHash receipt, (world b).submit = .ok txHash → (world b).receipt = .ok receipt →
          receipt.status = .str "success" →
          ∃ row, simulateBlock world b ctx (rewardTokensOf ctx) (lower ctx.native)
            = .ok (.success row) ∧ row.block = b)) ∧
      (blocks.Pairwise (· < ·) → (results.map HarvestRow.block).Nodup) ∧
      (∀ (config : GhostConfig) (chain : RealizedWorld) (fuel : Nat),
        buildBlockList config.windowStart config.windowEnd config.step fuel = some blocks →
        ghostRun config ctx world chain fuel
          = some { announced := blocks
                   result := summarize config ctx chain blocks results }) ∧
      (∀ (config : GhostConfig) (chain : RealizedWorld) (s : Summary),
        summarize config ctx chain blocks results = .ok s → s.rows = results) := by
  obtain ⟨h1, _, h3, _⟩ := simulateAll_spec world ctx (rewardTokensOf ctx) (lower ctx.native)
    blocks [] []
  obtain ⟨rows, hrows⟩ := h3 hreset
  obtain ⟨hann, more, hmore, hfor⟩ := h1 rows hrows
  simp only [List.nil_append] at hann hmore
  subst hmore
  have hpair : simulateAll world ctx (rewardTokensOf ctx) (lower ctx.native) blocks [] []
      = (blocks, .ok rows) := Prod.ext hann hrows
  have hmap := forall₂_map_block world ctx _ _ blocks rows hfor
  refine ⟨rows, hpair, hfor.length_eq.symm, hmap, hfor, ?_, ?_, ?_, ?_⟩
  · intro b hb
    exact simulateBlock_categories world b ctx _ _ (hreset b hb)
  · intro hsorted
    rw [hmap]
    exact hsorted.imp (fun h => ne_of_lt h)
  · intro config chain fuel hblocks
    unfold ghostRun
    simp only [hblocks, hpair]
  · intro config chain s hs
    unfold summarize at hs
    split at hs
    · exact absurd hs (by simp)
    · split at hs
      · exact absurd hs (by simp)
      · split at hs
        · exact absurd hs (by simp)
        · split at hs
          · exact absurd hs (by simp)
          · simp only [Outcome.ok.injEq] at hs
            rw [← hs]

/-- Witness for C18: the five candidates of the example world, one of each kind. -/
theorem C18_one_row_per_candidate_witness :
    ∃ results,
      simulateAll exampleWorld exampleStatic (rewardTokensOf exampleStatic)
          (lower exampleStatic.native) [100, 120, 140, 160, 180] [] []
        = ([100, 120, 140, 160, 180], .ok results) ∧
      results.length = [100, 120, 140, 160, (180 : Int)].length ∧
      results.map HarvestRow.block = [100, 120, 140, 160, 180] ∧
      List.Forall₂ (fun b row =>
          simulateBlock exampleWorld b exampleStatic (rewardTokensOf exampleStatic)
            (lower exampleStatic.native) = .ok row ∧
          row.block = b) [100, 120, 140, 160, 180] results ∧
      (∀ b ∈ [100, 120, 140, 160, (180 : Int)],
        (∀ message, (exampleWorld b).submit = .error message →
          simulateBlock exampleWorld b exampleStatic (rewardTokensOf exampleStatic)
              (lower exampleStatic.native)
            = .ok (.failure b none none ("submit_failed: " ++ message))) ∧
        (∀ txHash message, (exampleWorld b).submit = .ok txHash →
          (exampleWorld b).receipt = .error message →
          simulateBlock exampleWorld b exampleStatic (rewardTokensOf exampleStatic)
              (lower exampleStatic.native)
            = .ok (.failure b none (some txHash) ("receipt_failed: " ++ message))) ∧
        (∀ txHash receipt, (exampleWorld b).submit = .ok txHash →
          (exampleWorld b).receipt = .ok receipt →
          receipt.status ≠ .str "success" →
          simulateBlock exampleWorld b exampleStatic (rewardTokensOf exampleStatic)
              (lower exampleStatic.native)
            = .ok (.failure b (some receipt.blockNumber) (some txHash)
                ("reverted: status=" ++ statusText receipt.status))) ∧
        (∀ txHash receipt, (exampleWorld b).submit = .ok txHash →
          (exampleWorld b).receipt = .ok receipt →
          receipt.status = .str "success" →
          ∃ row, simulateBlock exampleWorld b exampleStatic (rewardTokensOf exampleStatic)
              (lower exampleStatic.native)
            = .ok (.success row) ∧ row.block = b)) ∧
      (([100, 120, 140, 160, 180] : List Int).Pairwise (· < ·) →
        (results.map HarvestRow.block).Nodup) ∧
      (∀ (config : GhostConfig) (chain : RealizedWorld) (fuel : Nat),
        buildBlockList config.windowStart config.windowEnd config.step fuel
          = some [100, 120, 140, 160, 180] →
        ghostRun config exampleStatic exampleWorld chain fuel
          = some { announced := [100, 120, 140, 160, 180]
                   result := summarize config exampleStatic chain [100, 120, 140, 160, 180]
                     results }) ∧
      (∀ (config : GhostConfig) (chain : RealizedWorld) (s : Summary),
        summarize config exampleStatic chain [100, 120, 140, 160, 180] results = .ok s →
        s.rows = results) :=
  C18_one_row_per_candidate exampleWorld exampleStatic [100, 120, 140, 160, 180]
    (by
      intro b _
      unfold exampleWorld
      split_ifs <;> rfl)

/-! ## The merged row set -/

theorem values_map_block (m : RowMap) (h : RowMapWF m) :
    (m.map Prod.snd).map (fun r => r.block) = m.map Prod.fst := by
  rw [List.map_map]
  apply List.map_congr_left
  intro p hp
  exact h.2 p hp

theorem mergedRows_perm_values (loaded : List Report) :
    (mergedRows loaded).Perm ((collectRowsByBlock loaded).map Prod.snd) :=
  List.perm_insertionSort _ _

/-- The merged rows are in strictly ascending block order. -/
theorem mergedRows_strictly_ascending (loaded : List Report) :
    (mergedRows loaded).Pairwise (fun x y => x.block < y.block) := by
  have hwf := RowMapWF_collectRowsByBlock loaded
  have hne : ((collectRowsByBlock loaded).map Prod.snd).Pairwise
      (fun x y => x.block ≠ y.block) := by
    have hnd : (((collectRowsByBlock loaded).map Prod.snd).map (fun r => r.block)).Nodup := by
      rw [values_map_block _ hwf]
      exact hwf.1
    exact List.pairwise_map.mp hnd
  have hneM : (mergedRows loaded).Pairwise (fun x y => x.block ≠ y.block) :=
    (mergedRows_perm_values loaded).symm.pairwise hne (fun h => h.symm)
  have hle : (mergedRows loaded).Pairwise (fun x y : SuccessRow => x.block - y.block ≤ 0) := by
    have htotal : IsTotal SuccessRow (fun x y => x.block - y.block ≤ 0) :=
      ⟨fun a b => by omega⟩
    have htrans : IsTrans SuccessRow (fun x y => x.block - y.block ≤ 0) :=
      ⟨fun a b c h1 h2 => by omega⟩
    exact List.sorted_insertionSort (fun x y : SuccessRow => x.block - y.block ≤ 0) _
  exact List.Pairwise.imp₂ (fun a b h1 h2 => by omega) hle hneM

/-- A block has a merged row exactly when some input has a successful row for it. -/
theorem mergedRows_block_iff (loaded : List Report) (b : Int) :
    (∃ r ∈ mergedRows loaded, r.block = b) ↔
      ∃ r ∈ allRows loaded, r.ok = true ∧ r.block = b := by
  have hfilter := mergedRows_filter_block loaded b
  constructor
  · rintro ⟨r, hr, hb⟩
    have hmem : r ∈ (mergedRows loaded).filter (fun r => decide (r.block = b)) :=
      List.mem_filter.mpr ⟨hr, by simp [hb]⟩
    rw [hfilter] at hmem
    unfold lastSuccessfulRowFor at hmem
    cases hl : ((successfulRows (allRows loaded)).filter
        (fun r => decide (r.block = b))).getLast? with
    | none => rw [hl] at hmem; simp [Option.toList] at hmem
    | some x =>
      rw [hl] at hmem
      simp only [Option.toList, List.mem_singleton] at hmem
      subst hmem
      obtain ⟨ys, hys⟩ := List.getLast?_eq_some_iff.mp hl
      have hx : r ∈ (successfulRows (allRows loaded)).filter
          (fun r => decide (r.block = b)) := by rw [hys]; simp
      obtain ⟨a, ha, hsome⟩ := List.mem_filterMap.mp (List.mem_filter.mp hx).1
      cases a with
      | failure _ _ _ _ => simp [HarvestRow.success?] at hsome
      | success row =>
        simp only [HarvestRow.success?, Option.some.injEq] at hsome
        subst hsome
        exact ⟨_, ha, rfl, hb⟩
  · rintro ⟨r, hr, hok, hb⟩
    cases r with
    | failure _ _ _ _ => simp [HarvestRow.ok] at hok
    | success row =>
      have hmem : row ∈ (successfulRows (allRows loaded)).filter
          (fun r => decide (r.block = b)) :=
        List.mem_filter.mpr ⟨List.mem_filterMap.mpr ⟨_, hr, rfl⟩, by simpa using hb⟩
      unfold lastSuccessfulRowFor at hfilter
      cases hl : ((successfulRows (allRows loaded)).filter
          (fun r => decide (r.block = b))).getLast? with
      | none =>
        rw [List.getLast?_eq_none_iff.mp hl] at hmem
        exact absurd hmem (List.not_mem_nil _)
      | some x =>
        rw [hl] at hfilter
        have hx : x ∈ (mergedRows loaded).filter (fun r => decide (r.block = b)) := by
          rw [hfilter]; simp [Option.toList]
        obtain ⟨h1, h2⟩ := List.mem_filter.mp hx
        exact ⟨x, h1, by simpa using h2⟩

/-- C19.  For every list of input reports, the merger's row list has pairwise distinct
block numbers and is in ascending block order (it is strictly ascending), and it contains
a row for exactly those block numbers that have a successful row in some input. -/
theorem C19_merged_rows_keyed_by_block (loaded : List Report) :
    (mergedRows loaded).Pairwise (fun x y => x.block < y.block) ∧
    ((mergedRows loaded).map (fun r => r.block)).Nodup ∧
    (mergedRows loaded).Pairwise (fun x y => x.block ≤ y.block) ∧
    ∀ b : Int, (∃ r ∈ mergedRows loaded, r.block = b) ↔
      ∃ r ∈ allRows loaded, r.ok = true ∧ r.block = b := by
  have h := mergedRows_strictly_ascending loaded
  refine ⟨h, ?_, h.imp (fun hlt => le_of_lt hlt), mergedRows_block_iff loaded⟩
  exact List.pairwise_map.mpr (h.imp (fun hlt => ne_of_lt hlt))

/-! ## Aggregate failure -/

theorem successfulRows_eq_nil_iff (results : List HarvestRow) :
    successfulRows results = [] ↔ ∀ r ∈ results, r.ok = false := by
  constructor
  · intro h r hr
    cases hok : r.ok with
    | false => rfl
    | true => exact absurd h (successfulRows_ne_nil results ⟨r, hr, hok⟩)
  · intro h
    induction results with
    | nil => rfl
    | cons r rest ih =>
      have hr := h r (List.mem_cons_self _ _)
      cases r with
      | success row => simp [HarvestRow.ok] at hr
      | failure _ _ _ _ =>
        simp only [successfulRows, List.filterMap_cons, HarvestRow.success?]
        exact ih (fun r' hr' => h r' (List.mem_cons_of_mem _ hr'))

theorem receiptNotFound_ne (t msg : String) (h : msg.data.head? = some 'N') :
    "Receipt not found for tx " ++ t ≠ msg := by
  intro heq
  have h2 := congrArg String.data heq
  rw [String.data_append] at h2
  have h3 := congrArg List.head? h2
  rw [h] at h3
  simp at h3

theorem missingRealized_ne (n : Int) (msg : String) (h : msg.data.head? = some 'N') :
    "Missing realized metrics for block " ++ toString n ++ "." ≠ msg := by
  intro heq
  have h2 := congrArg String.data heq
  rw [String.data_append, String.data_append] at h2
  have h3 := congrArg List.head? h2
  rw [h] at h3
  simp at h3

theorem buildRealizedRowFromForkTx_failed (txHash : String) (chain : RealizedWorld)
    (ctx : StaticContext) (R : List Address) (N : Address) (failure : RunFailure)
    (h : buildRealizedRowFromForkTx txHash chain ctx R N = .failed failure) :
    failure = .thrown "Missing REALIZED_TX_HASH / txHash." ∨
      failure = .thrown ("Receipt not found for tx " ++ txHash) := by
  unfold buildRealizedRowFromForkTx at h
  split at h
  · left
    injection h with h
    exact h.symm
  · split at h
    · right
      injection h with h
      exact h.symm
    · exact absurd h (by simp)

/-- After a completed loop, `run` fails with the aggregate error exactly when no row is
successful. -/
theorem summarize_aggregate_iff (config : GhostConfig) (ctx : StaticContext)
    (chain : RealizedWorld) (blocks : List Int) (results : List HarvestRow) :
    summarize config ctx chain blocks results
        = .failed (.thrown "No successful harvest simulations in window.") ↔
      ∀ r ∈ results, r.ok = false := by
  rw [← successfulRows_eq_nil_iff]
  by_cases hnil : successfulRows results = []
  · have hrank : rankResults results
        = .error "No successful harvest simulations in window." := by
      unfold rankResults
      simp [hnil]
    unfold summarize
    rw [hrank]
    simp [hnil]
  · have hrank := rankResults_eq results hnil
    simp only [hnil, iff_false]
    unfold summarize
    rw [hrank]
    intro h
    simp only [] at h
    split at h
    · exact absurd h (by simp)
    · split at h
      · rename_i failure hfail
        rcases buildRealizedRowFromForkTx_failed _ _ _ _ _ _ hfail with hf | hf
        · rw [hf] at h
          exact absurd h (by decide)
        · rw [hf] at h
          injection h with h
          injection h with h
          exact receiptNotFound_ne _ _ (by decide) h
      · split at h
        · exact absurd h (by simp)
        · exact absurd h (by simp)

theorem mergedRows_eq_nil_iff (loaded : List Report) :
    mergedRows loaded = [] ↔ ∀ r ∈ allRows loaded, r.ok = false := by
  constructor
  · intro h r hr
    cases hok : r.ok with
    | false => rfl
    | true => exact absurd h (mergedRows_ne_nil loaded ⟨r, hr, hok⟩)
  · intro h
    cases hm : mergedRows loaded with
    | nil => rfl
    | cons x xs =>
      have hx : ∃ r ∈ mergedRows loaded, r.block = x.block :=
        ⟨x, by rw [hm]; exact List.mem_cons_self _ _, rfl⟩
      obtain ⟨r, hr, hok, _⟩ := (mergedRows_block_iff loaded x.block).mp hx
      rw [h r hr] at hok
      exact absurd hok (by simp)

/-- C14.  The run of `ghost-audit` fails with "No successful harvest simulations in
window." if and only if the loop over the candidates completed and no simulated row has
`ok = true`, and it then has announced every candidate block; likewise the merger fails
with "No successful rows found while merging reports." if and only if (given at least one
loaded report) no input report contains a row with `ok = true`, and without such a row it
fails in any case. -/
theorem C14_aggregate_failure_iff_no_successful_row :
    (∀ (config : GhostConfig) (ctx : StaticContext) (world : Int → CandidateWorld)
        (chain : RealizedWorld) (fuel : Nat) (blocks : List Int),
      buildBlockList config.windowStart config.windowEnd config.step fuel = some blocks →
      ∃ run, ghostRun config ctx world chain fuel = some run ∧
        (run.result = .failed (.thrown "No successful harvest simulations in window.") ↔
          ∃ results,
            simulateAll world ctx (rewardTokensOf ctx) (lower ctx.native) blocks [] []
              = (blocks, .ok results) ∧
            ∀ r ∈ results, r.ok = false) ∧
        (run.result = .failed (.thrown "No successful harvest simulations in window.") →
          run.announced = blocks)) ∧
    (∀ (REALIZED_BLOCK : Int) (loaded : List Report),
      (mergeRun REALIZED_BLOCK loaded
          = .failed (.thrown "No successful rows found while merging reports.") ↔
        loaded ≠ [] ∧ ∀ r ∈ allRows loaded, r.ok = false) ∧
      ((∀ r ∈ allRows loaded, r.ok = false) →
        ∃ failure, mergeRun REALIZED_BLOCK loaded = .failed failure)) := by
  constructor
  · intro config ctx world chain fuel blocks hblocks
    obtain ⟨h1, h2, _, _⟩ := simulateAll_spec world ctx (rewardTokensOf ctx)
      (lower ctx.native) blocks [] []
    cases hsim : simulateAll world ctx (rewardTokensOf ctx) (lower ctx.native) blocks [] []
      with
    | mk announced out =>
      rw [hsim] at h1 h2
      cases out with
      | failed failure =>
        refine ⟨{ announced := announced, result := .failed failure }, ?_, ?_, ?_⟩
        · unfold ghostRun
          simp only [hblocks, hsim]
        · obtain ⟨b, _, message, _, hf⟩ := h2 failure rfl
          constructor
          · intro h
            simp only [Outcome.failed.injEq] at h
            rw [hf] at h
            exact absurd h (by simp)
          · rintro ⟨results, hres, _⟩
            exact absurd (Prod.ext_iff.mp hres).2 (by simp)
        · obtain ⟨b, _, message, _, hf⟩ := h2 failure rfl
          intro h
          simp only [Outcome.failed.injEq] at h
          rw [hf] at h
          exact absurd h (by simp)
      | ok results =>
        obtain ⟨hann, _⟩ := h1 results rfl
        simp only [List.nil_append] at hann
        refine ⟨{ announced := announced
                  result := summarize config ctx chain blocks results }, ?_, ?_, ?_⟩
        · unfold ghostRun
          simp only [hblocks, hsim]
        · simp only []
          rw [summarize_aggregate_iff]
          constructor
          · intro h
            exact ⟨results, by rw [← hann], h⟩
          · rintro ⟨results', hres, hok⟩
            have := (Prod.ext_iff.mp hres).2
            simp only [Outcome.ok.injEq] at this
            rw [this]
            exact hok
        · intro _
          exact hann
  · intro REALIZED_BLOCK loaded
    cases loaded with
    | nil =>
      refine ⟨?_, fun _ => ⟨_, rfl⟩⟩
      simp [mergeRun]
    | cons base rest =>
      by_cases hnil : mergedRows (base :: rest) = []
      · have hrank : mergeRank (base :: rest)
            = .error "No successful rows found while merging reports." := by
          unfold mergeRank
          simp [hnil]
        have hrun : mergeRun REALIZED_BLOCK (base :: rest)
            = .failed (.thrown "No successful rows found while merging reports.") := by
          unfold mergeRun
          simp only [hrank]
        have hno := (mergedRows_eq_nil_iff (base :: rest)).mp hnil
        exact ⟨⟨fun _ => ⟨by simp, hno⟩, fun _ => hrun⟩, fun _ => ⟨_, hrun⟩⟩
      · have hrank := mergeRank_eq (base :: rest) hnil
        have hsome : ¬ ∀ r ∈ allRows (base :: rest), r.ok = false :=
          fun h => hnil ((mergedRows_eq_nil_iff (base :: rest)).mpr h)
        refine ⟨⟨?_, fun h => absurd h.2 hsome⟩, fun h => absurd h hsome⟩
        intro h
        exfalso
        unfold mergeRun at h
        simp only [hrank] at h
        split at h
        · exact absurd h (by simp)
        · split at h
          · injection h with h
            injection h with h
            exact missingRealized_ne _ _ (by decide) h
          · exact absurd h (by simp)
          · exact absurd h (by simp)

/-! ## Deltas -/

theorem rankResults_scored (results : List HarvestRow) (scored : List Scored)
    (h : rankResults results = .ok scored) :
    ∀ s ∈ scored, s.netProfitEthWei = s.row.estimated.netProfitEthWei := by
  unfold rankResults at h
  simp only [] at h
  split at h
  · exact absurd h (by simp)
  · simp only [Except.ok.injEq] at h
    intro s hs
    rw [← h] at hs
    unfold arraySort at hs
    rw [List.mem_insertionSort] at hs
    obtain ⟨r, _, hr⟩ := List.mem_map.mp hs
    rw [← hr]
    rfl

theorem mergeRank_scored (loaded : List Report) (scored : List MergedScored)
    (h : mergeRank loaded = .ok scored) :
    ∀ s ∈ scored, s.netProfitEthWei = s.row.estimated.netProfitEthWei := by
  unfold mergeRank at h
  simp only [] at h
  split at h
  · exact absurd h (by simp)
  · simp only [Except.ok.injEq] at h
    intro s hs
    rw [← h] at hs
    unfold arraySort at hs
    rw [List.mem_insertionSort] at hs
    obtain ⟨r, _, hr⟩ := List.mem_map.mp hs
    rw [← hr]
    rfl

theorem summarize_delta (config : GhostConfig) (ctx : StaticContext) (chain : RealizedWorld)
    (blocks : List Int) (results : List HarvestRow) (s : Summary)
    (h : summarize config ctx chain blocks results = .ok s) :
    ∃ realized, s.realized = .success realized ∧
      s.delta.netProfitEthWei
        = s.optimal.estimated.netProfitEthWei - realized.estimated.netProfitEthWei ∧
      s.delta.grossProfitEthWei
        = s.optimal.estimated.grossProfitEthWei - realized.estimated.grossProfitEthWei ∧
      s.delta.gasCostWei = s.optimal.gasCostWei - realized.gasCostWei := by
  unfold summarize at h
  split at h
  · exact absurd h (by simp)
  · rename_i scored hrank
    split at h
    · exact absurd h (by simp)
    · rename_i optimal hopt
      have hmem : optimal ∈ scored := List.getElem?_mem hopt
      have hnet := rankResults_scored results scored hrank optimal hmem
      split at h
      · exact absurd h (by simp)
      · split at h
        · exact absurd h (by simp)
        · rename_i realizedRow _
          simp only [Outcome.ok.injEq] at h
          subst h
          exact ⟨realizedRow, rfl, by simp only [hnet], rfl, rfl⟩

theorem ghostRun_summary (config : GhostConfig) (ctx : StaticContext)
    (world : Int → CandidateWorld) (chain : RealizedWorld) (fuel : Nat) (run : GhostRun)
    (s : Summary) (h1 : ghostRun config ctx world chain fuel = some run)
    (h2 : run.result = .ok s) :
    ∃ blocks results, summarize config ctx chain blocks results = .ok s := by
  unfold ghostRun at h1
  cases hb : buildBlockList config.windowStart config.windowEnd config.step fuel with
  | none =>
    simp only [hb] at h1
    exact absurd h1 (by simp)
  | some blocks =>
    cases hsim : simulateAll world ctx (rewardTokensOf ctx) (lower ctx.native) blocks [] []
      with
    | mk announced out =>
      cases out with
      | failed failure =>
        simp only [hb, hsim, Option.some.injEq] at h1
        subst h1
        exact absurd h2 (by simp)
      | ok results =>
        simp only [hb, hsim, Option.some.injEq] at h1
        subst h1
        exact ⟨blocks, results, h2⟩

theorem mergeRun_delta (REALIZED_BLOCK : Int) (loaded : List Report) (s : MergedSummary)
    (h : mergeRun REALIZED_BLOCK loaded = .ok s) :
    ∃ realized, s.realized = .success realized ∧
      s.delta.netProfitEthWei
        = s.optimal.estimated.netProfitEthWei - realized.estimated.netProfitEthWei ∧
      s.delta.grossProfitEthWei
        = s.optimal.estimated.grossProfitEthWei - realized.estimated.grossProfitEthWei ∧
      s.delta.gasCostWei = s.optimal.gasCostWei - realized.gasCostWei := by
  cases loaded with
  | nil => simp [mergeRun] at h
  | cons base rest =>
    cases hrank : mergeRank (base :: rest) with
    | error message =>
      simp only [mergeRun, hrank] at h
      exact absurd h (by simp)
    | ok scored =>
      cases hopt : scored[0]? with
      | none =>
        simp only [mergeRun, hrank, hopt] at h
        exact absurd h (by simp)
      | some optimal =>
        have hmem : optimal ∈ scored := List.getElem?_mem hopt
        have hnet := mergeRank_scored _ scored hrank optimal hmem
        have key : ∀ realizedRow : Option HarvestRow,
            (match realizedRow with
              | none =>
                Outcome.failed (RunFailure.thrown ("Missing realized metrics for block " ++
                  toString REALIZED_BLOCK ++ "."))
              | some (HarvestRow.failure _ _ _ _) =>
                Outcome.failed (RunFailure.typeError "realizedRow.estimated is undefined")
              | some (HarvestRow.success realized) =>
                Outcome.ok
                  { blocksSimulated := (mergedRows (base :: rest)).length
                    realized := HarvestRow.success realized
                    optimal := optimal.row
                    delta :=
                      { netProfitEthWei :=
                          optimal.netProfitEthWei - realized.estimated.netProfitEthWei
                        grossProfitEthWei :=
                          optimal.row.estimated.grossProfitEthWei
                            - realized.estimated.grossProfitEthWei
                        gasCostWei := optimal.row.gasCostWei - realized.gasCostWei }
                    top5ByNetProfitEth := scored.take 5
                    rows := mergedRows (base :: rest) }) = Outcome.ok s →
            ∃ realized, s.realized = .success realized ∧
              s.delta.netProfitEthWei
                = s.optimal.estimated.netProfitEthWei - realized.estimated.netProfitEthWei ∧
              s.delta.grossProfitEthWei
                = s.optimal.estimated.grossProfitEthWei
                  - realized.estimated.grossProfitEthWei ∧
              s.delta.gasCostWei = s.optimal.gasCostWei - realized.gasCostWei := by
          intro realizedRow hrow
          cases realizedRow with
          | none => exact absurd hrow (by simp)
          | some row =>
            cases row with
            | failure _ _ _ _ => exact absurd hrow (by simp)
            | success realized =>
              simp only [Outcome.ok.injEq] at hrow
              subst hrow
              exact ⟨realized, rfl, by simp only [hnet], rfl, rfl⟩
        simp only [mergeRun, hrank, hopt] at h
        exact key _ h

/-- C15.  Whenever `ghost-audit` writes a summary, and whenever the merger writes a merged
report, the realized row is a successful row and the integer deltas are exactly optimal
minus realized, as signed integers: for the net profit, the gross profit and the gas
cost. -/
theorem C15_deltas_are_optimal_minus_realized (config : GhostConfig) (ctx : StaticContext)
    (world : Int → CandidateWorld) (chain : RealizedWorld) (fuel : Nat) (run : GhostRun)
    (s : Summary) (REALIZED_BLOCK : Int) (loaded : List Report) (merged : MergedSummary)
    (hrun : ghostRun config ctx world chain fuel = some run) (hsummary : run.result = .ok s)
    (hmerged : mergeRun REALIZED_BLOCK loaded = .ok merged) :
    (∃ realized, s.realized = .success realized ∧
      s.delta.netProfitEthWei
        = s.optimal.estimated.netProfitEthWei - realized.estimated.netProfitEthWei ∧
      s.delta.grossProfitEthWei
        = s.optimal.estimated.grossProfitEthWei - realized.estimated.grossProfitEthWei ∧
      s.delta.gasCostWei = s.optimal.gasCostWei - realized.gasCostWei) ∧
    (∃ realized, merged.realized = .success realized ∧
      merged.delta.netProfitEthWei
        = merged.optimal.estimated.netProfitEthWei - realized.estimated.netProfitEthWei ∧
      merged.delta.grossProfitEthWei
        = merged.optimal.estimated.grossProfitEthWei - realized.estimated.grossProfitEthWei ∧
      merged.delta.gasCostWei = merged.optimal.gasCostWei - realized.gasCostWei) := by
  obtain ⟨blocks, results, hs⟩ := ghostRun_summary config ctx world chain fuel run s hrun
    hsummary
  exact ⟨summarize_delta config ctx chain blocks results s hs,
    mergeRun_delta REALIZED_BLOCK loaded merged hmerged⟩

/-- Witness for C15: the run over the example world (optimal block 140 against the
realized block 150: deltas 1899500, 2000000 and 100500) and the merge of two shards
(optimal block 120 against the realized block 100: net delta 2). -/
theorem C15_deltas_are_optimal_minus_realized_witness :
    ∃ run s merged,
      ghostRun exampleConfig exampleStatic exampleWorld exampleChain 10 = some run ∧
      run.result = .ok s ∧ mergeRun 100 [shardEven, shardOdd] = .ok merged ∧
      s.delta = { netProfitEthWei := 1899500, grossProfitEthWei := 2000000,
                  gasCostWei := 100500 } ∧
      merged.delta.netProfitEthWei = 2 ∧
      ((∃ realized, s.realized = .success realized ∧
        s.delta.netProfitEthWei
          = s.optimal.estimated.netProfitEthWei - realized.estimated.netProfitEthWei ∧
        s.delta.grossProfitEthWei
          = s.optimal.estimated.grossProfitEthWei - realized.estimated.grossProfitEthWei ∧
        s.delta.gasCostWei = s.optimal.gasCostWei - realized.gasCostWei) ∧
      (∃ realized, merged.realized = .success realized ∧
        merged.delta.netProfitEthWei
          = merged.optimal.estimated.netProfitEthWei - realized.estimated.netProfitEthWei ∧
        merged.delta.grossProfitEthWei
          = merged.optimal.estimated.grossProfitEthWei
            - realized.estimated.grossProfitEthWei ∧
        merged.delta.gasCostWei = merged.optimal.gasCostWei - realized.gasCostWei)) := by
  refine ⟨_, _, _, rfl, rfl, rfl, by decide, by decide, ?_⟩
  exact C15_deltas_are_optimal_minus_realized exampleConfig exampleStatic exampleWorld
    exampleChain 10 _ _ 100 [shardEven, shardOdd] _ rfl rfl rfl

/-! ## Window settings -/

/-- With a step that is zero or negative and a start not above the end, the loop of
`buildBlockList` never ends. -/
theorem buildBlockListLoop_diverges (stop step : Int) (hstep : step ≤ 0) :
    ∀ (fuel : Nat) (b : Int) (blocks : List Int), b ≤ stop →
      buildBlockListLoop stop step fuel b blocks = none := by
  intro fuel
  induction fuel with
  | zero =>
    intro b blocks hb
    simp [buildBlockListLoop, hb]
  | succ n ih =>
    intro b blocks hb
    rw [buildBlockListLoop, if_pos hb]
    exact ih _ _ (by omega)

theorem buildBlockList_of_start_gt (start stop step : Int) (h : stop < start) (fuel : Nat) :
    buildBlockList start stop step fuel = some [stop] := by
  have hb : ¬ start ≤ stop := by omega
  have hloop : buildBlockListLoop stop step fuel start [] = some [] := by
    cases fuel with
    | zero => simp [buildBlockListLoop, hb]
    | succ n => simp [buildBlockListLoop, hb]
  unfold buildBlockList
  rw [hloop]
  simp

theorem buildBlockList_head (start stop step : Int) (hse : start ≤ stop) (hstep : 1 ≤ step)
    (fuel : Nat) (hfuel : (stop - start).toNat + 1 ≤ fuel) :
    ∃ rest, buildBlockList start stop step fuel = some (start :: rest) := by
  obtain ⟨more, h1, _, _, h4⟩ := buildBlockListLoop_spec stop step hstep
    ((stop - start).toNat + 1) start [] (by push_cast; omega)
  simp only [List.nil_append] at h1
  have hhead := h4 hse
  cases more with
  | nil => simp at hhead
  | cons x t =>
    simp only [List.head?_cons, Option.some.injEq] at hhead
    subst hhead
    have hloop := buildBlockListLoop_mono stop step _ fuel hfuel x [] _ h1
    unfold buildBlockList
    rw [hloop]
    simp only []
    split
    · exact ⟨t ++ [stop], by simp⟩
    · exact ⟨t, rfl⟩

theorem ghostRun_announces_first (config : GhostConfig) (ctx : StaticContext)
    (world : Int → CandidateWorld) (chain : RealizedWorld) (fuel : Nat) (b : Int)
    (rest : List Int)
    (hblocks : buildBlockList config.windowStart config.windowEnd config.step fuel
      = some (b :: rest)) :
    ∃ run tail, ghostRun config ctx world chain fuel = some run ∧
      run.announced = b :: tail := by
  obtain ⟨_, _, _, h4⟩ := simulateAll_spec world ctx (rewardTokensOf ctx) (lower ctx.native)
    (b :: rest) [] []
  obtain ⟨tail, htail⟩ := h4 b rest rfl
  simp only [List.nil_append] at htail
  cases hsim : simulateAll world ctx (rewardTokensOf ctx) (lower ctx.native) (b :: rest) [] []
    with
  | mk announced out =>
    rw [hsim] at htail
    simp only at htail
    cases out with
    | failed failure =>
      exact ⟨{ announced := announced, result := .failed failure }, tail,
        by unfold ghostRun; simp only [hblocks, hsim], htail⟩
    | ok results =>
      exact ⟨{ announced := announced
               result := summarize config ctx chain (b :: rest) results }, tail,
        by unfold ghostRun; simp only [hblocks, hsim], htail⟩

theorem simulateAll_singleton (world : Int → CandidateWorld) (ctx : StaticContext)
    (R : List Address) (N : Address) (b : Int) :
    (simulateAll world ctx R N [b] [] []).1 = [b] := by
  cases hsim : simulateBlock world b ctx R N with
  | failed failure => simp [simulateAll, hsim]
  | ok row => simp [simulateAll, hsim]

/-- C20 (as written, refuted).  No window setting is rejected.  With the window start
(200) greater than the end (100) the run goes on to simulate block 100.  With no setting
at all the defaults are taken and the run starts simulating at block 41493000.  With a
step of zero the candidate list is never completed, so nothing is ever rejected. -/
theorem C20_window_settings_not_rejected :
    (ghostRun (CONFIG reversedWindowEnv) exampleStatic exampleWorld exampleChain 0).map
      (fun r => r.announced) = some [100] ∧
    (CONFIG emptyEnv).windowStart = 41493000 ∧ (CONFIG emptyEnv).windowEnd = 41493767 ∧
    (CONFIG emptyEnv).step = 20 ∧
    (ghostRun (CONFIG emptyEnv) exampleStatic exampleWorld exampleChain 50).map
      (fun r => r.announced.head?) = some (some 41493000) ∧
    (∀ fuel, ghostRun (CONFIG zeroStepEnv) exampleStatic exampleWorld exampleChain fuel
      = none) := by
  refine ⟨by decide, by decide, by decide, by decide, by decide, ?_⟩
  intro fuel
  have hloop := buildBlockListLoop_diverges 180 0 (le_refl _) fuel 100 [] (by decide)
  have hlist : buildBlockList (CONFIG zeroStepEnv).windowStart (CONFIG zeroStepEnv).windowEnd
      (CONFIG zeroStepEnv).step fuel = none := by
    show buildBlockList 100 180 0 fuel = none
    unfold buildBlockList
    rw [hloop]
  unfold ghostRun
  simp only [hlist]

/-- C20 (amended).  `ghost-audit` does not validate the window settings.  An unset
`WINDOW_START`, `WINDOW_END` or `STEP` takes its default (41493000; `REALIZED_BLOCK`, else
41493767; 20).  With a start greater than the end the run is not rejected: it announces
and simulates the single candidate `end`.  With a start not greater than the end and a
step of at least 1 the run is not rejected either: it announces and simulates the
candidates, beginning with `start`. -/
theorem C20_window_settings_take_defaults_and_run :
    (∀ env : ProcessEnv,
      (CONFIG env).windowStart = env.WINDOW_START.getD 41493000 ∧
      (CONFIG env).windowEnd
        = (env.WINDOW_END.orElse (fun _ => env.REALIZED_BLOCK)).getD 41493767 ∧
      (CONFIG env).step = env.STEP.getD 20) ∧
    (∀ (config : GhostConfig) (ctx : StaticContext) (world : Int → CandidateWorld)
        (chain : RealizedWorld) (fuel : Nat),
      config.windowEnd < config.windowStart →
      ∃ run, ghostRun config ctx world chain fuel = some run ∧
        run.announced = [config.windowEnd]) ∧
    (∀ (config : GhostConfig) (ctx : StaticContext) (world : Int → CandidateWorld)
        (chain : RealizedWorld) (fuel : Nat),
      config.windowStart ≤ config.windowEnd → 1 ≤ config.step →
      (config.windowEnd - config.windowStart).toNat + 1 ≤ fuel →
      ∃ run tail, ghostRun config ctx world chain fuel = some run ∧
        run.announced = config.windowStart :: tail) := by
  refine ⟨fun env => ⟨rfl, rfl, rfl⟩, ?_, ?_⟩
  · intro config ctx world chain fuel hlt
    have hblocks := buildBlockList_of_start_gt config.windowStart config.windowEnd
      config.step hlt fuel
    obtain ⟨run, tail, hrun, hann⟩ := ghostRun_announces_first config ctx world chain fuel
      config.windowEnd [] hblocks
    refine ⟨run, hrun, ?_⟩
    have hone := simulateAll_singleton world ctx (rewardTokensOf ctx) (lower ctx.native)
      config.windowEnd
    unfold ghostRun at hrun
    simp only [hblocks] at hrun
    cases hsim : simulateAll world ctx (rewardTokensOf ctx) (lower ctx.native)
        [config.windowEnd] [] [] with
    | mk announced out =>
      rw [hsim] at hone
      simp only at hone
      cases out with
      | failed failure =>
        simp only [hsim, Option.some.injEq] at hrun
        rw [← hrun]
        exact hone
      | ok results =>
        simp only [hsim, Option.some.injEq] at hrun
        rw [← hrun]
        exact hone
  · intro config ctx world chain fuel hse hstep hfuel
    obtain ⟨rest, hblocks⟩ := buildBlockList_head config.windowStart config.windowEnd
      config.step hse hstep fuel hfuel
    exact ghostRun_announces_first config ctx world chain fuel config.windowStart rest hblocks

/-! ## Re-sorting, and the cost of the window search -/

/-- C21.  For every list of scored rows, in `ghost-audit` and in the merger alike, sorting
the already-sorted list again with the net-profit comparator returns the same list in the
same order, ties included. -/
theorem C21_ranker_sort_idempotent :
    (∀ xs : List Scored,
      arraySort (fun a b => compareNetProfit a.netProfitEthWei b.netProfitEthWei)
          (arraySort (fun a b => compareNetProfit a.netProfitEthWei b.netProfitEthWei) xs)
        = arraySort (fun a b => compareNetProfit a.netProfitEthWei b.netProfitEthWei) xs) ∧
    (∀ xs : List MergedScored,
      arraySort (fun a b => compareNetProfit a.netProfitEthWei b.netProfitEthWei)
          (arraySort (fun a b => compareNetProfit a.netProfitEthWei b.netProfitEthWei) xs)
        = arraySort (fun a b => compareNetProfit a.netProfitEthWei b.netProfitEthWei) xs) := by
  constructor
  · intro xs
    have htotal : IsTotal Scored
        (fun a b => compareNetProfit a.netProfitEthWei b.netProfitEthWei ≤ 0) :=
      ⟨fun a b => by
        simp only [compareNetProfit_le_zero_iff]
        exact le_total _ _⟩
    have htrans : IsTrans Scored
        (fun a b => compareNetProfit a.netProfitEthWei b.netProfitEthWei ≤ 0) :=
      ⟨fun a b c => by
        simp only [compareNetProfit_le_zero_iff]
        intro h1 h2
        exact le_trans h2 h1⟩
    unfold arraySort
    exact List.Sorted.insertionSort_eq (List.sorted_insertionSort _ xs)
  · intro xs
    have htotal : IsTotal MergedScored
        (fun a b => compareNetProfit a.netProfitEthWei b.netProfitEthWei ≤ 0) :=
      ⟨fun a b => by
        simp only [compareNetProfit_le_zero_iff]
        exact le_total _ _⟩
    have htrans : IsTrans MergedScored
        (fun a b => compareNetProfit a.netProfitEthWei b.netProfitEthWei ≤ 0) :=
      ⟨fun a b c => by
        simp only [compareNetProfit_le_zero_iff]
        intro h1 h2
        exact le_trans h2 h1⟩
    unfold arraySort
    exact List.Sorted.insertionSort_eq (List.sorted_insertionSort _ xs)

/-- The search loop from `(lo, hi)` runs a number `k` of iterations that is at most
`ceil(log2(hi - lo))`: fuel `k` suffices and no smaller fuel does; it makes one lookup
per iteration; it makes no iteration exactly when `hi - lo ≤ 1`; and from `lo < hi` it
returns a block of `(lo, hi]`. -/
theorem searchLoop_iterations (ts : Int → Int) (target : Int) :
    ∀ (d : Nat) (lo hi : Int) (seen : List Int), (hi - lo).toNat = d →
      ∃ (k : Nat) (b : Int) (more : List Int), k ≤ Nat.clog 2 d ∧
        searchLoop ts target k lo hi seen = some (b, seen ++ more) ∧ more.length = k ∧
        (∀ j, j < k → searchLoop ts target j lo hi seen = none) ∧
        (k = 0 ↔ hi - lo ≤ 1) ∧ (lo < hi → lo < b ∧ b ≤ hi) := by
  intro d
  induction d using Nat.strong_induction_on with
  | _ d ih =>
    intro lo hi seen hd
    by_cases hlt : lo + 1 < hi
    · have hd2 : 2 ≤ d := by omega
      have hclog : Nat.clog 2 d = Nat.clog 2 ((d + 1) / 2) + 1 := by
        rw [Nat.clog_of_two_le (by norm_num) hd2]
        have hsum : d + 2 - 1 = d + 1 := by omega
        rw [hsum]
      by_cases hge : ts ((lo + hi) / 2) ≥ target
      · obtain ⟨k, b, more, hk, hs, hlen, hnone, _, hrange⟩ :=
          ih ((lo + hi) / 2 - lo).toNat (by omega) lo ((lo + hi) / 2)
            (seen ++ [(lo + hi) / 2]) rfl
        refine ⟨k + 1, b, (lo + hi) / 2 :: more, ?_, ?_, by simp [hlen], ?_, ?_, ?_⟩
        · rw [hclog]
          have := Nat.clog_mono_right 2
            (show ((lo + hi) / 2 - lo).toNat ≤ (d + 1) / 2 by omega)
          omega
        · rw [searchLoop, if_pos hlt]
          simp only [hge, if_true]
          rw [hs]
          simp
        · intro j hj
          cases j with
          | zero => simp [searchLoop, hlt]
          | succ j =>
            rw [searchLoop, if_pos hlt]
            simp only [hge, if_true]
            exact hnone j (by omega)
        · constructor
          · intro h; omega
          · intro h; omega
        · intro _
          have := hrange (by omega)
          exact ⟨this.1, by omega⟩
      · obtain ⟨k, b, more, hk, hs, hlen, hnone, _, hrange⟩ :=
          ih (hi - (lo + hi) / 2).toNat (by omega) ((lo + hi) / 2) hi
            (seen ++ [(lo + hi) / 2]) rfl
        refine ⟨k + 1, b, (lo + hi) / 2 :: more, ?_, ?_, by simp [hlen], ?_, ?_, ?_⟩
        · rw [hclog]
          have := Nat.clog_mono_right 2
            (show (hi - (lo + hi) / 2).toNat ≤ (d + 1) / 2 by omega)
          omega
        · rw [searchLoop, if_pos hlt]
          simp only [hge, if_false]
          rw [hs]
          simp
        · intro j hj
          cases j with
          | zero => simp [searchLoop, hlt]
          | succ j =>
            rw [searchLoop, if_pos hlt]
            simp only [hge, if_false]
            exact hnone j (by omega)
        · constructor
          · intro h; omega
          · intro h; omega
        · intro _
          have := hrange (by omega)
          exact ⟨by omega, this.2⟩
    · refine ⟨0, hi, [], Nat.zero_le _, by simp [searchLoop, hlt], rfl, ?_, ?_, ?_⟩
      · intro j hj
        exact absurd hj (Nat.not_lt_zero _)
      · constructor
        · intro _; omega
        · intro _; rfl
      · intro h
        exact ⟨h, le_refl _⟩

/-- C23.  For every `lo < hi` and every timestamp function, monotone or not, the search
loop terminates: it runs `k ≤ ceil(log2(hi - lo))` iterations (fuel `k` is enough and no
smaller fuel is), it makes exactly one timestamp lookup per iteration (`k` lookups), it
iterates only while `hi - lo > 1`, and it returns a block in `(lo, hi]`. -/
theorem C23_search_loop_terminates_within_log (ts : Int → Int) (target lo hi : Int)
    (h : lo < hi) :
    ∃ (k : Nat) (b : Int) (lookups : List Int),
      k ≤ Nat.clog 2 (hi - lo).toNat ∧
      (∀ fuel, k ≤ fuel → searchLoop ts target fuel lo hi [] = some (b, lookups)) ∧
      (∀ fuel, fuel < k → searchLoop ts target fuel lo hi [] = none) ∧
      lookups.length = k ∧ (k = 0 ↔ hi - lo ≤ 1) ∧ lo < b ∧ b ≤ hi := by
  obtain ⟨k, b, more, hk, hs, hlen, hnone, hzero, hrange⟩ :=
    searchLoop_iterations ts target (hi - lo).toNat lo hi [] rfl
  simp only [List.nil_append] at hs
  exact ⟨k, b, more, hk, fun fuel hf => searchLoop_mono ts target k fuel hf lo hi [] _ hs,
    hnone, hlen, hzero, (hrange h).1, (hrange h).2⟩

/-- Witness for C23: from `(0, 8)` on a chain of two-second blocks with target 1000 the
loop makes the three lookups 4, 2, 1 and returns block 1. -/
theorem C23_search_loop_terminates_within_log_witness :
    searchLoop twoSecondBlocks 1000 3 0 8 [] = some (1, [4, 2, 1]) ∧
    Nat.clog 2 ((8 : Int) - 0).toNat = 3 ∧
    ∃ (k : Nat) (b : Int) (lookups : List Int),
      k ≤ Nat.clog 2 ((8 : Int) - 0).toNat ∧
      (∀ fuel, k ≤ fuel → searchLoop twoSecondBlocks 1000 fuel 0 8 [] = some (b, lookups)) ∧
      (∀ fuel, fuel < k → searchLoop twoSecondBlocks 1000 fuel 0 8 [] = none) ∧
      lookups.length = k ∧ (k = 0 ↔ (8 : Int) - 0 ≤ 1) ∧ 0 < b ∧ b ≤ 8 :=
  ⟨by decide,
    by
      rw [show ((8 : Int) - 0).toNat = 2 ^ 3 by decide]
      exact Nat.clog_pow 2 3 (by norm_num),
    C23_search_loop_terminates_within_log twoSecondBlocks 1000 0 8 (by decide)⟩

/-! ## Exact shape of the candidate list -/

theorem buildBlockListLoop_exact (stop step : Int) (hstep : 1 ≤ step) :
    ∀ (n fuel : Nat) (b : Int) (blocks : List Int),
      ((stop - b) / step + 1).toNat = n → n ≤ fuel →
      buildBlockListLoop stop step fuel b blocks
        = some (blocks ++ (List.range n).map (fun i : Nat => b + (i : Int) * step)) := by
  intro n
  induction n with
  | zero =>
    intro fuel b blocks hn _
    have hneg : (stop - b) / step < 0 := by omega
    have hb : ¬ b ≤ stop := by
      intro hle
      have := Int.ediv_nonneg (show 0 ≤ stop - b by omega) (show 0 ≤ step by omega)
      omega
    cases fuel with
    | zero => simp [buildBlockListLoop, hb]
    | succ f => simp [buildBlockListLoop, hb]
  | succ n ih =>
    intro fuel b blocks hn hfuel
    have hq : 0 ≤ (stop - b) / step := by omega
    have hb : b ≤ stop := by
      by_contra hcon
      have := Int.ediv_neg' (show stop - b < 0 by omega) (show 0 < step by omega)
      omega
    have hshift : (stop - (b + step)) / step = (stop - b) / step - 1 := by
      have h1 : stop - (b + step) = (stop - b) + (-1) * step := by ring
      rw [h1, Int.add_mul_ediv_right _ _ (show step ≠ 0 by omega)]
      ring
    cases fuel with
    | zero => omega
    | succ f =>
      rw [buildBlockListLoop, if_pos hb,
        ih f (b + step) (blocks ++ [b]) (by rw [hshift]; omega) (by omega)]
      congr 1
      rw [List.range_succ_eq_map, List.map_cons, List.map_map, List.append_assoc]
      congr 1
      simp only [Nat.cast_zero, zero_mul, add_zero, List.singleton_append, List.cons.injEq,
        true_and]
      apply List.map_congr_left
      intro i _
      simp only [Function.comp, Nat.succ_eq_add_one]
      push_cast
      ring

/-- C22.  For all integers `start`, `end` and `step ≥ 1`, `buildBlockList` terminates.
When `start ≤ end` it returns `start, start + step, ..., start + k * step` with
`k = floor((end - start) / step)`, followed by `end` if and only if `end - start` is not a
multiple of `step`; when `start > end` it returns the single-element list `[end]`. -/
theorem C22_buildBlockList_exact_shape :
    (∀ start stop step : Int, 1 ≤ step → start ≤ stop →
      ∀ fuel, ((stop - start) / step).toNat + 1 ≤ fuel →
        buildBlockList start stop step fuel
          = some ((List.range (((stop - start) / step).toNat + 1)).map
                (fun i : Nat => start + (i : Int) * step)
              ++ (if (stop - start) % step = 0 then [] else [stop]))) ∧
    (∀ start stop step : Int, 1 ≤ step → stop < start →
      ∀ fuel, buildBlockList start stop step fuel = some [stop]) ∧
    (∀ fuel, 3 ≤ fuel → buildBlockList 100 145 20 fuel = some [100, 120, 140, 145]) := by
  refine ⟨?_, ?_, ?_⟩
  · intro start stop step hstep hse fuel hfuel
    have hq : 0 ≤ (stop - start) / step :=
      Int.ediv_nonneg (by omega) (by omega)
    have hloop := buildBlockListLoop_exact stop step hstep
      (((stop - start) / step).toNat + 1) fuel start []
      (by omega) hfuel
    unfold buildBlockList
    rw [hloop]
    simp only [List.nil_append]
    have hlast : ((List.range (((stop - start) / step).toNat + 1)).map
        (fun i : Nat => start + (i : Int) * step)).getLast?
          = some (start + (stop - start) / step * step) := by
      rw [List.range_succ, List.map_append, List.map_singleton, List.getLast?_concat,
        Int.toNat_of_nonneg hq]
    have hdiv := Int.ediv_add_emod (stop - start) step
    by_cases hmod : (stop - start) % step = 0
    · have heq : start + (stop - start) / step * step = stop := by
        rw [hmod] at hdiv
        linarith
      simp [hlast, heq, hmod]
    · have hne : ¬ start + (stop - start) / step * step = stop := by
        intro heq
        apply hmod
        linarith
      simp [hlast, hne, hmod]
  · intro start stop step _ hlt fuel
    exact buildBlockList_of_start_gt start stop step hlt fuel
  · intro fuel hfuel
    exact buildBlockList_mono 100 145 20 3 fuel hfuel _ (by decide)

/-! ## Conservation of attributed inflows -/

theorem dictSum_dictSet_add (d : Dict) (k : Address) (v : Int) :
    dictSum (dictSet d k ((dictGet d k).getD 0 + v)) = dictSum d + v := by
  induction d with
  | nil => simp [dictSum, dictSet, dictGet]
  | cons p rest ih =>
    obtain ⟨a, w⟩ := p
    by_cases hk : a = k
    · simp only [dictSet, dictGet, hk, if_true, Option.getD_some, dictSum, List.map_cons,
        List.sum_cons]
      ring
    · simp only [dictSet, dictGet, hk, if_false, dictSum, List.map_cons, List.sum_cons]
      unfold dictSum at ih
      rw [ih]
      ring

theorem scanStrategyEvent_nativeIn (st : ScanState) (log : Log) :
    (scanStrategyEvent st log).nativeInTransfers = st.nativeInTransfers := by
  unfold scanStrategyEvent
  split
  · split <;> rfl
  · rfl

theorem addNativeOut_nativeIn (N tl sender : Address) (value : Int) (st : ScanState) :
    (addNativeOut N tl sender value st).nativeInTransfers = st.nativeInTransfers := by
  unfold addNativeOut
  split <;> rfl

theorem addRewardIn_nativeIn (R : List Address) (tl recipient : Address) (value : Int)
    (st : ScanState) :
    (addRewardIn R tl recipient value st).nativeInTransfers = st.nativeInTransfers := by
  unfold addRewardIn
  split <;> rfl

theorem addRewardOut_nativeIn (R : List Address) (tl sender : Address) (value : Int)
    (st : ScanState) :
    (addRewardOut R tl sender value st).nativeInTransfers = st.nativeInTransfers := by
  unfold addRewardOut
  split
  · split <;> rfl
  · rfl

theorem addNativeIn_totals (N tl recipient : Address) (value : Int) (st : ScanState) :
    (addNativeIn N tl recipient value st).nativeInTransfers
      = st.nativeInTransfers +
        (if tl = N ∧ lower recipient = lower CONFIG_strategy then value else 0) ∧
    dictSum (addNativeIn N tl recipient value st).attributedNativeInByReward
      = dictSum st.attributedNativeInByReward +
        (if (tl = N ∧ lower recipient = lower CONFIG_strategy) ∧
            st.currentAttributionTokenLower.isSome = true then value else 0) := by
  unfold addNativeIn
  by_cases h : tl = N ∧ lower recipient = lower CONFIG_strategy
  · rw [if_pos h]
    cases hc : st.currentAttributionTokenLower with
    | none => simp [hc, h]
    | some cur =>
      simp only [hc, h, and_self, if_true, Option.isSome_some]
      exact ⟨trivial, dictSum_dictSet_add _ _ _⟩
  · rw [if_neg h]
    simp [h]

theorem scanLog_totals (R : List Address) (N : Address) (st : ScanState) (log : Log) :
    (scanLog R N st log).nativeInTransfers
      = st.nativeInTransfers + nativeInflowValue N log ∧
    dictSum (scanLog R N st log).attributedNativeInByReward
      = dictSum st.attributedNativeInByReward +
        (if st.currentAttributionTokenLower.isSome = true then nativeInflowValue N log
          else 0) := by
  unfold scanLog scanTransfer nativeInflowValue isNativeInflow transferValue
  cases h : log.event with
  | Transfer sender recipient value =>
    simp only []
    rw [addRewardOut_nativeIn, addRewardIn_nativeIn, (addNativeIn_totals _ _ _ _ _).1,
      addNativeOut_nativeIn, scanStrategyEvent_nativeIn,
      (addRewardOut_attribution _ _ _ _ _).1, (addRewardIn_attribution _ _ _ _ _).1,
      (addNativeIn_totals _ _ _ _ _).2, (addNativeOut_attribution _ _ _ _ _).1,
      (addNativeOut_attribution _ _ _ _ _).2,
      (scanStrategyEvent_attribution _ _).1, (scanStrategyEvent_attribution _ _).2]
    by_cases hin : lower log.address = N ∧ lower recipient = lower CONFIG_strategy
    · by_cases hc : st.currentAttributionTokenLower.isSome = true
      · simp [hin, hc]
      · simp [hin, hc]
    · simp [hin]
  | ChargedFees _ _ _ =>
    simp [scanStrategyEvent_nativeIn, (scanStrategyEvent_attribution st log).1]
  | StratHarvest _ _ _ =>
    simp [scanStrategyEvent_nativeIn, (scanStrategyEvent_attribution st log).1]
  | unknown =>
    simp [scanStrategyEvent_nativeIn, (scanStrategyEvent_attribution st log).1]

theorem uncreditedNativeIn_cons (R : List Address) (N : Address) (log : Log)
    (rest : List Log) :
    uncreditedNativeIn R N (log :: rest) =
      nativeInflowValue N log +
        (if isRewardSale R log = true then 0 else uncreditedNativeIn R N rest) := by
  unfold uncreditedNativeIn nativeInBeforeFirstSale
  by_cases hs : isRewardSale R log = true
  · simp [List.takeWhile_cons, List.dropWhile_cons, hs]
  · simp [List.takeWhile_cons, List.dropWhile_cons, hs]
    ring

/-- Once a reward sale has been seen, every further native inflow is attributed. -/
theorem foldl_scanLog_after_sale (R : List Address) (N : Address) (logs : List Log) :
    ∀ st : ScanState, st.currentAttributionTokenLower.isSome = true →
      dictSum (logs.foldl (scanLog R N) st).attributedNativeInByReward
          - (logs.foldl (scanLog R N) st).nativeInTransfers
        = dictSum st.attributedNativeInByReward - st.nativeInTransfers := by
  induction logs with
  | nil => intro st _; rfl
  | cons log rest ih =>
    intro st hc
    rw [List.foldl_cons]
    have hcur : (scanLog R N st log).currentAttributionTokenLower.isSome = true := by
      rw [scanLog_current]
      split
      · rfl
      · exact hc
    rw [ih _ hcur, (scanLog_totals R N st log).1, (scanLog_totals R N st log).2]
    simp only [hc, if_true]
    ring

/-- Before any reward sale, native inflows are counted but not attributed. -/
theorem foldl_scanLog_before_sale (R : List Address) (N : Address) (logs : List Log) :
    ∀ st : ScanState, st.currentAttributionTokenLower = none →
      dictSum (logs.foldl (scanLog R N) st).attributedNativeInByReward
        = dictSum st.attributedNativeInByReward
          + ((logs.foldl (scanLog R N) st).nativeInTransfers - st.nativeInTransfers)
          - uncreditedNativeIn R N logs := by
  induction logs with
  | nil =>
    intro st _
    simp [uncreditedNativeIn, nativeInBeforeFirstSale]
  | cons log rest ih =>
    intro st hc
    rw [List.foldl_cons, uncreditedNativeIn_cons]
    have ht := scanLog_totals R N st log
    simp only [hc, Option.isSome_none, Bool.false_eq_true, if_false, add_zero] at ht
    by_cases hs : isRewardSale R log = true
    · have hcur : (scanLog R N st log).currentAttributionTokenLower.isSome = true := by
        rw [scanLog_current, if_pos hs]
        rfl
      have hafter := foldl_scanLog_after_sale R N rest _ hcur
      rw [if_pos hs]
      rw [ht.1, ht.2] at hafter
      linarith
    · have hcur : (scanLog R N st log).currentAttributionTokenLower = none := by
        rw [scanLog_current, if_neg hs]
        exact hc
      have hbefore := ih _ hcur
      rw [if_neg hs]
      rw [ht.1, ht.2] at hbefore
      linarith

theorem scanLogs_conservation (R : List Address) (N : Address) (logs : List Log) :
    dictSum (scanLogs R N logs).attributedNativeInByReward
      = (scanLogs R N logs).nativeInTransfers - uncreditedNativeIn R N logs := by
  have h := foldl_scanLog_before_sale R N logs initialScanState rfl
  unfold scanLogs
  rw [h]
  simp [initialScanState, dictSum]

theorem nativeInflowValue_nonneg (N : Address) (log : Log) (h : nonnegAmounts log) :
    0 ≤ nativeInflowValue N log := by
  unfold nativeInflowValue transferValue
  unfold nonnegAmounts at h
  split
  · cases hev : log.event with
    | Transfer sender recipient value =>
      rw [hev] at h
      exact h
    | ChargedFees _ _ _ => exact le_refl 0
    | StratHarvest _ _ _ => exact le_refl 0
    | unknown => exact le_refl 0
  · exact le_refl 0

theorem uncreditedNativeIn_nonneg (R : List Address) (N : Address) (logs : List Log)
    (h : ∀ log ∈ logs, nonnegAmounts log) : 0 ≤ uncreditedNativeIn R N logs := by
  induction logs with
  | nil => simp [uncreditedNativeIn, nativeInBeforeFirstSale]
  | cons log rest ih =>
    rw [uncreditedNativeIn_cons]
    have h1 := nativeInflowValue_nonneg N log (h log (List.mem_cons_self _ _))
    have h2 := ih (fun l hl => h l (List.mem_cons_of_mem _ hl))
    split <;> linarith

theorem nativeInBeforeFirstSale_cons (R : List Address) (N : Address) (log : Log)
    (rest : List Log) :
    nativeInBeforeFirstSale R N (log :: rest) =
      if isRewardSale R log = true then 0
      else nativeInflowValue N log + nativeInBeforeFirstSale R N rest := by
  unfold nativeInBeforeFirstSale
  by_cases hs : isRewardSale R log = true
  · simp [List.takeWhile_cons, hs]
  · simp [List.takeWhile_cons, hs]

theorem uncreditedNativeIn_eq_before (R : List Address) (N : Address) (logs : List Log)
    (h : ∀ log ∈ logs, ¬(isRewardSale R log = true ∧ isNativeInflow N log = true)) :
    uncreditedNativeIn R N logs = nativeInBeforeFirstSale R N logs := by
  induction logs with
  | nil => simp [uncreditedNativeIn, nativeInBeforeFirstSale]
  | cons log rest ih =>
    rw [uncreditedNativeIn_cons, nativeInBeforeFirstSale_cons,
      ih (fun l hl => h l (List.mem_cons_of_mem _ hl))]
    by_cases hs : isRewardSale R log = true
    · have hin : ¬ isNativeInflow N log = true :=
        fun hin => h log (List.mem_cons_self _ _) ⟨hs, hin⟩
      rw [if_pos hs, if_pos hs]
      unfold nativeInflowValue
      rw [if_neg hin]
      rfl
    · rw [if_neg hs, if_neg hs]

/-- When the native token is not a configured reward token, no log is at once a reward sale
and a native inflow. -/
theorem not_sale_and_inflow_of_not_mem (R : List Address) (N : Address) (hN : N ∉ R)
    (log : Log) : ¬(isRewardSale R log = true ∧ isNativeInflow N log = true) := by
  unfold isRewardSale isNativeInflow
  cases log.event with
  | Transfer sender recipient value =>
    simp only [decide_eq_true_eq]
    rintro ⟨⟨hmem, _⟩, ⟨heq, _⟩⟩
    exact hN (heq ▸ hmem)
  | ChargedFees _ _ _ => simp
  | StratHarvest _ _ _ => simp
  | unknown => simp

/-- C24 (as stated, refuted).  With the native token configured as a reward token, a
successful receipt whose only log transfers 5 native tokens from the strategy to itself
gives `nativeInWei = 5` and an empty `nativeInByReward`, although no native inflow
appears before the first non-zero reward outflow: the attributed sum 0 is not
`5 - 0`. -/
theorem C24_self_transfer_inflow_not_credited :
    parseReceiptStatus selfTransferReceipt.status = "success" ∧
    ∃ row, buildHarvestRowFromReceipt 400 "0x24" selfTransferReceipt [exampleNative]
        exampleNative none none = .success row ∧
      row.estimated.nativeInWei = 5 ∧
      row.swapAttribution.nativeInByReward = [] ∧
      (selfTransferReceipt.logs.getD []).map (isRewardSale [exampleNative]) = [true] ∧
      nativeInBeforeFirstSale [exampleNative] exampleNative
        (selfTransferReceipt.logs.getD []) = 0 ∧
      dictSum row.swapAttribution.nativeInByReward ≠
        row.estimated.nativeInWei -
          nativeInBeforeFirstSale [exampleNative] exampleNative
            (selfTransferReceipt.logs.getD []) := by
  refine ⟨by decide, _, rfl, ?_, ?_, ?_, ?_, ?_⟩ <;> decide

/-- C24 (amended).  For every successful receipt, the sum of the entries of
`swapAttribution.nativeInByReward` equals `estimated.nativeInWei` minus the native-token
inflows to the strategy that no non-zero reward-token outflow from the strategy precedes:
those carried by the logs before the first such outflow, and the one carried by that
outflow's own log when it is itself a native-token transfer to the strategy.  When the
transfer values are non-negative the sum is at most `nativeInWei`, and when no log is at
once such an outflow and a native inflow the amount left out is exactly the inflows before
the first such outflow. -/
theorem C24_attributed_sum_conservation (targetBlock : Int) (txHash : String)
    (receipt : Receipt) (rewardTokenSet : List Address) (nativeTokenLower : Address)
    (wantPricing : Option WantPricing) (l1FeeWei : Option Int)
    (hstatus : parseReceiptStatus receipt.status = "success") :
    ∃ row, buildHarvestRowFromReceipt targetBlock txHash receipt rewardTokenSet
        nativeTokenLower wantPricing l1FeeWei = .success row ∧
      dictSum row.swapAttribution.nativeInByReward
        = row.estimated.nativeInWei
          - uncreditedNativeIn rewardTokenSet nativeTokenLower (receipt.logs.getD []) ∧
      ((∀ log ∈ receipt.logs.getD [], nonnegAmounts log) →
        dictSum row.swapAttribution.nativeInByReward ≤ row.estimated.nativeInWei) ∧
      ((∀ log ∈ receipt.logs.getD [],
          ¬(isRewardSale rewardTokenSet log = true ∧
            isNativeInflow nativeTokenLower log = true)) →
        dictSum row.swapAttribution.nativeInByReward
          = row.estimated.nativeInWei
            - nativeInBeforeFirstSale rewardTokenSet nativeTokenLower
                (receipt.logs.getD [])) ∧
      (nativeTokenLower ∉ rewardTokenSet →
        dictSum row.swapAttribution.nativeInByReward
          = row.estimated.nativeInWei
            - nativeInBeforeFirstSale rewardTokenSet nativeTokenLower
                (receipt.logs.getD [])) := by
  simp only [buildHarvestRowFromReceipt, hstatus, ne_eq, not_true_eq_false, if_false]
  have hcons := scanLogs_conservation rewardTokenSet nativeTokenLower (receipt.logs.getD [])
  refine ⟨_, rfl, hcons, ?_, ?_, ?_⟩
  · intro hnonneg
    have := uncreditedNativeIn_nonneg rewardTokenSet nativeTokenLower _ hnonneg
    show dictSum (scanLogs rewardTokenSet nativeTokenLower
      (receipt.logs.getD [])).attributedNativeInByReward ≤ _
    rw [hcons]
    exact sub_le_self _ this
  · intro hdisj
    rw [← uncreditedNativeIn_eq_before rewardTokenSet nativeTokenLower _ hdisj]
    exact hcons
  · intro hN
    rw [← uncreditedNativeIn_eq_before rewardTokenSet nativeTokenLower _
      (fun log _ => not_sale_and_inflow_of_not_mem rewardTokenSet nativeTokenLower hN log)]
    exact hcons

/-- Witness for C24: in the attribution example the inflows total 17, the inflow of 5
precedes the first sale, and the attributed amounts sum to 12. -/
theorem C24_attributed_sum_conservation_witness :
    uncreditedNativeIn [exampleRewardA, exampleRewardB] exampleNative
      (attributionReceipt.logs.getD []) = 5 ∧
    nativeInBeforeFirstSale [exampleRewardA, exampleRewardB] exampleNative
      (attributionReceipt.logs.getD []) = 5 ∧
    exampleNative ∉ [exampleRewardA, exampleRewardB] ∧
    ∃ row, buildHarvestRowFromReceipt 200 "0xcd" attributionReceipt
        [exampleRewardA, exampleRewardB] exampleNative none none = .success row ∧
      dictSum row.swapAttribution.nativeInByReward
        = row.estimated.nativeInWei
          - uncreditedNativeIn [exampleRewardA, exampleRewardB] exampleNative
              (attributionReceipt.logs.getD []) ∧
      ((∀ log ∈ attributionReceipt.logs.getD [], nonnegAmounts log) →
        dictSum row.swapAttribution.nativeInByReward ≤ row.estimated.nativeInWei) ∧
      ((∀ log ∈ attributionReceipt.logs.getD [],
          ¬(isRewardSale [exampleRewardA, exampleRewardB] log = true ∧
            isNativeInflow exampleNative log = true)) →
        dictSum row.swapAttribution.nativeInByReward
          = row.estimated.nativeInWei
            - nativeInBeforeFirstSale [exampleRewardA, exampleRewardB] exampleNative
                (attributionReceipt.logs.getD [])) ∧
      (exampleNative ∉ [exampleRewardA, exampleRewardB] →
        dictSum row.swapAttribution.nativeInByReward
          = row.estimated.nativeInWei
            - nativeInBeforeFirstSale [exampleRewardA, exampleRewardB] exampleNative
                (attributionReceipt.logs.getD [])) :=
  ⟨by decide, by decide, by decide,
    C24_attributed_sum_conservation 200 "0xcd" attributionReceipt
      [exampleRewardA, exampleRewardB] exampleNative none none (by decide)⟩

end GhostAudit
